import Mathlib

/-!
# Name matching, SQL generation and sheet division in excel-file-divider

A shallow embedding of the following parts of the repository:

* `src/utils/nameUtils.js`  : `normalizeName`, `levenshteinDistance`,
  `calculateNameSimilarity`, `findBestNameMatch`
* `src/match/matchNames.js` : `MatchNames.findMatches`, `MatchNames.normalizeName`,
  `MatchNames.generateSqlStatements`, `MatchNames.escapeSql`
* `src/utils/sqlUtils.js`   : `escapeSqlString`
* `src/matchNames.js`       : `cleanName`, `readExcelMap`, `readExcelPlanMap`, the
  statement loop of `main`
* `src/excelDivider.js`     : `saveFiles`
* `src/divider/excelDivider.js` : `validateConfig`, `cleanRow`, `processRow`,
  `saveCurrentWorkbook`, `processExcel`
* `src/sql/excelToSql.js`   : `rowPassesFilter`, `generateSqlStatement`, `processExcel`
* `src/utils/validationUtils.js`, `src/utils/errorUtils.js` : the validators
* `src/formatNames.js`      : `splitName`, `columnLetterToIndex`, `columnIndexToLetter`,
  `formatNumberWithThousands`, `concatenateColumns`

A JavaScript string is modelled as the list of its UTF-16 code units and the number of
a cell as an integer.  The arithmetic of `calculateNameSimilarity`,
`columnLetterToIndex` and `columnIndexToLetter` is carried out in double precision: a
double is the rational number it denotes, and every operation is followed by the
rounding `toDouble`.  The two library methods `String.prototype.toLowerCase` and
`String.prototype.normalize('NFD')`, whose Unicode tables are not part of the
repository, are parameters of the embedding (`Builtins`), and so are `parseInt` and
`Number.prototype.toLocaleString` (`NumberBuiltins`).
-/

namespace ExcelFileDivider

/-! ## JavaScript values -/

/-- A JavaScript string, as the sequence of its UTF-16 code units. -/
abbrev JsString := List Nat

/-- The UTF-16 code units of one Unicode scalar value. -/
def utf16Char (c : Char) : JsString :=
  if c.toNat < 0x10000 then [c.toNat]
  else [0xD800 + (c.toNat - 0x10000) / 0x400, 0xDC00 + (c.toNat - 0x10000) % 0x400]

/-- The JavaScript string written by a literal. -/
def js (s : String) : JsString := s.data.flatMap utf16Char

/-- The values a record cell can hold (`string | number | null`), together with
`undefined`, which is what reading an absent field gives.  Numbers are the integers. -/
inductive JsValue where
  | undefined : JsValue
  | null : JsValue
  | num (n : Int) : JsValue
  | str (s : JsString) : JsValue
  deriving DecidableEq, Repr

/-- Decimal digits of a natural number, most significant first (`fuel` bounds the
number of digits). -/
def decimalDigits : Nat → Nat → JsString
  | 0, _ => []
  | fuel + 1, n =>
    if n < 10 then [48 + n] else decimalDigits fuel (n / 10) ++ [48 + n % 10]

/-- `Number::toString` on an integer (plain decimal notation, which is what JavaScript
prints for integers of magnitude below `10^21`). -/
def numberToString (n : Int) : JsString :=
  if n < 0 then 45 :: decimalDigits (n.natAbs + 1) n.natAbs
  else decimalDigits (n.natAbs + 1) n.natAbs

/-- The abstract operation `ToString`, used by `String(v)` and by template literals. -/
def toStringJs : JsValue → JsString
  | .undefined => js "undefined"
  | .null => js "null"
  | .num n => numberToString n
  | .str s => s

/-- The abstract operation `ToBoolean` (truthiness). -/
def truthy : JsValue → Bool
  | .undefined => false
  | .null => false
  | .num n => n != 0
  | .str s => !s.isEmpty

/-- The two `String.prototype` methods the code calls whose behaviour is given by the
Unicode character database rather than by the repository. -/
structure Builtins where
  /-- `s.toLowerCase()` -/
  toLowerCase : JsString → JsString
  /-- `s.normalize('NFD')` -/
  normalizeNFD : JsString → JsString

/-! ## Regular-expression and trimming primitives -/

/-- The code units matched by `\s` in a regular expression, which are also the ones
removed by `String.prototype.trim` (WhiteSpace and LineTerminator of ECMAScript). -/
def isWhiteSpace (c : Nat) : Bool :=
  c == 9 || c == 10 || c == 11 || c == 12 || c == 13 || c == 32 || c == 0xA0 ||
  c == 0x1680 || (0x2000 ≤ c && c ≤ 0x200A) || c == 0x2028 || c == 0x2029 ||
  c == 0x202F || c == 0x205F || c == 0x3000 || c == 0xFEFF

/-- The class of the combining diacritical marks, U+0300 to U+036F. -/
def isCombiningMark (c : Nat) : Bool := 0x300 ≤ c && c ≤ 0x36F

/-- The class `[a-z0-9\s]`. -/
def isNameChar (c : Nat) : Bool :=
  (97 ≤ c && c ≤ 122) || (48 ≤ c && c ≤ 57) || isWhiteSpace c

/-- `s.replace(/[class]/g, rep)`: every code unit of the class is replaced by `rep`. -/
def replaceClass (p : Nat → Bool) (rep : JsString) (s : JsString) : JsString :=
  s.flatMap (fun c => if p c then rep else [c])

/-- Worker of `replaceRuns`; the flag tells whether the previous code unit belonged to
the run being replaced. -/
def replaceRunsAux (p : Nat → Bool) (rep : JsString) : Bool → JsString → JsString
  | _, [] => []
  | inRun, c :: cs =>
    if p c then
      if inRun then replaceRunsAux p rep true cs
      else rep ++ replaceRunsAux p rep true cs
    else c :: replaceRunsAux p rep false cs

/-- `s.replace(/[class]+/g, rep)`: every maximal run of code units of the class is
replaced by one copy of `rep`. -/
def replaceRuns (p : Nat → Bool) (rep : JsString) (s : JsString) : JsString :=
  replaceRunsAux p rep false s

/-- `s.trim()`. -/
def trim (s : JsString) : JsString :=
  ((s.dropWhile isWhiteSpace).reverse.dropWhile isWhiteSpace).reverse

/-! ## Records -/

/-- A record: one row of a source, a mapping from column name to cell value. -/
abbrev Record := List (String × JsValue)

/-- Property access `r.k`; an absent field reads as `undefined`. -/
def field (r : Record) (k : String) : JsValue := (r.lookup k).getD JsValue.undefined

/-! ## `src/match/matchNames.js` -/

namespace MatchNames

/-- `MatchNames.normalizeName(name)`:
`String(name).toLowerCase().normalize('NFD')`, then the combining marks U+0300 to U+036F
are removed and the result is trimmed. -/
def normalizeName (rt : Builtins) (name : JsValue) : JsString :=
  trim (replaceClass isCombiningMark [] (rt.normalizeNFD (rt.toLowerCase (toStringJs name))))

/-- One element of the array built by `findMatches`. -/
structure Match where
  contract : Record
  excel : Record
  plan : Record
  deriving DecidableEq, Repr

/-- The body of the `contracts.forEach` callback of `findMatches`, as a transformer of
the `matches` array. -/
def findMatchesStep (rt : Builtins) (excelData plans : List Record)
    (acc : List Match) (contract : Record) : List Match :=
  match excelData.find? (fun excel =>
      normalizeName rt (field excel "nombre") == normalizeName rt (field contract "nombre")) with
  | some excelMatch =>
    match plans.find? (fun plan =>
        normalizeName rt (field plan "nombre") == normalizeName rt (field contract "nombre")) with
    | some planMatch => acc ++ [{ contract := contract, excel := excelMatch, plan := planMatch }]
    | none => acc
  | none => acc

/-- `MatchNames.findMatches(contracts, excelData, plans)`. -/
def findMatches (rt : Builtins) (contracts excelData plans : List Record) : List Match :=
  contracts.foldl (findMatchesStep rt excelData plans) []

/-- `MatchNames.escapeSql(str)`: `String(str).replace(/'/g, "''")`. -/
def escapeSql (str : JsValue) : JsString :=
  replaceClass (fun c => c == 39) [39, 39] (toStringJs str)

/-- The template literal of `generateSqlStatements` for one match. -/
def sqlStatement (m : Match) : JsString :=
  js "UPDATE contratos \nSET nombre_excel = '" ++ escapeSql (field m.excel "nombre") ++
  js "',\n    plan_id = " ++ toStringJs (field m.plan "id") ++
  js "\nWHERE id = " ++ toStringJs (field m.contract "id") ++ js ";"

/-- `MatchNames.generateSqlStatements(matches)`. -/
def generateSqlStatements (ms : List Match) : List JsString :=
  ms.map sqlStatement

end MatchNames

/-! ## `src/utils/sqlUtils.js` -/

/-- `escapeSqlString(str)`: a value that is not a string is returned unchanged. -/
def escapeSqlString (str : JsValue) : JsValue :=
  match str with
  | .str s => .str (replaceClass (fun c => c == 39) [39, 39] s)
  | v => v

/-! ## Numbers: IEEE 754 double precision -/

/-- The nearest integer to `q`, the even one of the two when `q` is halfway. -/
def roundHalfEven (q : ℚ) : ℤ :=
  if q - ⌊q⌋ < 1 / 2 then ⌊q⌋
  else if 1 / 2 < q - ⌊q⌋ then ⌊q⌋ + 1
  else if ⌊q⌋ % 2 = 0 then ⌊q⌋ else ⌊q⌋ + 1

/-- The binary exponent of the spacing of the doubles around `q`: `e - 52` for
`2^e ≤ |q| < 2^(e+1)`, and `-1074` below `2^(-1022)`. -/
def doubleUlpExponent (q : ℚ) : ℤ :=
  if q = 0 then -1074 else max (Int.log 2 |q|) (-1022) - 52

/-- The Number value of the real number `q`: the double nearest to `q`, ties to the even
significand.  A JavaScript number is modelled as the rational it denotes; values of
magnitude `2^1024` or more, which become `Infinity`, are not modelled. -/
def toDouble (q : ℚ) : ℚ :=
  (roundHalfEven (q / 2 ^ doubleUlpExponent q) : ℚ) * 2 ^ doubleUlpExponent q

/-! ## `src/utils/nameUtils.js` -/

/-- The exceptions the modelled code can raise: a `TypeError`, a `ReferenceError` or a
`RangeError` of the language, a `ValidationError` of `errorUtils.js`, or a plain `Error`. -/
inductive JsError where
  | typeError : JsError
  | referenceError : JsError
  | rangeError : JsError
  | validationError : JsError
  | error : JsError
  deriving DecidableEq, Repr

deriving instance DecidableEq for Except

/-- `normalizeName(name)` of `nameUtils.js`.  A falsy `name` gives `''`; a truthy value
that is not a string has no method `toLowerCase`, and the call raises a `TypeError`. -/
def normalizeName (rt : Builtins) (name : JsValue) : Except JsError JsString :=
  if !truthy name then .ok []
  else
    match name with
    | .str s =>
      .ok (trim (replaceRuns isWhiteSpace [32]
        (replaceClass (fun c => !isNameChar c) []
          (replaceClass isCombiningMark [] (rt.normalizeNFD (rt.toLowerCase s))))))
    | _ => .error JsError.typeError

/-- The two-dimensional array `dp` of `levenshteinDistance`. -/
abbrev Table := List (List Nat)

/-- Reading `dp[i][j]`. -/
def tableGet (dp : Table) (i j : Nat) : Nat := (dp.getD i []).getD j 0

/-- The assignment `dp[i][j] = v`. -/
def tableSet (dp : Table) (i j v : Nat) : Table := dp.set i ((dp.getD i []).set j v)

/-- The body of the inner loop of `levenshteinDistance`. -/
def levenshteinCell (str1 str2 : JsString) (dp : Table) (i j : Nat) : Table :=
  if str1[i - 1]? = str2[j - 1]? then
    tableSet dp i j (tableGet dp (i - 1) (j - 1))
  else
    tableSet dp i j
      (min (tableGet dp (i - 1) (j - 1) + 1)
        (min (tableGet dp (i - 1) j + 1) (tableGet dp i (j - 1) + 1)))

/-- The table of `levenshteinDistance` after its four loops. -/
def levenshteinTable (str1 str2 : JsString) : Table :=
  let m := str1.length
  let n := str2.length
  let dp0 : Table := List.replicate (m + 1) (List.replicate (n + 1) 0)
  let dp1 := (List.range (m + 1)).foldl (fun dp i => tableSet dp i 0 i) dp0
  let dp2 := (List.range (n + 1)).foldl (fun dp j => tableSet dp 0 j j) dp1
  (List.range' 1 m).foldl
    (fun dp i => (List.range' 1 n).foldl (fun dp j => levenshteinCell str1 str2 dp i j) dp) dp2

/-- `levenshteinDistance(str1, str2)`: the entry `dp[m][n]` of the filled table. -/
def levenshteinDistance (str1 str2 : JsString) : Nat :=
  tableGet (levenshteinTable str1 str2) str1.length str2.length

/-- `calculateNameSimilarity(name1, name2)`.  The quotient `distance / maxLength` and the
difference `1 - ...` are double-precision operations: each result is rounded to the
nearest double. -/
def calculateNameSimilarity (rt : Builtins) (name1 name2 : JsValue) : Except JsError ℚ :=
  match normalizeName rt name1 with
  | .error e => .error e
  | .ok normalized1 =>
    match normalizeName rt name2 with
    | .error e => .error e
    | .ok normalized2 =>
      if normalized1.isEmpty || normalized2.isEmpty then .ok 0
      else if normalized1 = normalized2 then .ok 1
      else
        let maxLength := max normalized1.length normalized2.length
        let distance := levenshteinDistance normalized1 normalized2
        .ok (toDouble (1 - toDouble ((distance : ℚ) / (maxLength : ℚ))))

/-! ## The library methods on Latin-1 strings -/

/-- `toLowerCase` on one code unit below U+0100: `A`-`Z` and the capital letters
U+00C0 to U+00DE (the multiplication sign U+00D7 apart) move up by 32. -/
def lowerLatin1 (c : Nat) : Nat :=
  if (65 ≤ c ∧ c ≤ 90) ∨ (0xC0 ≤ c ∧ c ≤ 0xDE ∧ c ≠ 0xD7) then c + 32 else c

/-- The canonical decompositions of the capital letters below U+0100, as
`(letter, base letter, combining mark)`. -/
def capitalDecompositions : List (Nat × Nat × Nat) :=
  [(0xC0, 65, 0x300), (0xC1, 65, 0x301), (0xC2, 65, 0x302), (0xC3, 65, 0x303),
   (0xC4, 65, 0x308), (0xC5, 65, 0x30A), (0xC7, 67, 0x327),
   (0xC8, 69, 0x300), (0xC9, 69, 0x301), (0xCA, 69, 0x302), (0xCB, 69, 0x308),
   (0xCC, 73, 0x300), (0xCD, 73, 0x301), (0xCE, 73, 0x302), (0xCF, 73, 0x308),
   (0xD1, 78, 0x303),
   (0xD2, 79, 0x300), (0xD3, 79, 0x301), (0xD4, 79, 0x302), (0xD5, 79, 0x303),
   (0xD6, 79, 0x308),
   (0xD9, 85, 0x300), (0xDA, 85, 0x301), (0xDB, 85, 0x302), (0xDC, 85, 0x308),
   (0xDD, 89, 0x301)]

/-- `normalize('NFD')` on one code unit below U+0100: an accented letter becomes its
base letter followed by one combining mark (the small letters decompose like the
capital ones, 32 higher, and U+00FF is `y` with a diaeresis). -/
def decomposeLatin1 (c : Nat) : JsString :=
  match capitalDecompositions.lookup c with
  | some (b, m) => [b, m]
  | none =>
    match capitalDecompositions.lookup (c - 32) with
    | some (b, m) => if 0xE0 ≤ c then [b + 32, m] else [c]
    | none => if c = 0xFF then [121, 0x308] else [c]

/-- What ECMAScript prescribes for the two library methods on a string all of whose
code units are below U+0100: both act code unit by code unit. -/
def Latin1Faithful (rt : Builtins) : Prop :=
  (∀ s : JsString, (∀ c ∈ s, c < 256) → rt.toLowerCase s = s.map lowerLatin1) ∧
  (∀ s : JsString, (∀ c ∈ s, c < 256) → rt.normalizeNFD s = s.flatMap decomposeLatin1)

/-- A runtime that follows ECMAScript on the code units below U+0100 and leaves the
other code units as they are. -/
def latin1Builtins : Builtins where
  toLowerCase := fun s => s.map lowerLatin1
  normalizeNFD := fun s => s.flatMap decomposeLatin1

/-- The records whose `nombre`, as a string, has all its code units below U+0100. -/
def Latin1Nombre (r : Record) : Prop := ∀ c ∈ toStringJs (field r "nombre"), c < 256

instance : DecidablePred Latin1Nombre := fun r =>
  inferInstanceAs (Decidable (∀ c ∈ toStringJs (field r "nombre"), c < 256))

/-! ## Specification-side notions -/

/-- The element `x` is the first one of `l`, in list order, that satisfies `P`. -/
def IsFirst {α : Type} (P : α → Prop) (l : List α) (x : α) : Prop :=
  ∃ i : Nat, l[i]? = some x ∧ P x ∧ ∀ j : Nat, j < i → ∀ y, l[j]? = some y → ¬ P y

/-- The key under which `MatchNames.findMatches` compares a record. -/
def nombreKey (rt : Builtins) (r : Record) : JsString :=
  MatchNames.normalizeName rt (field r "nombre")

/-- `s.replace(/''/g, "'")`: scanning from the left, every pair of quotes becomes one. -/
def unescapeSql : JsString → JsString
  | 39 :: 39 :: rest => 39 :: unescapeSql rest
  | c :: rest => c :: unescapeSql rest
  | [] => []

/-- The lengths of the maximal runs of single quotes of a string, from the left; the
first argument is the length of the run in progress. -/
def quoteRunsFrom : Nat → JsString → List Nat
  | k, [] => if k = 0 then [] else [k]
  | k, c :: cs =>
    if c = 39 then quoteRunsFrom (k + 1) cs
    else if k = 0 then quoteRunsFrom 0 cs
    else k :: quoteRunsFrom 0 cs

/-- The lengths of the maximal runs of single quotes of a string. -/
def quoteRuns (s : JsString) : List Nat := quoteRunsFrom 0 s

/-- One single-character edit of a string: a character is inserted, deleted, or
replaced by another, at any position. -/
inductive EditStep {α : Type} : List α → List α → Prop where
  | insert (l r : List α) (c : α) : EditStep (l ++ r) (l ++ c :: r)
  | delete (l r : List α) (c : α) : EditStep (l ++ c :: r) (l ++ r)
  | substitute (l r : List α) (c d : α) : EditStep (l ++ c :: r) (l ++ d :: r)

/-- `EditsIn n s t`: some sequence of `n` single-character edits transforms `s` into
`t`. -/
inductive EditsIn {α : Type} : Nat → List α → List α → Prop where
  | refl (s : List α) : EditsIn 0 s s
  | step {n : Nat} {s u t : List α} : EditsIn n s u → EditStep u t → EditsIn (n + 1) s t

/-- One row of the textbook recurrence of the edit distance: the distances from
`a :: s` to the suffixes of the second string, given those from `s` (`prev`) and the
length of `s`. -/
def editRow {α : Type} [DecidableEq α] (a : α) (prev : List α → Nat) (len : Nat) :
    List α → Nat
  | [] => len + 1
  | b :: t =>
    min (prev (b :: t) + 1) (min (editRow a prev len t + 1) (prev t + if a = b then 0 else 1))

/-- The textbook recurrence of the edit distance, on the heads of the two strings:
the minimum over deleting, inserting, and matching or replacing the first character. -/
def editRec {α : Type} [DecidableEq α] : List α → List α → Nat
  | [] => fun t => t.length
  | a :: s => editRow a (editRec s) s.length

/-- The value the table of `levenshteinDistance` is meant to hold at `dp[i][j]`: the
edit distance between the first `i` characters of `s` and the first `j` of `t` (the
recurrence of the code works on the last characters of the two prefixes). -/
def prefixDistance (s t : JsString) (i j : Nat) : Nat :=
  editRec (s.take i).reverse (t.take j).reverse

/-- The table has `r` rows of `c` entries each. -/
def WellDim (dp : Table) (r c : Nat) : Prop :=
  dp.length = r ∧ ∀ row ∈ dp, row.length = c

/-- The table is filled, with the right distances, in row 0, in column 0, in the rows
above row `i`, and in row `i` before column `j`. -/
def FilledUpTo (s t : JsString) (i j : Nat) (dp : Table) : Prop :=
  WellDim dp (s.length + 1) (t.length + 1) ∧
  ∀ a b, a ≤ s.length → b ≤ t.length → (a = 0 ∨ b = 0 ∨ a < i ∨ (a = i ∧ b < j)) →
    tableGet dp a b = prefixDistance s t a b

/-- The part of `normalizeName` that follows the two library calls: the combining
marks are removed, then every character outside `[a-z0-9\s]`, then every run of white
space becomes one space, and the result is trimmed. -/
def cleanName (u : JsString) : JsString :=
  trim (replaceRuns isWhiteSpace [32]
    (replaceClass (fun c => !isNameChar c) [] (replaceClass isCombiningMark [] u)))

/-- The two adjacent code units are not both spaces. -/
def NotBothSpaces (a b : Nat) : Prop := ¬ (a = 32 ∧ b = 32)

/-- The shape of a normalised name: only `a`-`z`, `0`-`9` and the space, no two
consecutive spaces, no space at either end. -/
def CanonicalShape (y : JsString) : Prop :=
  (∀ c ∈ y, (97 ≤ c ∧ c ≤ 122) ∨ (48 ≤ c ∧ c ≤ 57) ∨ c = 32) ∧
  ¬ [32, 32] <:+: y ∧ y.head? ≠ some 32 ∧ y.getLast? ≠ some 32

/-- The characters of a normalised name: `a`-`z`, `0`-`9` and the space. -/
def isCanonChar (c : Nat) : Bool :=
  (97 ≤ c && c ≤ 122) || (48 ≤ c && c ≤ 57) || c == 32

/-- The score that `calculateNameSimilarity` computes from the two normalised names:
the case definition, with the quotient and the difference rounded to doubles. -/
def similarityOfNormalized (na nb : JsString) : ℚ :=
  if na = [] ∨ nb = [] then 0
  else if na = nb then 1
  else toDouble (1 - toDouble
    ((levenshteinDistance na nb : ℚ) / ((max na.length nb.length : Nat) : ℚ)))

/-- The case definition of the similarity score in exact arithmetic, on the two
normalised names. -/
def exactSimilarity (na nb : JsString) : ℚ :=
  if na = [] ∨ nb = [] then 0
  else if na = nb then 1
  else 1 - (levenshteinDistance na nb : ℚ) / ((max na.length nb.length : Nat) : ℚ)

/-- Two code units below U+0100 that are the same letter up to case. -/
def CaseVariant (c d : Nat) : Prop := lowerLatin1 c = lowerLatin1 d

/-- The copy of a string in which every accented letter is replaced by its base
letter: the string is decomposed and the combining marks U+0300 to U+036F are
removed. -/
def stripAccents (rt : Builtins) (s : JsString) : JsString :=
  replaceClass isCombiningMark [] (rt.normalizeNFD s)

/-- The two removals of `normalizeName`: the combining marks, then every character
outside `[a-z0-9\s]`. -/
def nameFilter (u : JsString) : JsString :=
  replaceClass (fun c => !isNameChar c) [] (replaceClass isCombiningMark [] u)

/-- The triple `findMatches` builds for one contract, if any. -/
def MatchNames.tripleOf (rt : Builtins) (excelData plans : List Record) (contract : Record) :
    Option MatchNames.Match :=
  match excelData.find? (fun excel => nombreKey rt excel == nombreKey rt contract) with
  | some excelMatch =>
    match plans.find? (fun plan => nombreKey rt plan == nombreKey rt contract) with
    | some planMatch => some { contract := contract, excel := excelMatch, plan := planMatch }
    | none => none
  | none => none

/-- The input of the worked example of the exact-policy matcher. -/
def exampleContracts : List Record := [[("id", .num 1), ("nombre", .str (js "Ana Gomez"))]]

/-- The spreadsheet records of the worked example. -/
def exampleExcel : List Record :=
  [[("nombre", .str (js "ana gomez")), ("Cod", .str (js "X1"))]]

/-- The plan records of the worked example. -/
def examplePlans : List Record := [[("nombre", .str (js "ANA GOMEZ")), ("id", .num 7)]]

/-! ## `findBestNameMatch` of `src/utils/nameUtils.js` -/

/-- The object `{ name, score }` that `findBestNameMatch` returns. -/
structure BestMatch where
  name : JsValue
  score : ℚ
  deriving DecidableEq

/-- The two variables `bestMatch` and `bestScore` of `findBestNameMatch`; `none` is the
value `null` of `bestMatch`. -/
structure BestState where
  bestMatch : Option BestMatch
  bestScore : ℚ
  deriving DecidableEq

/-- The `for (const name of nameList)` loop of `findBestNameMatch`, from the state `st`
on the names still to be visited. -/
def findBestNameMatchLoop (rt : Builtins) (targetName : JsValue) (threshold : ℚ) :
    List JsValue → BestState → Except JsError BestState
  | [], st => .ok st
  | name :: rest, st =>
    match calculateNameSimilarity rt targetName name with
    | .error e => .error e
    | .ok score =>
      if score > st.bestScore ∧ score ≥ threshold then
        findBestNameMatchLoop rt targetName threshold rest
          { bestMatch := some { name := name, score := score }, bestScore := score }
      else findBestNameMatchLoop rt targetName threshold rest st

/-- `findBestNameMatch(targetName, nameList, threshold = 0.8)`; the threshold `none` is
the omitted argument. -/
def findBestNameMatch (rt : Builtins) (targetName : JsValue) (nameList : List JsValue)
    (threshold : Option ℚ) : Except JsError (Option BestMatch) :=
  match findBestNameMatchLoop rt targetName (threshold.getD (4 / 5)) nameList
      { bestMatch := none, bestScore := 0 } with
  | .error e => .error e
  | .ok st => .ok st.bestMatch

/-! ## `src/matchNames.js` (the code/plan script) -/

namespace MatchNamesScript

/-- `cleanName(name)`: `''` for a falsy name, else
`name.toLowerCase().trim().replace(/\s+/g, ' ')`; a truthy value that is not a string
has no method `toLowerCase`, and the call raises a `TypeError`. -/
def cleanName (rt : Builtins) (name : JsValue) : Except JsError JsString :=
  if !truthy name then .ok []
  else
    match name with
    | .str s => .ok (replaceRuns isWhiteSpace [32] (trim (rt.toLowerCase s)))
    | _ => .error JsError.typeError

/-- A JavaScript `Map` with string keys, as the list of its entries. -/
abbrev JsMap := List (JsString × JsValue)

/-- `map.get(key)`: `undefined` when the key is absent. -/
def mapGet (m : JsMap) (key : JsString) : JsValue := (m.lookup key).getD JsValue.undefined

/-- The template literal of the full match. -/
def fullStatement (cod planId id : JsValue) : JsString :=
  js "UPDATE contracts c SET c.nro = '" ++ toStringJs cod ++ js "', c.plan_id = " ++
  toStringJs planId ++ js " WHERE c.id = " ++ toStringJs id ++ js ";"

/-- The template literal used when the plan is not resolved. -/
def codeOnlyStatement (cod id : JsValue) : JsString :=
  js "UPDATE contracts c SET c.nro = '" ++ toStringJs cod ++ js "' WHERE c.id = " ++
  toStringJs id ++ js ";"

/-- The body of the `for (const contract of contracts)` loop of `main`: the statement
written for one contract, if any. -/
def contractStatement (rt : Builtins) (excelMap : JsMap) (excelRows : List Record)
    (planesMap : JsMap) (contract : Record) : Except JsError (Option JsString) :=
  if truthy (field contract "nombre") then
    match cleanName rt (field contract "nombre") with
    | .error e => .error e
    | .ok cleanContractName =>
      let cod := mapGet excelMap cleanContractName
      if truthy cod then
        match excelRows.find? (fun row => field row "Cod" == cod) with
        | some excelRow =>
          if truthy (field excelRow "Plan") then
            match cleanName rt (field excelRow "Plan") with
            | .error e => .error e
            | .ok planName =>
              let planId := mapGet planesMap planName
              if truthy planId then
                .ok (some (fullStatement cod planId (field contract "id")))
              else .ok (some (codeOnlyStatement cod (field contract "id")))
          else .ok (some (codeOnlyStatement cod (field contract "id")))
        | none => .ok (some (codeOnlyStatement cod (field contract "id")))
      else .ok none
  else .ok none

/-- What `main` has written to `sqlStream`, and its counter `sqlCount`. -/
structure Output where
  written : List JsString
  sqlCount : Nat
  deriving DecidableEq

/-- The statement loop of `main`.  Each statement is written followed by a line feed; an
exception leaves the loop (it is caught by the `try` of `main`), and what was written
before it stays written. -/
def statementLoop (rt : Builtins) (excelMap : JsMap) (excelRows : List Record)
    (planesMap : JsMap) : List Record → Output → Output × Option JsError
  | [], out => (out, none)
  | contract :: rest, out =>
    match contractStatement rt excelMap excelRows planesMap contract with
    | .error e => (out, some e)
    | .ok none => statementLoop rt excelMap excelRows planesMap rest out
    | .ok (some sql) =>
      statementLoop rt excelMap excelRows planesMap rest
        { written := out.written ++ [sql ++ js "\n"], sqlCount := out.sqlCount + 1 }

end MatchNamesScript

/-- What holds of the two variables of `findBestNameMatch` once the names `seen` have
been visited: with no match so far no visited name has a positive score that reaches
the threshold, and otherwise the match carries its own score, which is positive,
reaches the threshold, bounds the scores of all visited names, and is not attained
by any name visited before it. -/
def BestInv (rt : Builtins) (target : JsValue) (thr : ℚ) (seen : List JsValue)
    (st : BestState) : Prop :=
  (st.bestMatch = none → st.bestScore = 0 ∧
    ∀ c ∈ seen, ∀ sc, calculateNameSimilarity rt target c = .ok sc → ¬ (sc > 0 ∧ sc ≥ thr)) ∧
  (∀ b, st.bestMatch = some b → st.bestScore = b.score ∧
    calculateNameSimilarity rt target b.name = .ok b.score ∧ b.score ≥ thr ∧ b.score > 0 ∧
    (∀ c ∈ seen, ∀ sc, calculateNameSimilarity rt target c = .ok sc → sc ≤ b.score) ∧
    ∃ l1 l2, seen = l1 ++ b.name :: l2 ∧
      ∀ c ∈ l1, calculateNameSimilarity rt target c ≠ .ok b.score)

/-- A contract of the worked example that has no namesake in the other two lists. -/
def unmatchedContract : Record := [("id", .num 2), ("nombre", .str (js "Luis Soto"))]

/-- A contract without the field `nombre`. -/
def namelessContract : Record := [("id", .num 1)]

/-- A spreadsheet record without the field `nombre`. -/
def namelessExcel : Record := [("Cod", .str (js "X1"))]

/-- A plan record without the field `nombre`. -/
def namelessPlan : Record := [("id", .num 7)]

/-- A contract of the code/plan script, as read from the CSV file (all cells are
strings). -/
def scriptContract : Record := [("id", .str (js "1")), ("nombre", .str (js "Ana Gomez"))]

/-- A name-to-code map with one entry. -/
def scriptExcelMap : MatchNamesScript.JsMap := [(js "ana gomez", .str (js "X1"))]

/-- A plan map with two entries. -/
def scriptPlanesMap : MatchNamesScript.JsMap :=
  [(js "fibra 100", .str (js "7")), (js "100", .str (js "8"))]

/-- A spreadsheet row whose `Plan` cell is a name. -/
def scriptRowNamedPlan : Record :=
  [("Nombre", .str (js "Ana")), ("Apellido", .str (js "Gomez")), ("Cod", .str (js "X1")),
   ("Plan", .str (js "Fibra 100"))]

/-- A spreadsheet row whose `Plan` cell is a number. -/
def scriptRowNumericPlan : Record :=
  [("Nombre", .str (js "Ana")), ("Apellido", .str (js "Gomez")), ("Cod", .str (js "X1")),
   ("Plan", .num 100)]

/-- The cleaned form of a non-empty name in the code/plan script: lower-cased, trimmed,
runs of white space replaced by one space. -/
def MatchNamesScript.cleaned (rt : Builtins) (s : JsString) : JsString :=
  replaceRuns isWhiteSpace [32] (trim (rt.toLowerCase s))

/-- The first spreadsheet row whose `Cod` is the given code. -/
def MatchNamesScript.rowWithCode (excelRows : List Record) (cod : JsValue) : Option Record :=
  excelRows.find? (fun row => field row "Cod" == cod)

/-- A contract whose name has two spaces between its words. -/
def spacedContract : Record := [("id", .num 1), ("nombre", .str (js "Ana  Gomez"))]

/-- A spreadsheet record whose name ends with a full stop. -/
def dottedExcel : Record := [("nombre", .str (js "Ana Gomez.")), ("Cod", .str (js "X1"))]

/-- A plan record whose name ends with a full stop. -/
def dottedPlan : Record := [("nombre", .str (js "Ana Gomez.")), ("id", .num 7)]

/-- `map.set(key, value)`: the value of a key that is present is replaced, and the entry
keeps its place; a new key is added at the end. -/
def MatchNamesScript.mapSet : MatchNamesScript.JsMap → JsString → JsValue → MatchNamesScript.JsMap
  | [], key, value => [(key, value)]
  | (k, v) :: rest, key, value =>
    if k = key then (k, value) :: rest else (k, v) :: MatchNamesScript.mapSet rest key value

/-- The data rows of `readExcelMap(filePath, nameFields, valueField)`, each already
turned into the object `obj` of the callback, applied in row order to `map`: a row whose
two name cells are truthy sets the key ``cleanName(`${obj[nameFields[0]]} ${obj[nameFields[1]]}`)``
to `obj[valueField]`. -/
def MatchNamesScript.readExcelMapLoop (rt : Builtins) (nameField0 nameField1 valueField : String) :
    List Record → MatchNamesScript.JsMap → Except JsError MatchNamesScript.JsMap
  | [], map => .ok map
  | obj :: rest, map =>
    if truthy (field obj nameField0) && truthy (field obj nameField1) then
      match MatchNamesScript.cleanName rt
          (.str (toStringJs (field obj nameField0) ++ js " " ++ toStringJs (field obj nameField1))) with
      | .error e => .error e
      | .ok fullName =>
        MatchNamesScript.readExcelMapLoop rt nameField0 nameField1 valueField rest
          (MatchNamesScript.mapSet map fullName (field obj valueField))
    else MatchNamesScript.readExcelMapLoop rt nameField0 nameField1 valueField rest map

/-- `readExcelMap`, on the data rows of the first worksheet: the map starts empty. -/
def MatchNamesScript.readExcelMap (rt : Builtins) (nameField0 nameField1 valueField : String)
    (rows : List Record) : Except JsError MatchNamesScript.JsMap :=
  MatchNamesScript.readExcelMapLoop rt nameField0 nameField1 valueField rows []

/-- The data lines of `readExcelPlanMap(filePath, nameField, idField)`, each already
turned into the object `obj`, applied in line order to `map`: a line whose name cell is
truthy sets the key `cleanName(obj[nameField])` to `obj[idField]`. -/
def MatchNamesScript.readExcelPlanMapLoop (rt : Builtins) (nameField idField : String) :
    List Record → MatchNamesScript.JsMap → Except JsError MatchNamesScript.JsMap
  | [], map => .ok map
  | obj :: rest, map =>
    if truthy (field obj nameField) then
      match MatchNamesScript.cleanName rt (field obj nameField) with
      | .error e => .error e
      | .ok planName =>
        MatchNamesScript.readExcelPlanMapLoop rt nameField idField rest
          (MatchNamesScript.mapSet map planName (field obj idField))
    else MatchNamesScript.readExcelPlanMapLoop rt nameField idField rest map

/-- `readExcelPlanMap`, on the data lines of the file: the map starts empty. -/
def MatchNamesScript.readExcelPlanMap (rt : Builtins) (nameField idField : String)
    (rows : List Record) : Except JsError MatchNamesScript.JsMap :=
  MatchNamesScript.readExcelPlanMapLoop rt nameField idField rows []

/-- The key under which `readExcelMap` files a spreadsheet row, if the row is filed:
both name cells are truthy, and the key is the cleaned text "Nombre Apellido". -/
def MatchNamesScript.excelKey (rt : Builtins) (obj : Record) : Option JsString :=
  if truthy (field obj "Nombre") && truthy (field obj "Apellido") then
    some (MatchNamesScript.cleaned rt
      (toStringJs (field obj "Nombre") ++ js " " ++ toStringJs (field obj "Apellido")))
  else none

/-- The key under which `readExcelPlanMap` files a plan line whose name cell is a string
or is missing: the cleaned name, if the name is not empty. -/
def MatchNamesScript.planKey (rt : Builtins) (obj : Record) : Option JsString :=
  match field obj "name" with
  | .str s => if s = [] then none else some (MatchNamesScript.cleaned rt s)
  | _ => none

/-- The last element of the list with the property, if there is one. -/
def lastWith {α : Type} (p : α → Bool) (l : List α) : Option α := l.reverse.find? p

/-- A code that contains a single quote. -/
def quotedCodeMap : MatchNamesScript.JsMap := [(js "ana gomez", .str (js "A'1"))]

/-- Two spreadsheet rows whose names have the same cleaned form and whose codes differ. -/
def collidingExcelRows : List Record :=
  [[("Nombre", .str (js "Ana")), ("Apellido", .str (js "Gomez")), ("Cod", .str (js "X1"))],
   [("Nombre", .str (js "ANA")), ("Apellido", .str (js "GOMEZ")), ("Cod", .str (js "X2"))]]

/-- Two plan lines whose names have the same cleaned form and whose ids differ. -/
def collidingPlanRows : List Record :=
  [[("id", .str (js "7")), ("name", .str (js "Fibra 100"))],
   [("id", .str (js "8")), ("name", .str (js "FIBRA 100"))]]

/-- A row of a sheet: the array of its cells. -/
abbrev Row := List JsValue

/-! ## `src/sql/excelToSql.js` -/

namespace Sql.ExcelToSql

/-- The conversions of the language that the class applies to cell values; they are
parameters of the model. -/
structure Conversions where
  /-- The text of `Number(value)`, as a template literal or `join` shows it. -/
  numberText : JsValue → JsString
  /-- The text `new Date(value).toISOString().split('T')[0]`; `none` when `toISOString`
  raises a `RangeError`. -/
  isoDay : JsValue → Option JsString
  /-- The number `Number(value)`; `none` is `NaN`. -/
  toNumber : JsValue → Option ℚ

/-- An entry of `config.columnMappings`. -/
structure ColumnMapping where
  excelColumn : JsValue
  sqlColumn : JsValue
  type : JsValue

/-- An entry of `config.filters`. -/
structure Filter where
  column : JsValue
  operator : JsValue
  value : JsValue
  exclude : JsValue

/-- The fields of the configuration that the statement generator and the filter read;
`none` is a field that is not in the object. -/
structure Config where
  tableName : JsValue
  sqlType : JsValue
  columnMappings : Option (List ColumnMapping)
  filters : Option (List Filter)

/-- The object `values` of `generateSqlStatement`: its keys in insertion order, each with
the text of its value. -/
abbrev Values := List (JsString × JsString)

/-- The assignment `values[key] = value`: an existing key keeps its place. -/
def valuesSet : Values → JsString → JsString → Values
  | [], key, value => [(key, value)]
  | (k, v) :: rest, key, value =>
    if k = key then (k, value) :: rest else (k, v) :: valuesSet rest key value

/-- The text of the template literal that quotes `String(value)` with its single quotes
doubled. -/
def quoted (value : JsValue) : JsString :=
  js "'" ++ replaceClass (fun c => c == 39) (js "''") (toStringJs value) ++ js "'"

/-- `formatValue(value, type)`, as the text the statement shows.  A `type` that is not a
string has no method `toLowerCase`. -/
def formatValue (rt : Builtins) (cv : Conversions) (value type : JsValue) :
    Except JsError JsString :=
  if value = .null ∨ value = .undefined then .ok (js "NULL")
  else
    match type with
    | .str t =>
      if rt.toLowerCase t = js "string" then .ok (quoted value)
      else if rt.toLowerCase t = js "number" then .ok (cv.numberText value)
      else if rt.toLowerCase t = js "date" then
        match cv.isoDay value with
        | some day => .ok (js "'" ++ day ++ js "'")
        | none => .error .rangeError
      else .ok (quoted value)
    | _ => .error .typeError

/-- The callback of `headers.forEach` in `generateSqlStatement`, for the header at
`index`. -/
def headerStep (rt : Builtins) (cv : Conversions) (columnMappings : List ColumnMapping)
    (row : Row) (values : Values) (index : Nat) (header : JsValue) : Except JsError Values :=
  match columnMappings.find? (fun m => decide (m.excelColumn = header)) with
  | some mapping =>
    match formatValue rt cv (row.getD index .undefined) mapping.type with
    | .error e => .error e
    | .ok v => .ok (valuesSet values (toStringJs mapping.sqlColumn) v)
  | none =>
    match header with
    | .str h =>
      let columnName := replaceRuns isWhiteSpace (js "_") (rt.toLowerCase h)
      match formatValue rt cv (row.getD index .undefined) (.str (js "string")) with
      | .error e => .error e
      | .ok v => .ok (valuesSet values columnName v)
    | _ => .error .typeError

/-- The loop `headers.forEach` of `generateSqlStatement`, from the header at `index` on. -/
def collectValues (rt : Builtins) (cv : Conversions) (columnMappings : List ColumnMapping)
    (row : Row) : List JsValue → Nat → Values → Except JsError Values
  | [], _, values => .ok values
  | header :: rest, index, values =>
    match headerStep rt cv columnMappings row values index header with
    | .error e => .error e
    | .ok values' => collectValues rt cv columnMappings row rest (index + 1) values'

/-- `array.join(', ')`. -/
def joinComma (l : List JsString) : JsString := (js ", ").intercalate l

/-- `generateInsert(values)`. -/
def generateInsert (config : Config) (values : Values) : JsString :=
  let columns := joinComma (values.map fun e => e.1)
  let valueList := joinComma (values.map fun e => e.2)
  js "INSERT INTO " ++ toStringJs config.tableName ++ js " (" ++ columns ++ js ") VALUES (" ++
    valueList ++ js ");"

/-- The clause `column = value, ...` over the entries whose key is not `id`. -/
def assignments (values : Values) : JsString :=
  joinComma ((values.filter fun e => e.1 ≠ js "id").map fun e => e.1 ++ js " = " ++ e.2)

/-- `generateUpdate(values)`; `values.id` is `undefined` when there is no key `id`. -/
def generateUpdate (config : Config) (values : Values) : JsString :=
  js "UPDATE " ++ toStringJs config.tableName ++ js " SET " ++ assignments values ++
    js " WHERE id = " ++ (values.lookup (js "id")).getD (js "undefined") ++ js ";"

/-- `generateMerge(values)`. -/
def generateMerge (config : Config) (values : Values) : JsString :=
  let columns := joinComma (values.map fun e => e.1)
  let valueList := joinComma (values.map fun e => e.2)
  js "MERGE INTO " ++ toStringJs config.tableName ++ js " AS target\nUSING (SELECT " ++
    valueList ++ js " AS id) AS source\nON target.id = source.id\nWHEN MATCHED THEN\n  UPDATE SET " ++
    assignments values ++ js "\nWHEN NOT MATCHED THEN\n  INSERT (" ++ columns ++
    js ") VALUES (" ++ valueList ++ js ");"

/-- `generateSqlStatement(headers, row)`: `none` is the `null` returned when an exception
is caught. -/
def generateSqlStatement (rt : Builtins) (cv : Conversions) (config : Config)
    (headers row : Row) : Option JsString :=
  match collectValues rt cv (config.columnMappings.getD []) row headers 0 [] with
  | .error _ => none
  | .ok values =>
    match config.sqlType with
    | .str t =>
      if rt.toLowerCase t = js "insert" then some (generateInsert config values)
      else if rt.toLowerCase t = js "update" then some (generateUpdate config values)
      else if rt.toLowerCase t = js "merge" then some (generateMerge config values)
      else some (generateInsert config values)
    | _ => none

/-- The callback of `filters.every` in `rowPassesFilter`. -/
def filterTest (rt : Builtins) (cv : Conversions) (headers row : Row) (filter : Filter) :
    Except JsError Bool :=
  match headers.findIdx? (fun h => decide (h = filter.column)) with
  | none => .error .error
  | some columnIndex =>
    let cell := row.getD columnIndex .undefined
    let cellValue :=
      rt.toLowerCase (toStringJs (if cell = .null ∨ cell = .undefined then .str [] else cell))
    if filter.operator = .str (js "equals") then
      .ok (decide (cellValue = rt.toLowerCase (toStringJs filter.value)))
    else if filter.operator = .str (js "contains") then
      .ok (decide (rt.toLowerCase (toStringJs filter.value) <:+: cellValue))
    else if filter.operator = .str (js "containsExclude") then
      let requiredValue := rt.toLowerCase (toStringJs filter.value)
      let excludedValue := rt.toLowerCase (toStringJs filter.exclude)
      .ok (decide (requiredValue <:+: cellValue) && !decide (excludedValue <:+: cellValue))
    else if filter.operator = .str (js "startsWith") then
      .ok ((rt.toLowerCase (toStringJs filter.value)).isPrefixOf cellValue)
    else if filter.operator = .str (js "endsWith") then
      .ok ((rt.toLowerCase (toStringJs filter.value)).isSuffixOf cellValue)
    else if filter.operator = .str (js "greaterThan") then
      match cv.toNumber (.str cellValue), cv.toNumber filter.value with
      | some a, some b => .ok (decide (a > b))
      | _, _ => .ok false
    else if filter.operator = .str (js "lessThan") then
      match cv.toNumber (.str cellValue), cv.toNumber filter.value with
      | some a, some b => .ok (decide (a < b))
      | _, _ => .ok false
    else .error .error

/-- `array.every(callback)` for a callback that can raise: it stops at the first entry
for which the callback returns false. -/
def everyFilter (rt : Builtins) (cv : Conversions) (headers row : Row) :
    List Filter → Except JsError Bool
  | [] => .ok true
  | filter :: rest =>
    match filterTest rt cv headers row filter with
    | .error e => .error e
    | .ok false => .ok false
    | .ok true => everyFilter rt cv headers row rest

/-- `rowPassesFilter(headers, row)`. -/
def rowPassesFilter (rt : Builtins) (cv : Conversions) (config : Config) (headers row : Row) :
    Except JsError Bool :=
  match config.filters with
  | none => .ok true
  | some filters => if filters.length = 0 then .ok true else everyFilter rt cv headers row filters

/-- The statement part of `processExcel()` on the array `data` read from the sheet: the
array `statements`, whose lines are written to the output file; `none` when the sheet
has fewer than two rows (an `Error` is raised and caught, and nothing is written). -/
def processExcel (rt : Builtins) (cv : Conversions) (config : Config) (data : List Row) :
    Option (List JsString) :=
  if data.length < 2 then none
  else
    let headers := data.headD []
    let rows := data.drop 1
    some (rows.filterMap fun row =>
      match generateSqlStatement rt cv config headers row with
      | some statement => if truthy (.str statement) then some statement else none
      | none => none)

end Sql.ExcelToSql

/-- A configuration with one filter: the column `Estado` must equal `activo`. -/
def filteredSqlConfig : Sql.ExcelToSql.Config :=
  { tableName := .str (js "clientes"), sqlType := .str (js "INSERT"), columnMappings := none,
    filters := some [{ column := .str (js "Estado"), operator := .str (js "equals"),
                       value := .str (js "activo"), exclude := .undefined }] }

/-- A sheet with the columns `id` and `Estado` and two data rows, of which the first has
the state `inactivo`. -/
def filteredSqlSheet : List Row :=
  [[.str (js "id"), .str (js "Estado")], [.num 1, .str (js "inactivo")],
   [.num 2, .str (js "activo")]]

/-! ## `src/utils/validationUtils.js` and `validateNumber` of `src/utils/errorUtils.js` -/

/-- The values that the validators tell apart: `undefined`, `null`, booleans, numbers
(the integers), strings, arrays and plain objects. -/
inductive JsAny where
  | undefined : JsAny
  | null : JsAny
  | bool (b : Bool) : JsAny
  | num (n : Int) : JsAny
  | str (s : JsString) : JsAny
  | array (items : List JsAny) : JsAny
  | object (fields : List (String × JsAny)) : JsAny

/-- `typeof value`. -/
def typeOf : JsAny → JsString
  | .undefined => js "undefined"
  | .null => js "object"
  | .bool _ => js "boolean"
  | .num _ => js "number"
  | .str _ => js "string"
  | .array _ => js "object"
  | .object _ => js "object"

/-- `value === text` for a string `text`. -/
def isText : JsAny → JsString → Bool
  | .str s, text => decide (s = text)
  | _, _ => false

/-- `value === undefined || value === null`. -/
def isNullish : JsAny → Bool
  | .undefined => true
  | .null => true
  | _ => false

mutual

/-- The object `options` of the validators: `type`, the truthiness of `required`,
`minLength`, `maxLength`, the regular expression `pattern` (as its `test`), `itemType`,
`min`, `max` (`none` is `undefined`), and the entries of `properties` (none when the
field is `undefined`). -/
inductive Options where
  | mk (type : JsAny) (required : Bool) (minLength maxLength : Option Int)
      (pattern : Option (JsString → Bool)) (itemType : Option JsString)
      (min max : Option JsAny) (properties : Properties) : Options

/-- The entries `[propName, propOptions]` of an object `properties`, in order. -/
inductive Properties where
  | nil : Properties
  | cons (propName : String) (propOptions : Options) (rest : Properties) : Properties

end

namespace Options

/-- The field `options.type`. -/
def type : Options → JsAny
  | .mk t _ _ _ _ _ _ _ _ => t

/-- The truthiness of `options.required`. -/
def required : Options → Bool
  | .mk _ r _ _ _ _ _ _ _ => r

/-- The field `options.minLength`. -/
def minLength : Options → Option Int
  | .mk _ _ m _ _ _ _ _ _ => m

/-- The field `options.maxLength`. -/
def maxLength : Options → Option Int
  | .mk _ _ _ m _ _ _ _ _ => m

/-- The field `options.pattern`. -/
def pattern : Options → Option (JsString → Bool)
  | .mk _ _ _ _ p _ _ _ _ => p

/-- The field `options.itemType`. -/
def itemType : Options → Option JsString
  | .mk _ _ _ _ _ i _ _ _ => i

/-- The field `options.min`. -/
def min : Options → Option JsAny
  | .mk _ _ _ _ _ _ m _ _ => m

/-- The field `options.max`. -/
def max : Options → Option JsAny
  | .mk _ _ _ _ _ _ _ m _ => m

end Options

/-- The conversions of the language that the validators apply; they are parameters of
the model. -/
structure ValueConversions where
  /-- The number to which a comparison with a number converts the value; `none` is `NaN`. -/
  toNumber : JsAny → Option ℚ
  /-- The time value `new Date(value).getTime()`; `none` is `NaN`. -/
  timeOf : JsAny → Option ℚ

/-- The number `a` is below the value `b`, as `a < b` evaluates it: false when `b`
converts to `NaN`. -/
def numberBelow (cv : ValueConversions) (a : Int) (b : JsAny) : Bool :=
  match cv.toNumber b with
  | some q => decide ((a : ℚ) < q)
  | none => false

/-- The number `a` is above the value `b`, as `a > b` evaluates it. -/
def numberAbove (cv : ValueConversions) (a : Int) (b : JsAny) : Bool :=
  match cv.toNumber b with
  | some q => decide ((a : ℚ) > q)
  | none => false

namespace ErrorUtils

/-- `validateRequired(value, name)`. -/
def validateRequired (value : JsAny) : Except JsError Unit :=
  match value with
  | .undefined => .error .validationError
  | .null => .error .validationError
  | .str [] => .error .validationError
  | _ => .ok ()

/-- `validateNumber(value, name, options)` of `errorUtils.js`. -/
def validateNumber (cv : ValueConversions) (value : JsAny) (options : Options) :
    Except JsError Unit :=
  match validateRequired value with
  | .error e => .error e
  | .ok _ =>
    match value with
    | .num n =>
      if (match options.min with | some m => numberBelow cv n m | none => false) then
        .error .validationError
      else if (match options.max with | some m => numberAbove cv n m | none => false) then
        .error .validationError
      else .ok ()
    | _ => .error .validationError

end ErrorUtils

namespace ValidationUtils

/-- `validateString(value, name, options)`. -/
def validateString (value : JsAny) (options : Options) : Except JsError Unit :=
  if isNullish value then
    if options.required then .error .validationError else .ok ()
  else
    match value with
    | .str s =>
      if (match options.minLength with | some m => decide ((s.length : Int) < m) | none => false)
      then .error .validationError
      else if (match options.maxLength with
          | some m => decide ((s.length : Int) > m) | none => false)
      then .error .validationError
      else if (match options.pattern with | some test => !test s | none => false)
      then .error .validationError
      else .ok ()
    | _ => .error .validationError

/-- `validateArray(value, name, options)`. -/
def validateArray (value : JsAny) (options : Options) : Except JsError Unit :=
  if isNullish value then
    if options.required then .error .validationError else .ok ()
  else
    match value with
    | .array items =>
      if (match options.minLength with
          | some m => decide ((items.length : Int) < m) | none => false)
      then .error .validationError
      else if (match options.maxLength with
          | some m => decide ((items.length : Int) > m) | none => false)
      then .error .validationError
      else
        match options.itemType with
        | some itemType =>
          if items.all (fun item => typeOf item = itemType) then .ok ()
          else .error .validationError
        | none => .ok ()
    | _ => .error .validationError

/-- `validateBoolean(value, name, options)`. -/
def validateBoolean (value : JsAny) (options : Options) : Except JsError Unit :=
  if isNullish value then
    if options.required then .error .validationError else .ok ()
  else
    match value with
    | .bool _ => .ok ()
    | _ => .error .validationError

/-- `validateDate(value, name, options)`. -/
def validateDate (cv : ValueConversions) (value : JsAny) (options : Options) :
    Except JsError Unit :=
  if isNullish value then
    if options.required then .error .validationError else .ok ()
  else
    match cv.timeOf value with
    | none => .error .validationError
    | some date =>
      if (match options.min with
          | some m => (match cv.timeOf m with | some t => decide (date < t) | none => false)
          | none => false)
      then .error .validationError
      else if (match options.max with
          | some m => (match cv.timeOf m with | some t => decide (date > t) | none => false)
          | none => false)
      then .error .validationError
      else .ok ()

/-- The property `value[propName]` of an object. -/
def property (fields : List (String × JsAny)) (propName : String) : JsAny :=
  (fields.lookup propName).getD .undefined

mutual

/-- `validateValue(value, name, options)`, with `validateObject` in the branch of
`'object'`.  The module imports only `ValidationError` from `errorUtils.js`, so the name
`validateNumber` is not bound in it, and the call in the branch of `'number'` raises a
`ReferenceError`. -/
def validateValue (cv : ValueConversions) : Options → JsAny → Except JsError Unit
  | .mk type required minLength maxLength pattern itemType min max properties, value =>
    if isText type (js "string") then
      validateString value (.mk type required minLength maxLength pattern itemType min max properties)
    else if isText type (js "number") then .error .referenceError
    else if isText type (js "array") then
      validateArray value (.mk type required minLength maxLength pattern itemType min max properties)
    else if isText type (js "object") then
      if isNullish value then
        if required then .error .validationError else .ok ()
      else
        match value with
        | .object fields => validateProperties cv properties fields
        | _ => .error .validationError
    else if isText type (js "boolean") then
      validateBoolean value (.mk type required minLength maxLength pattern itemType min max properties)
    else if isText type (js "date") then
      validateDate cv value (.mk type required minLength maxLength pattern itemType min max properties)
    else .error .validationError

/-- The loop `Object.entries(options.properties).forEach` of `validateObject`. -/
def validateProperties (cv : ValueConversions) :
    Properties → List (String × JsAny) → Except JsError Unit
  | .nil, _ => .ok ()
  | .cons propName propOptions rest, fields =>
    match validateValue cv propOptions (property fields propName) with
    | .error e => .error e
    | .ok _ => validateProperties cv rest fields

end

end ValidationUtils

mutual

/-- Neither the options nor the options of any declared property, at any depth, have
the type `'number'`. -/
def numberFree : Options → Bool
  | .mk type _ _ _ _ _ _ _ properties => !isText type (js "number") && numberFreeEntries properties

/-- No entry of `properties` mentions the type `'number'`. -/
def numberFreeEntries : Properties → Bool
  | .nil => true
  | .cons _ propOptions rest => numberFree propOptions && numberFreeEntries rest

end

/-- Options of type `'number'` with the bounds 0 and 10. -/
def numberOptions : Options :=
  .mk (.str (js "number")) false none none none none (some (.num 0)) (some (.num 10)) .nil

/-- Options of type `'object'` that declare the property `n` of type `'number'`. -/
def objectWithNumberOptions : Options :=
  .mk (.str (js "object")) false none none none none none none (.cons "n" numberOptions .nil)

/-- `string.split(/[class]+/)` for a character class `p`, read from the left: a run of
characters of the class ends a piece, and the next piece starts after the run.  The flag
says that the character before was in the class. -/
def splitRunsAux (p : Nat → Bool) : Bool → JsString → List JsString
  | _, [] => [[]]
  | inRun, c :: cs =>
    if p c then
      if inRun then splitRunsAux p true cs else [] :: splitRunsAux p true cs
    else (splitRunsAux p false cs).modifyHead (List.cons c)

/-- `string.split(/[class]+/)`: the pieces between the runs; the empty string gives one
empty piece. -/
def splitRuns (p : Nat → Bool) (s : JsString) : List JsString := splitRunsAux p false s

/-- The object that `splitName` returns. -/
structure NameParts where
  nombres : JsString
  apellido1 : JsString
  apellido2 : JsString
  deriving DecidableEq

/-- `splitName(fullName)` of `src/formatNames.js`. -/
def splitName (fullName : JsValue) : NameParts :=
  if !truthy fullName then { nombres := [], apellido1 := [], apellido2 := [] }
  else
    match fullName with
    | .str s =>
      let parts := splitRuns isWhiteSpace (trim s)
      if parts.length = 1 then
        { nombres := parts.getD 0 [], apellido1 := [], apellido2 := [] }
      else if parts.length = 2 then
        { nombres := parts.getD 0 [], apellido1 := parts.getD 1 [], apellido2 := [] }
      else
        { nombres := (js " ").intercalate (parts.take (parts.length - 2)),
          apellido1 := parts.getD (parts.length - 2) [],
          apellido2 := parts.getD (parts.length - 1) [] }
    | _ => { nombres := [], apellido1 := [], apellido2 := [] }

/-- The three fields that `splitName` makes of the array `parts`. -/
def namePartsOf (parts : List JsString) : NameParts :=
  if parts.length = 1 then
    { nombres := parts.getD 0 [], apellido1 := [], apellido2 := [] }
  else if parts.length = 2 then
    { nombres := parts.getD 0 [], apellido1 := parts.getD 1 [], apellido2 := [] }
  else
    { nombres := (js " ").intercalate (parts.take (parts.length - 2)),
      apellido1 := parts.getD (parts.length - 2) [],
      apellido2 := parts.getD (parts.length - 1) [] }

/-- The words of a string: the non-empty pieces between its white-space characters. -/
def wordsOf (s : JsString) : List JsString :=
  (s.splitOnP isWhiteSpace).filter fun w => !w.isEmpty

/-! ## `src/formatNames.js` -/

/-- The remainder `a % b` of a number `a ≥ 0` by a number `b > 0`; the operation is exact
in double precision. -/
def jsRemainder (a b : ℚ) : ℚ := a - b * ⌊a / b⌋

/-- The code unit of `String.fromCharCode(x)` for a number `x ≥ 0`: the integer part of
`x` modulo `2^16`. -/
def fromCharCode (x : ℚ) : Nat := (⌊x⌋ % 65536).toNat

/-- `columnLetterToIndex(letter)`: the loop `result = result * 26 + letter.charCodeAt(i) - 64`
over the code units of `letter`, started at 0, and then `result - 1`.  The product, the
sum and the two differences are double-precision operations. -/
def columnLetterToIndex (letter : JsString) : ℚ :=
  toDouble (letter.foldl
    (fun (result : ℚ) (c : Nat) => toDouble (toDouble (toDouble (result * 26) + (c : ℚ)) - 64)) 0 - 1)

/-- The `while (index >= 0)` loop of `columnIndexToLetter`, run for at most `fuel`
iterations: each one puts `String.fromCharCode(65 + (index % 26))` in front of `result`
and goes on with `Math.floor(index / 26) - 1`, in double precision.  The value `none`
says that the loop was still running when the fuel was used up. -/
def columnIndexToLetterLoop : Nat → ℚ → JsString → Option JsString
  | 0, _, _ => none
  | fuel + 1, index, result =>
    if index ≥ 0 then
      columnIndexToLetterLoop fuel (toDouble ((⌊toDouble (index / 26)⌋ : ℚ) - 1))
        (fromCharCode (toDouble (65 + jsRemainder index 26)) :: result)
    else some result

/-- `columnIndexToLetter(index)`, with `result = ''` at the start; the loop is given
`index + 2` iterations. -/
def columnIndexToLetter (index : ℚ) : Option JsString :=
  columnIndexToLetterLoop (⌊index⌋.toNat + 2) index []

/-- The zero-based index that a string of column letters denotes, in exact integers:
`A` is 0, `Z` is 25, `AA` is 26. -/
def exactColumnIndex (letter : JsString) : Int :=
  letter.foldl (fun result c => result * 26 + (c : Int) - 64) 0 - 1

/-- The loop of `columnIndexToLetter` in exact integers. -/
def exactColumnLettersLoop : Nat → Int → JsString → Option JsString
  | 0, _, _ => none
  | fuel + 1, index, result =>
    if index ≥ 0 then
      exactColumnLettersLoop fuel (index / 26 - 1) ((65 + index % 26).toNat :: result)
    else some result

/-- The column letters of a zero-based index, in exact integers. -/
def exactColumnLetters (index : Int) : Option JsString :=
  exactColumnLettersLoop (index.toNat + 2) index []

/-- The string is made of the letters `A` to `Z`. -/
def IsColumnLetters (s : JsString) : Prop := ∀ c ∈ s, 65 ≤ c ∧ c ≤ 90

/-- The test `/^[A-Z]+$/i.test(column)`: the string is not empty, and each of its code
units is a letter `A`-`Z` or `a`-`z`. -/
def isLettersOnly (column : JsString) : Bool :=
  !column.isEmpty && column.all fun c => (65 ≤ c && c ≤ 90) || (97 ≤ c && c ≤ 122)

/-- `column.toUpperCase()` on a string of the letters `A`-`Z` and `a`-`z`. -/
def upperLetters (column : JsString) : JsString :=
  column.map fun c => if 97 ≤ c ∧ c ≤ 122 then c - 32 else c

/-- The two built-in functions of `formatNumberWithThousands` whose results depend on
the implementation: `parseInt(text, 10)` on a non-empty string of decimal digits, and
the method `toLocaleString('es-ES')` of a number. -/
structure NumberBuiltins where
  parseInt : JsString → ℚ
  toLocaleString : ℚ → JsString

/-- `formatNumberWithThousands(value)`. -/
def formatNumberWithThousands (rt : NumberBuiltins) (value : JsValue) : JsValue :=
  if !truthy value then .str []
  else
    let cleanValue := replaceClass (fun c => !(48 ≤ c && c ≤ 57)) [] (toStringJs value)
    if cleanValue.isEmpty then value
    else .str (rt.toLocaleString (rt.parseInt cleanValue))

/-- The array index that a property key denotes, if it denotes one: the key is a decimal
numeral without a leading zero, of a number below `2^32 - 1`. -/
def arrayIndex (key : String) : Option Nat :=
  let digits := key.data
  if !digits.isEmpty && digits.all (fun c => 48 ≤ c.toNat && c.toNat ≤ 57)
      && (digits.length == 1 || digits.head? != some (Char.ofNat 48)) then
    let n := digits.foldl (fun n c => n * 10 + (c.toNat - 48)) 0
    if n < 4294967295 then some n else none
  else none

/-- One step of the ascending order of the keys that are array indices. -/
def insertByIndex (e : String × JsValue) : Record → Record
  | [] => [e]
  | x :: rest =>
    if (arrayIndex e.1).getD 0 < (arrayIndex x.1).getD 0 then e :: x :: rest
    else x :: insertByIndex e rest

/-- The entries whose keys are array indices, in ascending order of the index. -/
def sortByIndex : Record → Record
  | [] => []
  | e :: rest => insertByIndex e (sortByIndex rest)

/-- The own properties of an object in the order in which `Object.values` and the spread
`{ ...row }` go through them: the keys that are array indices first, in ascending order,
and then the other keys in the order of their creation. -/
def ownEntries (row : Record) : Record :=
  sortByIndex (row.filter fun e => (arrayIndex e.1).isSome)
    ++ row.filter fun e => (arrayIndex e.1).isNone

/-- `Object.values(row)`. -/
def objectValues (row : Record) : List JsValue := (ownEntries row).map fun e => e.2

/-- The element `values[index]` of an array for a number `index`: the element at that
position when `index` is a non-negative integer, and `undefined` otherwise. -/
def elementAt (values : List JsValue) (index : ℚ) : JsValue :=
  if 0 ≤ index ∧ (⌊index⌋ : ℚ) = index then values.getD ⌊index⌋.toNat .undefined
  else .undefined

/-- The names of the properties that every row object inherits from `Object.prototype`. -/
def objectPrototypeNames : List String :=
  ["constructor", "hasOwnProperty", "isPrototypeOf", "propertyIsEnumerable",
   "toLocaleString", "toString", "valueOf", "__proto__", "__defineGetter__",
   "__defineSetter__", "__lookupGetter__", "__lookupSetter__"]

/-- The read `row[column]` for a string `column`: the value of the row's own field, and
`undefined` when there is no such field.  The result is `none` when the row has no such
field and the name is one of `Object.prototype`: the value read is then an inherited
object, which is not a cell value. -/
def rowProperty (row : Record) (column : String) : Option JsValue :=
  match row.lookup column with
  | some v => some v
  | none => if column ∈ objectPrototypeNames then none else some .undefined

/-- The value that `concatenateColumns` reads from `row` for a column argument that is a
string: by position, `Object.values(row)[columnLetterToIndex(column.toUpperCase())] || ''`,
when the argument passes the test for column letters, and else by name,
`row[column] || ''`. -/
def columnValue (row : Record) (column : String) : Option JsValue :=
  if isLettersOnly (js column) then
    let index := columnLetterToIndex (upperLetters (js column))
    let value := elementAt (objectValues row) index
    some (if truthy value then value else .str [])
  else
    (rowProperty row column).map fun value => if truthy value then value else .str []

/-- The object `{ ...entries, [key]: value }`: an existing key keeps its place. -/
def recordSet : Record → String → JsValue → Record
  | [], key, value => [(key, value)]
  | (k, v) :: rest, key, value =>
    if k = key then (k, value) :: rest else (k, v) :: recordSet rest key value

/-- The row that `concatenateColumns` makes of `row`, for column arguments that are
strings. -/
def concatenateRow (rt : NumberBuiltins) (column1 column2 newColumnName : String)
    (row : Record) : Option Record :=
  match columnValue row column1, columnValue row column2 with
  | some val1, some val2 =>
    let formattedVal2 := formatNumberWithThousands rt val2
    some (recordSet (ownEntries row) newColumnName
      (.str (toStringJs val1 ++ js " (" ++ toStringJs formattedVal2 ++ js ")")))
  | _, _ => none

/-- `concatenateColumns(data, column1, column2, newColumnName)` for column arguments that
are strings. -/
def concatenateColumns (rt : NumberBuiltins) (data : List Record)
    (column1 column2 newColumnName : String) : Option (List Record) :=
  data.mapM (concatenateRow rt column1 column2 newColumnName)

/-- A row with the fields `Nombre` and `Plan`. -/
def planRow : Record := [("Nombre", .str (js "Ana")), ("Plan", .str (js "15000"))]

/-- A row whose keys are not made of letters only. -/
def underscoreRow : Record := [("nombre_1", .str (js "Ana")), ("plan_1", .str (js "15000"))]

/-! ## The two `ExcelDivider` classes -/

/-- A row as `XLSX.utils.sheet_to_json(sheet, { header: 1 })` gives it: the array of its
cells, where `none` is a hole, the place of a blank cell. -/
abbrev SheetRow := List (Option JsValue)

/-- A file written by a divider: the part number in its name, and the rows of its sheet. -/
structure PartFile where
  part : Nat
  sheet : List SheetRow
  deriving DecidableEq

/-- `array.slice(start, stop)` for indices that are not negative. -/
def slice {α : Type} (l : List α) (start stop : Nat) : List α := (l.take stop).drop start

namespace ExcelDivider

/-- `saveFiles(data)` of `src/excelDivider.js`, for a positive integer `rowsPerFile`:
`headers = data[0]`, `rows = data.slice(1)`, `totalParts = Math.ceil(rows.length / rowsPerFile)`,
and for `i` from `0` to `totalParts - 1` the file of part `i + 1` receives
`[headers, ...rows.slice(start, end)]`.  The result lists the files in the order in which
they are written.  The quotient, the products and the sums are exact in double precision
for the length of an array, which is below `2^32`. -/
def saveFiles (rowsPerFile : Nat) (data : List SheetRow) : List PartFile :=
  let headers := data.headD []
  let rows := data.drop 1
  let totalParts := (rows.length + rowsPerFile - 1) / rowsPerFile
  (List.range totalParts).map fun i =>
    let start := i * rowsPerFile
    let stop := start + rowsPerFile
    { part := i + 1, sheet := headers :: slice rows start stop }

end ExcelDivider

namespace Divider.ExcelDivider

/-- The fields of the configuration object that the class reads; `none` is a field that
is not in the object.  A field `excludeColumns` that is there is an array of integers. -/
structure Config where
  inputFile : Option JsString
  sheetName : Option JsString
  rowsPerFile : Option Nat
  excludeColumns : Option (List Int)

/-- `validateConfig()` of `src/divider/excelDivider.js`: the fields `inputFile`,
`sheetName` and `rowsPerFile` must be in the configuration, else an `Error` is raised. -/
def validateConfig (config : Config) : Except JsError Unit :=
  if config.inputFile.isNone then .error .error
  else if config.sheetName.isNone then .error .error
  else if config.rowsPerFile.isNone then .error .error
  else .ok ()

/-- The array `row.filter((_, index) => !sortedExcludeColumns.includes(index))`.  The
method `filter` calls the test for the cells that are there and passes over the holes,
and its result has no holes: the cells kept stand one after the other. -/
def filterExcluded (sortedExcludeColumns : List Int) (row : SheetRow) : SheetRow :=
  row.enum.filterMap fun cell =>
    match cell.2 with
    | none => none
    | some value =>
      if sortedExcludeColumns.contains (cell.1 : Int) then none else some (some value)

/-- `cleanRow(row)`: `[...this.config.excludeColumns]` raises a `TypeError` when the
field is not in the configuration (`undefined` is not iterable); otherwise the copy is
sorted in descending order and the cells whose index it includes are filtered out. -/
def cleanRow (config : Config) (row : SheetRow) : Except JsError SheetRow :=
  match config.excludeColumns with
  | none => .error .typeError
  | some excludeColumns =>
    let sortedExcludeColumns := excludeColumns.insertionSort (fun a b => b ≤ a)
    .ok (filterExcluded sortedExcludeColumns row)

/-- The fields of an instance that change while rows are processed, and the files
written so far. -/
structure State where
  currentPart : Nat
  rowsInCurrentPart : Nat
  currentWorkbook : Option (List SheetRow)
  rowCount : Nat
  files : List PartFile
  deriving DecidableEq

/-- The state the constructor leaves. -/
def initial : State :=
  { currentPart := 1, rowsInCurrentPart := 0, currentWorkbook := none, rowCount := 0, files := [] }

/-- `saveCurrentWorkbook()`: nothing when there is no workbook, else the workbook is
written to the file of part `currentPart`. -/
def saveCurrentWorkbook (st : State) : State :=
  match st.currentWorkbook with
  | none => st
  | some sheet => { st with files := st.files ++ [{ part := st.currentPart, sheet := sheet }] }

/-- `processRow(row, headers)`.  The comparison `rowsInCurrentPart >= rowsPerFile` is
false when `rowsPerFile` is not a number. -/
def processRow (config : Config) (st : State) (row headers : SheetRow) :
    Except JsError State :=
  match cleanRow config row with
  | .error e => .error e
  | .ok cleanRow =>
    let full : Bool :=
      match config.rowsPerFile with
      | some rowsPerFile => decide (st.rowsInCurrentPart ≥ rowsPerFile)
      | none => false
    let st1 : State :=
      if full then
        { saveCurrentWorkbook st with
          currentPart := st.currentPart + 1, rowsInCurrentPart := 0, currentWorkbook := none }
      else st
    let st2 : State :=
      if st1.currentWorkbook.isNone then { st1 with currentWorkbook := some [headers] } else st1
    .ok { st2 with
      currentWorkbook := st2.currentWorkbook.map fun sheet => sheet ++ [cleanRow],
      rowsInCurrentPart := st2.rowsInCurrentPart + 1 }

/-- The `for` loop of `processExcel` over the data rows; an exception of `processRow`
leaves the loop. -/
def rowLoop (config : Config) (headers : SheetRow) :
    List SheetRow → State → State × Option JsError
  | [], st => (st, none)
  | row :: rest, st =>
    match processRow config st row headers with
    | .error e => (st, some e)
    | .ok st' => rowLoop config headers rest { st' with rowCount := st'.rowCount + 1 }

/-- `processExcel()` of a new instance, on the array `data` read from the sheet: the
returned status and the files written.  Fewer than two rows raise an `Error`; every
exception is caught and gives the status `false`. -/
def processExcel (config : Config) (data : List SheetRow) : Bool × List PartFile :=
  if data.length < 2 then (false, [])
  else
    let headers := data.headD []
    let rows := data.drop 1
    match rowLoop config headers rows initial with
    | (st, some _) => (false, st.files)
    | (st, none) => (true, (saveCurrentWorkbook st).files)

end Divider.ExcelDivider

/-- The data rows of a written part: its sheet without the header row. -/
def PartFile.dataRows (p : PartFile) : List SheetRow := p.sheet.drop 1

/-- The parts are the consecutive chunks of `rows`, `k` rows each: the part numbers are
`1, ..., ⌈n / k⌉`, every part has between 1 and `k` data rows, every part but the last
has exactly `k`, and the data rows of the parts, one after the other, are `rows`. -/
def IsChunking (k : Nat) (rows : List SheetRow) (parts : List PartFile) : Prop :=
  parts.map (fun p => p.part) = List.range' 1 ⌈(rows.length : ℚ) / (k : ℚ)⌉₊ ∧
  (∀ p ∈ parts, 1 ≤ p.dataRows.length ∧ p.dataRows.length ≤ k) ∧
  (∀ i p, i + 1 < parts.length → parts[i]? = some p → p.dataRows.length = k) ∧
  (parts.map PartFile.dataRows).flatten = rows

/-- The state of the streaming divider after `j` rows of a sheet whose cleaned rows are
`R`: `c0` parts are written, and the workbook holds the rows from `c0 * k` on. -/
def Divider.ExcelDivider.PartsInv (k : Nat) (headers : SheetRow) (R : List SheetRow) (j : Nat)
    (st : Divider.ExcelDivider.State) : Prop :=
  ∃ c0 : Nat, c0 * k ≤ j ∧ j ≤ c0 * k + k ∧ (j = 0 ∨ c0 * k < j) ∧
    st.currentPart = c0 + 1 ∧ st.rowsInCurrentPart = j - c0 * k ∧
    st.currentWorkbook = (if j = 0 then none else some (headers :: slice R (c0 * k) j)) ∧
    st.files = (List.range c0).map
      (fun i => ({ part := i + 1, sheet := headers :: slice R (i * k) (i * k + k) } : PartFile))

/-- A configuration that `validateConfig` accepts and that has no field
`excludeColumns`. -/
def configWithoutExclude : Divider.ExcelDivider.Config :=
  { inputFile := some (js "in.xlsx"), sheetName := some (js "Hoja1"), rowsPerFile := some 2,
    excludeColumns := none }

/-- A configuration that excludes no column and writes two rows per file. -/
def configExcludeNothing : Divider.ExcelDivider.Config :=
  { inputFile := some (js "in.xlsx"), sheetName := some (js "Hoja1"), rowsPerFile := some 2,
    excludeColumns := some [] }

/-- A configuration that excludes the first column and writes two rows per file. -/
def configExcludeFirst : Divider.ExcelDivider.Config :=
  { inputFile := some (js "in.xlsx"), sheetName := some (js "Hoja1"), rowsPerFile := some 2,
    excludeColumns := some [0] }

/-- A sheet with a header row and one data row. -/
def exampleSheet : List SheetRow :=
  [[some (.str (js "id")), some (.str (js "n"))], [some (.num 1), some (.str (js "a"))]]

/-- A sheet with a header row and a data row whose middle cell is blank. -/
def blankCellSheet : List SheetRow :=
  [[some (.str (js "a")), some (.str (js "b")), some (.str (js "c"))],
   [some (.num 1), none, some (.num 3)]]

/-- The cells of a row without blank cells whose zero-based index is not listed in
`excludeColumns`, in their original order. -/
def keptCells (excludeColumns : List Int) (cells : List JsValue) : List JsValue :=
  (List.range cells.length).filterMap fun (i : Nat) =>
    if (i : Int) ∈ excludeColumns then none else cells[i]?

/-! # Theorems -/

/-! ## Double-precision arithmetic -/

section Doubles

theorem abs_roundHalfEven_sub (q : ℚ) : |(roundHalfEven q : ℚ) - q| ≤ 1 / 2 := by
  unfold roundHalfEven
  have h1 := Int.floor_le q
  have h2 := Int.lt_floor_add_one q
  split
  · rw [abs_le]; constructor <;> linarith
  · split
    · push_cast; rw [abs_le]; constructor <;> linarith
    · split
      · rw [abs_le]; constructor <;> linarith
      · push_cast; rw [abs_le]; constructor <;> linarith

theorem roundHalfEven_eq_of_near (q : ℚ) (m : ℤ) (h : |q - m| < 1 / 2) : roundHalfEven q = m := by
  have h' := abs_lt.1 h
  unfold roundHalfEven
  by_cases hm : (m : ℚ) ≤ q
  · have hf : ⌊q⌋ = m := Int.floor_eq_iff.2 ⟨hm, by linarith⟩
    rw [hf, if_pos (by linarith)]
  · have hf : ⌊q⌋ = m - 1 := Int.floor_eq_iff.2 ⟨by push_cast; linarith, by push_cast; linarith⟩
    rw [hf]
    push_cast
    rw [if_neg (by linarith), if_pos (by linarith)]
    ring

theorem roundHalfEven_intCast (m : ℤ) : roundHalfEven (m : ℚ) = m :=
  roundHalfEven_eq_of_near _ m (by simp)

theorem roundHalfEven_half_even (m : ℤ) (hm : m % 2 = 0) :
    roundHalfEven ((m : ℚ) + 1 / 2) = m := by
  have hf : ⌊(m : ℚ) + 1 / 2⌋ = m := Int.floor_eq_iff.2 ⟨by linarith, by linarith⟩
  unfold roundHalfEven
  rw [hf, if_neg (by norm_num), if_neg (by norm_num), if_pos hm]

theorem roundHalfEven_half_odd (m : ℤ) (hm : m % 2 = 1) :
    roundHalfEven ((m : ℚ) + 1 / 2) = m + 1 := by
  have hf : ⌊(m : ℚ) + 1 / 2⌋ = m := Int.floor_eq_iff.2 ⟨by linarith, by linarith⟩
  unfold roundHalfEven
  rw [hf, if_neg (by norm_num), if_neg (by norm_num), if_neg (by omega)]

theorem roundHalfEven_mono_int (q : ℚ) (k : ℤ) (h : q ≤ k) : roundHalfEven q ≤ k := by
  rcases lt_or_eq_of_le h with hlt | heq
  · have hf : ⌊q⌋ < k := Int.floor_lt.2 hlt
    unfold roundHalfEven
    split
    · omega
    · split
      · omega
      · split <;> omega
  · rw [heq, roundHalfEven_intCast]

theorem int_le_roundHalfEven (q : ℚ) (k : ℤ) (h : (k : ℚ) ≤ q) : k ≤ roundHalfEven q := by
  have hf : k ≤ ⌊q⌋ := Int.le_floor.2 h
  unfold roundHalfEven
  split
  · omega
  · split
    · omega
    · split <;> omega

theorem log_two_eq (q : ℚ) (e : ℤ) (h1 : (2 : ℚ) ^ e ≤ q) (h2 : q < 2 ^ (e + 1)) :
    Int.log 2 q = e := by
  have hq : 0 < q := lt_of_lt_of_le (zpow_pos (by norm_num) e) h1
  apply le_antisymm
  · have := (Int.lt_zpow_iff_log_lt (b := 2) (by norm_num) hq (x := e + 1)).1 (by exact_mod_cast h2)
    omega
  · exact (Int.zpow_le_iff_le_log (b := 2) (by norm_num) hq).1 (by exact_mod_cast h1)

theorem doubleUlpExponent_eq (q : ℚ) (e : ℤ) (he : -1022 ≤ e) (h1 : (2 : ℚ) ^ e ≤ |q|)
    (h2 : |q| < 2 ^ (e + 1)) : doubleUlpExponent q = e - 52 := by
  have hq : q ≠ 0 := by
    intro h0
    rw [h0, abs_zero] at h1
    have : (0 : ℚ) < 2 ^ e := zpow_pos (by norm_num) e
    linarith
  unfold doubleUlpExponent
  rw [if_neg hq, log_two_eq |q| e h1 h2, max_eq_left he]

/-- Evaluation of `toDouble` from the binade of the argument. -/
theorem toDouble_eq (q : ℚ) (e m : ℤ) (he : -1022 ≤ e) (h1 : (2 : ℚ) ^ e ≤ |q|)
    (h2 : |q| < 2 ^ (e + 1)) (hm : roundHalfEven (q / 2 ^ (e - 52)) = m) :
    toDouble q = (m : ℚ) * 2 ^ (e - 52) := by
  unfold toDouble
  rw [doubleUlpExponent_eq q e he h1 h2, hm]

theorem toDouble_zero : toDouble 0 = 0 := by
  simp [toDouble, roundHalfEven]

theorem doubleUlpExponent_le (q : ℚ) (k : ℤ) (hk : -1021 ≤ k) (hq : |q| < 2 ^ k) :
    doubleUlpExponent q ≤ k - 53 := by
  unfold doubleUlpExponent
  by_cases h0 : q = 0
  · rw [if_pos h0]; omega
  · rw [if_neg h0]
    have hpos : 0 < |q| := abs_pos.2 h0
    have hlog := (Int.lt_zpow_iff_log_lt (b := 2) (by norm_num) hpos (x := k)).1
      (by exact_mod_cast hq)
    have := max_le (show Int.log 2 |q| ≤ k - 1 by omega) (show (-1022 : ℤ) ≤ k - 1 by omega)
    omega

theorem abs_toDouble_sub (q : ℚ) : |toDouble q - q| ≤ 2 ^ doubleUlpExponent q / 2 := by
  have hpos : (0 : ℚ) < 2 ^ doubleUlpExponent q := zpow_pos (by norm_num) _
  have h := abs_roundHalfEven_sub (q / 2 ^ doubleUlpExponent q)
  have e : toDouble q - q
      = ((roundHalfEven (q / 2 ^ doubleUlpExponent q) : ℚ) - q / 2 ^ doubleUlpExponent q)
        * 2 ^ doubleUlpExponent q := by
    unfold toDouble
    field_simp
  rw [e, abs_mul, abs_of_pos hpos]
  calc |(roundHalfEven (q / 2 ^ doubleUlpExponent q) : ℚ) - q / 2 ^ doubleUlpExponent q|
        * 2 ^ doubleUlpExponent q
      ≤ 1 / 2 * 2 ^ doubleUlpExponent q := mul_le_mul_of_nonneg_right h (le_of_lt hpos)
    _ = 2 ^ doubleUlpExponent q / 2 := by ring

/-- The rounding error of a value below `2^k` is at most `2^(k-54)`. -/
theorem abs_toDouble_sub_le (q : ℚ) (k : ℤ) (hk : -1021 ≤ k) (hq : |q| < 2 ^ k) :
    |toDouble q - q| ≤ 2 ^ (k - 54) := by
  have h1 := abs_toDouble_sub q
  have h2 := doubleUlpExponent_le q k hk hq
  have h3 : (2 : ℚ) ^ doubleUlpExponent q ≤ 2 ^ (k - 53) := zpow_le_zpow_right₀ (by norm_num) h2
  have h4 : (2 : ℚ) ^ (k - 53) / 2 = 2 ^ (k - 54) := by
    have : k - 53 = (k - 54) + 1 := by ring
    rw [this, zpow_add₀ (by norm_num)]
    simp
  linarith

/-- A value that is a whole multiple of the spacing around it is a double. -/
theorem toDouble_of_multiple (q : ℚ) (m : ℤ) (h : q / 2 ^ doubleUlpExponent q = m) :
    toDouble q = q := by
  have hpos : (0 : ℚ) < 2 ^ doubleUlpExponent q := zpow_pos (by norm_num) _
  unfold toDouble
  rw [h, roundHalfEven_intCast, ← h]
  field_simp

/-- Integers up to `2^53` in magnitude are doubles. -/
theorem toDouble_intCast (n : ℤ) (h : |n| ≤ 2 ^ 53) : toDouble (n : ℚ) = n := by
  by_cases h0 : n = 0
  · subst h0; simpa using toDouble_zero
  have hn1 : (1 : ℚ) ≤ |(n : ℚ)| := by
    have : (1 : ℤ) ≤ |n| := Int.one_le_abs h0
    exact_mod_cast this
  rcases eq_or_lt_of_le h with heq | hlt
  · -- the magnitude is 2^53
    have hq : |(n : ℚ)| = 2 ^ (53 : ℤ) := by
      rw [← Int.cast_abs, heq]; norm_num
    have hu : doubleUlpExponent (n : ℚ) = 1 :=
      by rw [doubleUlpExponent_eq (n : ℚ) 53 (by norm_num) (by rw [hq]) (by rw [hq]; norm_num)]; norm_num
    rcases abs_eq (by norm_num : (0 : ℤ) ≤ 2 ^ 53) |>.1 heq with h1 | h1
    · apply toDouble_of_multiple _ (2 ^ 52)
      rw [hu, h1]; norm_num
    · apply toDouble_of_multiple _ (-2 ^ 52)
      rw [hu, h1]; norm_num
  · have hq : |(n : ℚ)| < 2 ^ (53 : ℤ) := by
      rw [← Int.cast_abs]
      have : ((|n| : ℤ) : ℚ) < ((2 ^ 53 : ℤ) : ℚ) := by exact_mod_cast hlt
      calc ((|n| : ℤ) : ℚ) < ((2 ^ 53 : ℤ) : ℚ) := this
        _ = 2 ^ (53 : ℤ) := by norm_num
    have hu := doubleUlpExponent_le (n : ℚ) 53 (by norm_num) hq
    obtain ⟨k, hk⟩ : ∃ k : ℕ, doubleUlpExponent (n : ℚ) = -(k : ℤ) :=
      ⟨(-doubleUlpExponent (n : ℚ)).toNat, by omega⟩
    apply toDouble_of_multiple _ (n * 2 ^ k)
    rw [hk, zpow_neg, zpow_natCast]
    push_cast
    field_simp

theorem toDouble_natCast (n : ℕ) (h : n ≤ 2 ^ 53) : toDouble (n : ℚ) = n := by
  have := toDouble_intCast (n : ℤ) (by rw [abs_of_nonneg (by positivity)]; exact_mod_cast h)
  simpa using this

theorem toDouble_one : toDouble 1 = 1 := by
  simpa using toDouble_natCast 1 (by norm_num)

theorem toDouble_nonneg (q : ℚ) (hq : 0 ≤ q) : 0 ≤ toDouble q := by
  have hpos : (0 : ℚ) < 2 ^ doubleUlpExponent q := zpow_pos (by norm_num) _
  unfold toDouble
  have : (0 : ℤ) ≤ roundHalfEven (q / 2 ^ doubleUlpExponent q) :=
    int_le_roundHalfEven _ 0 (by simpa using div_nonneg hq (le_of_lt hpos))
  have h' : (0 : ℚ) ≤ (roundHalfEven (q / 2 ^ doubleUlpExponent q) : ℚ) := by exact_mod_cast this
  exact mul_nonneg h' (le_of_lt hpos)

theorem toDouble_le_one (q : ℚ) (h0 : 0 ≤ q) (h1 : q ≤ 1) : toDouble q ≤ 1 := by
  rcases eq_or_lt_of_le h1 with heq | hlt
  · rw [heq, toDouble_one]
  have hpos : (0 : ℚ) < 2 ^ doubleUlpExponent q := zpow_pos (by norm_num) _
  have hu := doubleUlpExponent_le q 0 (by norm_num) (by rw [abs_of_nonneg h0]; simpa using hlt)
  obtain ⟨k, hk⟩ : ∃ k : ℕ, doubleUlpExponent q = -(k : ℤ) :=
    ⟨(-doubleUlpExponent q).toNat, by omega⟩
  have hle : roundHalfEven (q / 2 ^ doubleUlpExponent q) ≤ ((2 ^ k : ℕ) : ℤ) := by
    apply roundHalfEven_mono_int
    rw [hk, zpow_neg, zpow_natCast]
    push_cast
    rw [div_inv_eq_mul]
    have : (0 : ℚ) < 2 ^ k := by positivity
    nlinarith
  have hle' : (roundHalfEven (q / 2 ^ doubleUlpExponent q) : ℚ) ≤ 2 ^ k := by exact_mod_cast hle
  unfold toDouble
  calc (roundHalfEven (q / 2 ^ doubleUlpExponent q) : ℚ) * 2 ^ doubleUlpExponent q
      ≤ 2 ^ k * 2 ^ doubleUlpExponent q := mul_le_mul_of_nonneg_right hle' (le_of_lt hpos)
    _ = 1 := by rw [hk, zpow_neg, zpow_natCast]; field_simp

theorem toDouble_eval (q : ℚ) (e m : ℤ) (he : -1022 ≤ e) (h1 : (2 : ℚ) ^ e ≤ |q|)
    (h2 : |q| < 2 ^ (e + 1)) (hm : |q / 2 ^ (e - 52) - m| < 1 / 2) :
    toDouble q = (m : ℚ) * 2 ^ (e - 52) :=
  toDouble_eq q e m he h1 h2 (roundHalfEven_eq_of_near _ m hm)

theorem toDouble_eval_tie (q : ℚ) (e m : ℤ) (he : -1022 ≤ e) (h1 : (2 : ℚ) ^ e ≤ |q|)
    (h2 : |q| < 2 ^ (e + 1)) (hm : q / 2 ^ (e - 52) = (m : ℚ) + 1 / 2) :
    toDouble q = ((if m % 2 = 0 then m else m + 1 : ℤ) : ℚ) * 2 ^ (e - 52) := by
  apply toDouble_eq q e _ he h1 h2
  rw [hm]
  by_cases h : m % 2 = 0
  · rw [if_pos h, roundHalfEven_half_even m h]
  · rw [if_neg h, roundHalfEven_half_odd m (by omega)]

theorem toDouble_one_tenth : toDouble (1 / 10) = 7205759403792794 / 2 ^ 56 := by
  rw [toDouble_eval (1 / 10) (-4) 7205759403792794 (by norm_num) (by norm_num [abs_of_pos])
    (by norm_num [abs_of_pos]) (by norm_num [abs_lt])]
  norm_num

theorem toDouble_nine_tenths_double :
    toDouble (1 - toDouble (1 / 10)) = 8106479329266893 / 2 ^ 53 := by
  rw [toDouble_one_tenth]
  rw [toDouble_eval _ (-1) 8106479329266893 (by norm_num) (by norm_num [abs_of_pos])
    (by norm_num [abs_of_pos]) (by norm_num [abs_lt])]
  norm_num

theorem toDouble_nine_tenths : toDouble (9 / 10) = 8106479329266893 / 2 ^ 53 := by
  rw [toDouble_eval _ (-1) 8106479329266893 (by norm_num) (by norm_num [abs_of_pos])
    (by norm_num [abs_of_pos]) (by norm_num [abs_lt])]
  norm_num

theorem toDouble_one_third : toDouble (1 / 3) = 6004799503160661 / 2 ^ 54 := by
  rw [toDouble_eval _ (-2) 6004799503160661 (by norm_num) (by norm_num [abs_of_pos])
    (by norm_num [abs_of_pos]) (by norm_num [abs_lt])]
  norm_num

theorem toDouble_two_thirds_double :
    toDouble (1 - toDouble (1 / 3)) = 3002399751580331 / 2 ^ 52 := by
  rw [toDouble_one_third]
  rw [toDouble_eval_tie _ (-1) 6004799503160661 (by norm_num) (by norm_num [abs_of_pos])
    (by norm_num [abs_of_pos]) (by norm_num)]
  norm_num

end Doubles

/-! ## The exact-policy matcher -/

section FindMatches

theorem find?_eq_some_iff_isFirst {α : Type} (p : α → Bool) (l : List α) (x : α) :
    l.find? p = some x ↔ IsFirst (fun a => p a = true) l x := by
  induction l with
  | nil => simp [IsFirst]
  | cons a l ih =>
    by_cases ha : p a = true
    · rw [List.find?_cons_of_pos _ ha]
      constructor
      · intro h
        obtain rfl : a = x := by simpa using h
        exact ⟨0, by simp, ha, fun j hj => absurd hj (Nat.not_lt_zero j)⟩
      · rintro ⟨i, hi, _, hmin⟩
        cases i with
        | zero => simpa using hi
        | succ i => exact absurd ha (hmin 0 (Nat.succ_pos i) a (by simp))
    · rw [List.find?_cons_of_neg _ ha, ih]
      constructor
      · rintro ⟨i, hi, hx, hmin⟩
        refine ⟨i + 1, by simpa using hi, hx, fun j hj y hy => ?_⟩
        cases j with
        | zero =>
          obtain rfl : a = y := by simpa using hy
          exact ha
        | succ j => exact hmin j (Nat.lt_of_succ_lt_succ hj) y (by simpa using hy)
      · rintro ⟨i, hi, hx, hmin⟩
        cases i with
        | zero =>
          obtain rfl : a = x := by simpa using hi
          exact absurd hx ha
        | succ i =>
          exact ⟨i, by simpa using hi, hx, fun j hj y hy =>
            hmin (j + 1) (Nat.succ_lt_succ hj) y (by simpa using hy)⟩

theorem isFirst_exists_iff {α : Type} (P : α → Prop) [DecidablePred P] (l : List α) :
    (∃ x, IsFirst P l x) ↔ ∃ x ∈ l, P x := by
  constructor
  · rintro ⟨x, i, hi, hx, _⟩
    exact ⟨x, List.getElem?_mem hi, hx⟩
  · rintro ⟨x, hx, hP⟩
    have hsome : (l.find? (fun a => decide (P a))).isSome := by
      rw [List.find?_isSome]
      exact ⟨x, hx, by simpa using hP⟩
    obtain ⟨y, hy⟩ := Option.isSome_iff_exists.mp hsome
    refine ⟨y, ?_⟩
    have := (find?_eq_some_iff_isFirst (fun a => decide (P a)) l y).mp hy
    simpa [IsFirst] using this

theorem MatchNames.findMatchesStep_eq (rt : Builtins) (es ps : List Record)
    (acc : List MatchNames.Match) (c : Record) :
    MatchNames.findMatchesStep rt es ps acc c
      = acc ++ (MatchNames.tripleOf rt es ps c).toList := by
  unfold MatchNames.findMatchesStep MatchNames.tripleOf nombreKey
  cases es.find? (fun excel =>
      MatchNames.normalizeName rt (field excel "nombre")
        == MatchNames.normalizeName rt (field c "nombre")) with
  | none => simp
  | some e =>
    cases ps.find? (fun plan =>
        MatchNames.normalizeName rt (field plan "nombre")
          == MatchNames.normalizeName rt (field c "nombre")) with
    | none => simp
    | some p => simp

theorem MatchNames.foldl_findMatchesStep (rt : Builtins) (es ps cs : List Record)
    (acc : List MatchNames.Match) :
    cs.foldl (MatchNames.findMatchesStep rt es ps) acc
      = acc ++ cs.filterMap (MatchNames.tripleOf rt es ps) := by
  induction cs generalizing acc with
  | nil => simp
  | cons c cs ih =>
    rw [List.foldl_cons, ih, MatchNames.findMatchesStep_eq, List.filterMap_cons]
    cases MatchNames.tripleOf rt es ps c <;> simp

theorem MatchNames.findMatches_eq_filterMap (rt : Builtins) (cs es ps : List Record) :
    MatchNames.findMatches rt cs es ps = cs.filterMap (MatchNames.tripleOf rt es ps) := by
  simp [MatchNames.findMatches, MatchNames.foldl_findMatchesStep]

theorem MatchNames.tripleOf_eq_some_iff (rt : Builtins) (es ps : List Record) (c : Record)
    (m : MatchNames.Match) :
    MatchNames.tripleOf rt es ps c = some m ↔
      m.contract = c ∧
      IsFirst (fun e => nombreKey rt e = nombreKey rt c) es m.excel ∧
      IsFirst (fun p => nombreKey rt p = nombreKey rt c) ps m.plan := by
  have hE := fun x => find?_eq_some_iff_isFirst
    (fun excel => nombreKey rt excel == nombreKey rt c) es x
  have hP := fun x => find?_eq_some_iff_isFirst
    (fun plan => nombreKey rt plan == nombreKey rt c) ps x
  simp only [beq_iff_eq] at hE hP
  unfold MatchNames.tripleOf
  cases hfe : es.find? (fun excel => nombreKey rt excel == nombreKey rt c) with
  | none =>
    constructor
    · intro h; cases h
    · rintro ⟨_, h1, _⟩
      rw [← hE, hfe] at h1; cases h1
  | some e =>
    cases hfp : ps.find? (fun plan => nombreKey rt plan == nombreKey rt c) with
    | none =>
      constructor
      · intro h; cases h
      · rintro ⟨_, _, h2⟩
        rw [← hP, hfp] at h2; cases h2
    | some p =>
      constructor
      · intro h
        obtain rfl : MatchNames.Match.mk c e p = m := by simpa using h
        exact ⟨rfl, (hE e).mp hfe, (hP p).mp hfp⟩
      · rintro ⟨h0, h1, h2⟩
        rw [← hE, hfe] at h1
        rw [← hP, hfp] at h2
        cases m
        simp only [Option.some.injEq] at h1 h2
        simp_all

end FindMatches

/-- C1: `findMatches` is the exact normalised-name triple join.  A triple is in the
result exactly when its contract is one of the contracts, its `excel` is the first
spreadsheet record, in list order, whose normalised `nombre` equals the contract's,
and its `plan` is the first such plan record; and a contract has a triple in the result
exactly when some spreadsheet record and some plan record carry its normalised
`nombre`. -/
theorem MatchNames.findMatches_triple_join (rt : Builtins) (cs es ps : List Record) :
    (∀ m : MatchNames.Match, m ∈ MatchNames.findMatches rt cs es ps ↔
      m.contract ∈ cs ∧
      IsFirst (fun e => nombreKey rt e = nombreKey rt m.contract) es m.excel ∧
      IsFirst (fun p => nombreKey rt p = nombreKey rt m.contract) ps m.plan) ∧
    (∀ c : Record, (∃ m ∈ MatchNames.findMatches rt cs es ps, m.contract = c) ↔
      c ∈ cs ∧ (∃ e ∈ es, nombreKey rt e = nombreKey rt c) ∧
        (∃ p ∈ ps, nombreKey rt p = nombreKey rt c)) := by
  have key : ∀ m : MatchNames.Match, m ∈ MatchNames.findMatches rt cs es ps ↔
      m.contract ∈ cs ∧
      IsFirst (fun e => nombreKey rt e = nombreKey rt m.contract) es m.excel ∧
      IsFirst (fun p => nombreKey rt p = nombreKey rt m.contract) ps m.plan := by
    intro m
    rw [MatchNames.findMatches_eq_filterMap, List.mem_filterMap]
    constructor
    · rintro ⟨c, hc, hm⟩
      obtain ⟨h0, h1, h2⟩ := (MatchNames.tripleOf_eq_some_iff rt es ps c m).mp hm
      subst h0
      exact ⟨hc, h1, h2⟩
    · rintro ⟨hc, h1, h2⟩
      exact ⟨m.contract, hc, (MatchNames.tripleOf_eq_some_iff rt es ps _ m).mpr ⟨rfl, h1, h2⟩⟩
  refine ⟨key, fun c => ?_⟩
  constructor
  · rintro ⟨m, hm, rfl⟩
    obtain ⟨hc, h1, h2⟩ := (key m).mp hm
    exact ⟨hc, (isFirst_exists_iff _ es).mp ⟨_, h1⟩, (isFirst_exists_iff _ ps).mp ⟨_, h2⟩⟩
  · rintro ⟨hc, h1, h2⟩
    obtain ⟨e, he⟩ := (isFirst_exists_iff (fun e => nombreKey rt e = nombreKey rt c) es).mpr h1
    obtain ⟨p, hp⟩ := (isFirst_exists_iff (fun p => nombreKey rt p = nombreKey rt c) ps).mpr h2
    exact ⟨⟨c, e, p⟩, (key _).mpr ⟨hc, he, hp⟩, rfl⟩

/-! ## SQL escaping -/

section Escape

theorem replaceClass_nil (p : Nat → Bool) (rep : JsString) : replaceClass p rep [] = [] := rfl

theorem replaceClass_cons (p : Nat → Bool) (rep : JsString) (c : Nat) (s : JsString) :
    replaceClass p rep (c :: s) = (if p c then rep else [c]) ++ replaceClass p rep s := by
  simp [replaceClass]

theorem replaceClass_append (p : Nat → Bool) (rep : JsString) (s t : JsString) :
    replaceClass p rep (s ++ t) = replaceClass p rep s ++ replaceClass p rep t := by
  simp [replaceClass]

theorem unescapeSql_quote_quote (s : JsString) :
    unescapeSql (39 :: 39 :: s) = 39 :: unescapeSql s := by
  simp [unescapeSql]

theorem unescapeSql_other (c : Nat) (s : JsString) (hc : c ≠ 39) :
    unescapeSql (c :: s) = c :: unescapeSql s := by
  rw [unescapeSql]
  intro rest h1 _
  exact hc h1

theorem unescapeSql_escape (s : JsString) :
    unescapeSql (replaceClass (fun c => c == 39) [39, 39] s) = s := by
  induction s with
  | nil => simp [replaceClass_nil, unescapeSql]
  | cons c s ih =>
    rw [replaceClass_cons]
    by_cases hc : c = 39
    · subst hc
      simp only [beq_self_eq_true, if_true, List.cons_append, List.nil_append]
      rw [unescapeSql_quote_quote, ih]
    · have : (c == 39) = false := by simpa using hc
      simp only [this, Bool.false_eq_true, if_false, List.cons_append, List.nil_append]
      rw [unescapeSql_other c _ hc, ih]

theorem quoteRunsFrom_escape (s : JsString) (k : Nat) (hk : Even k) :
    ∀ n ∈ quoteRunsFrom k (replaceClass (fun c => c == 39) [39, 39] s), Even n := by
  induction s generalizing k with
  | nil =>
    intro n hn
    by_cases h0 : k = 0
    · simp [replaceClass_nil, quoteRunsFrom, h0] at hn
    · simp only [replaceClass_nil, quoteRunsFrom, h0, if_false, List.mem_singleton] at hn
      exact hn ▸ hk
  | cons c s ih =>
    rw [replaceClass_cons]
    by_cases hc : c = 39
    · subst hc
      simp only [beq_self_eq_true, if_true, List.cons_append, List.nil_append, quoteRunsFrom]
      exact ih (k + 1 + 1) (by simpa [Nat.even_add_one] using hk)
    · have : (c == 39) = false := by simpa using hc
      simp only [this, Bool.false_eq_true, if_false, List.cons_append, List.nil_append,
        quoteRunsFrom, hc]
      intro n hn
      by_cases h0 : k = 0
      · simp only [h0, if_true] at hn
        exact ih 0 (by decide) n hn
      · simp only [h0, if_false, List.mem_cons] at hn
        rcases hn with rfl | hn
        · exact hk
        · exact ih 0 (by decide) n hn

end Escape

/-- C2: SQL string escaping doubles every single quote and does nothing else.  On a
string, `escapeSql` and `escapeSqlString` agree and replace each quote (code unit 39) by
two quotes, leaving every other code unit in place; replacing each pair of quotes by one
quote gives the string back; every maximal run of quotes of the result has even length;
and `O'Brien` becomes `O''Brien`. -/
theorem MatchNames.escapeSql_doubles_quotes (s : JsString) :
    MatchNames.escapeSql (.str s) = s.flatMap (fun c => if c = 39 then [39, 39] else [c]) ∧
    escapeSqlString (.str s) = .str (MatchNames.escapeSql (.str s)) ∧
    unescapeSql (MatchNames.escapeSql (.str s)) = s ∧
    (∀ n ∈ quoteRuns (MatchNames.escapeSql (.str s)), Even n) ∧
    MatchNames.escapeSql (.str (js "O'Brien")) = js "O''Brien" := by
  refine ⟨?_, rfl, unescapeSql_escape s, quoteRunsFrom_escape s 0 (by decide), by decide⟩
  simp [MatchNames.escapeSql, replaceClass, toStringJs]

/-! ## The worked example of the matcher -/

section Latin1

theorem lowerLatin1_lt (c : Nat) (hc : c < 256) : lowerLatin1 c < 256 := by
  unfold lowerLatin1
  split <;> omega

theorem MatchNames.classNormalizeName_latin1 (rt : Builtins) (h : Latin1Faithful rt) (v : JsValue)
    (hv : ∀ c ∈ toStringJs v, c < 256) :
    MatchNames.normalizeName rt v = MatchNames.normalizeName latin1Builtins v := by
  unfold MatchNames.normalizeName
  rw [h.1 _ hv, h.2]
  · rfl
  · intro c hc
    obtain ⟨d, hd, rfl⟩ := List.mem_map.mp hc
    exact lowerLatin1_lt d (hv d hd)

theorem find?_congr_mem {α : Type} (p q : α → Bool) (l : List α)
    (h : ∀ a ∈ l, p a = q a) : l.find? p = l.find? q := by
  induction l with
  | nil => rfl
  | cons a l ih =>
    have ha := h a (List.mem_cons_self a l)
    have hl := ih (fun b hb => h b (List.mem_cons_of_mem a hb))
    simp [List.find?_cons, ha, hl]

theorem MatchNames.findMatches_latin1 (rt : Builtins) (h : Latin1Faithful rt)
    (cs es ps : List Record) (hcs : ∀ r ∈ cs, Latin1Nombre r) (hes : ∀ r ∈ es, Latin1Nombre r)
    (hps : ∀ r ∈ ps, Latin1Nombre r) :
    MatchNames.findMatches rt cs es ps = MatchNames.findMatches latin1Builtins cs es ps := by
  have hk : ∀ r, Latin1Nombre r → nombreKey rt r = nombreKey latin1Builtins r :=
    fun r hr => MatchNames.classNormalizeName_latin1 rt h _ hr
  rw [MatchNames.findMatches_eq_filterMap, MatchNames.findMatches_eq_filterMap]
  apply List.filterMap_congr
  intro c hc
  unfold MatchNames.tripleOf
  rw [find?_congr_mem _ (fun excel => nombreKey latin1Builtins excel == nombreKey latin1Builtins c)
      es (fun e he => by rw [hk e (hes e he), hk c (hcs c hc)]),
    find?_congr_mem _ (fun plan => nombreKey latin1Builtins plan == nombreKey latin1Builtins c)
      ps (fun p hp => by rw [hk p (hps p hp), hk c (hcs c hc)])]

end Latin1

/-- C3, as stated, fails: on the worked example the one statement produced is not the
single-line text of the claim (the template literal of the code spans four lines). -/
theorem MatchNames.example_statement_not_single_line :
    MatchNames.generateSqlStatements
        (MatchNames.findMatches latin1Builtins exampleContracts exampleExcel examplePlans)
      ≠ [js "UPDATE contratos SET nombre_excel = 'ana gomez', plan_id = 7 WHERE id = 1;"] := by
  decide

/-- C3, amended: on the worked example exactly one statement is produced, it is the
four-line text of the template literal, with the spreadsheet name quoted and the two
ids as bare numbers, and replacing each run of white space by one space turns it into
the single-line text of the claim. -/
theorem MatchNames.example_statement (rt : Builtins) (h : Latin1Faithful rt) :
    MatchNames.generateSqlStatements
        (MatchNames.findMatches rt exampleContracts exampleExcel examplePlans)
      = [js "UPDATE contratos \nSET nombre_excel = 'ana gomez',\n    plan_id = 7\nWHERE id = 1;"] ∧
    (MatchNames.generateSqlStatements
        (MatchNames.findMatches rt exampleContracts exampleExcel examplePlans)).map
        (replaceRuns isWhiteSpace [32])
      = [js "UPDATE contratos SET nombre_excel = 'ana gomez', plan_id = 7 WHERE id = 1;"] := by
  rw [MatchNames.findMatches_latin1 rt h exampleContracts exampleExcel examplePlans
    (by decide) (by decide) (by decide)]
  decide

theorem latin1Builtins_faithful : Latin1Faithful latin1Builtins :=
  ⟨fun _ _ => rfl, fun _ _ => rfl⟩

/-- Witness of `MatchNames.example_statement`. -/
theorem MatchNames.example_statement_witness :
    Latin1Faithful latin1Builtins ∧
    MatchNames.generateSqlStatements
        (MatchNames.findMatches latin1Builtins exampleContracts exampleExcel examplePlans)
      = [js "UPDATE contratos \nSET nombre_excel = 'ana gomez',\n    plan_id = 7\nWHERE id = 1;"] ∧
    (MatchNames.generateSqlStatements
        (MatchNames.findMatches latin1Builtins exampleContracts exampleExcel examplePlans)).map
        (replaceRuns isWhiteSpace [32])
      = [js "UPDATE contratos SET nombre_excel = 'ana gomez', plan_id = 7 WHERE id = 1;"] :=
  ⟨latin1Builtins_faithful, MatchNames.example_statement latin1Builtins latin1Builtins_faithful⟩

/-! ## Edit distance: the recurrence and edit sequences -/

section EditDistance

variable {α : Type} [DecidableEq α]

theorem editRec_nil_left (t : List α) : editRec [] t = t.length := rfl

theorem editRec_nil_right (s : List α) : editRec s [] = s.length := by
  cases s <;> rfl

theorem editRec_cons_cons (a b : α) (s t : List α) :
    editRec (a :: s) (b :: t)
      = min (editRec s (b :: t) + 1)
          (min (editRec (a :: s) t + 1) (editRec s t + if a = b then 0 else 1)) := rfl

theorem editRec_insert_right (s t : List α) (c : α) :
    editRec s (c :: t) ≤ editRec s t + 1 := by
  cases s with
  | nil => simp [editRec_nil_left]
  | cons a s => rw [editRec_cons_cons]; omega

theorem editRec_insert_left (s t : List α) (a : α) :
    editRec (a :: s) t ≤ editRec s t + 1 := by
  cases t with
  | nil => simp [editRec_nil_right]
  | cons b t => rw [editRec_cons_cons]; omega

theorem editRec_delete_right (s t : List α) (c : α) :
    editRec s t ≤ editRec s (c :: t) + 1 := by
  induction s with
  | nil => simp only [editRec_nil_left, List.length_cons]; omega
  | cons a s ih =>
    have h1 := editRec_insert_left s t a
    rw [editRec_cons_cons]
    split <;> omega

theorem editRec_delete_left (s t : List α) (a : α) :
    editRec s t ≤ editRec (a :: s) t + 1 := by
  induction t with
  | nil => simp only [editRec_nil_right, List.length_cons]; omega
  | cons b t ih =>
    have h1 := editRec_insert_right s t b
    rw [editRec_cons_cons]
    split <;> omega

theorem editRec_substitute_right (s t : List α) (c e : α) :
    editRec s (e :: t) ≤ editRec s (c :: t) + 1 := by
  induction s with
  | nil => simp [editRec_nil_left]
  | cons a s ih =>
    rw [editRec_cons_cons, editRec_cons_cons]
    split <;> split <;> omega

theorem editRec_cons_right_lipschitz (u t : List α) (x : α)
    (h : ∀ s : List α, editRec s t ≤ editRec s u + 1) (s : List α) :
    editRec s (x :: t) ≤ editRec s (x :: u) + 1 := by
  induction s with
  | nil =>
    have := h []
    simp only [editRec_nil_left, List.length_cons] at this ⊢
    omega
  | cons a s ih =>
    have h1 := h (a :: s)
    have h2 := h s
    rw [editRec_cons_cons, editRec_cons_cons]
    split <;> omega

theorem editRec_step_lipschitz {u t : List α} (h : EditStep u t) (s : List α) :
    editRec s t ≤ editRec s u + 1 := by
  cases h with
  | insert l r c =>
    induction l generalizing s with
    | nil => exact editRec_insert_right s r c
    | cons x l ih => exact editRec_cons_right_lipschitz _ _ x ih s
  | delete l r c =>
    induction l generalizing s with
    | nil => exact editRec_delete_right s r c
    | cons x l ih => exact editRec_cons_right_lipschitz _ _ x ih s
  | substitute l r c e =>
    induction l generalizing s with
    | nil => exact editRec_substitute_right s r c e
    | cons x l ih => exact editRec_cons_right_lipschitz _ _ x ih s

theorem editRec_self (s : List α) : editRec s s = 0 := by
  induction s with
  | nil => rfl
  | cons a s ih =>
    rw [editRec_cons_cons]
    simp [ih]

theorem editRec_le_of_editsIn {n : Nat} {s t : List α} (h : EditsIn n s t) :
    editRec s t ≤ n := by
  induction h with
  | refl s => simp [editRec_self]
  | step _ hstep ih =>
    have := editRec_step_lipschitz hstep
    exact le_trans (this _) (Nat.succ_le_succ ih)

omit [DecidableEq α] in
theorem editStep_cons (x : α) {u t : List α} (h : EditStep u t) :
    EditStep (x :: u) (x :: t) := by
  cases h with
  | insert l r c => exact EditStep.insert (x :: l) r c
  | delete l r c => exact EditStep.delete (x :: l) r c
  | substitute l r c e => exact EditStep.substitute (x :: l) r c e

omit [DecidableEq α] in
theorem editsIn_cons (x : α) {n : Nat} {s t : List α} (h : EditsIn n s t) :
    EditsIn n (x :: s) (x :: t) := by
  induction h with
  | refl s => exact EditsIn.refl _
  | step _ hstep ih => exact EditsIn.step ih (editStep_cons x hstep)

omit [DecidableEq α] in
theorem editsIn_trans {m n : Nat} {s u t : List α} (h1 : EditsIn m s u) (h2 : EditsIn n u t) :
    EditsIn (m + n) s t := by
  induction h2 with
  | refl _ => exact h1
  | step _ hstep ih => exact EditsIn.step (ih h1) hstep

omit [DecidableEq α] in
theorem editsIn_cast {m n : Nat} {s t : List α} (h : EditsIn m s t) (e : m = n) :
    EditsIn n s t := e ▸ h

omit [DecidableEq α] in
theorem editsIn_single {s t : List α} (h : EditStep s t) : EditsIn 1 s t :=
  EditsIn.step (EditsIn.refl s) h

omit [DecidableEq α] in
theorem editsIn_insertAll (t : List α) : EditsIn t.length [] t := by
  induction t with
  | nil => exact EditsIn.refl _
  | cons b t ih =>
    exact EditsIn.step ih (EditStep.insert [] t b)

omit [DecidableEq α] in
theorem editsIn_deleteAll (s : List α) : EditsIn s.length s [] := by
  induction s with
  | nil => exact EditsIn.refl _
  | cons a s ih =>
    exact editsIn_cast (editsIn_trans (editsIn_single (EditStep.delete [] s a)) ih) (Nat.add_comm _ _)

theorem editsIn_editRec (s t : List α) : EditsIn (editRec s t) s t := by
  induction s generalizing t with
  | nil => exact editsIn_insertAll t
  | cons a s ihs =>
    induction t with
    | nil => exact editsIn_cast (editsIn_deleteAll (a :: s)) (editRec_nil_right _).symm
    | cons b t iht =>
      rw [editRec_cons_cons]
      rcases min_choice (editRec s (b :: t) + 1)
          (min (editRec (a :: s) t + 1) (editRec s t + if a = b then 0 else 1)) with h | h
      · rw [h]
        exact editsIn_cast (editsIn_trans (editsIn_single (EditStep.delete [] s a)) (ihs (b :: t)))
          (Nat.add_comm _ _)
      · rw [h]
        rcases min_choice (editRec (a :: s) t + 1)
            (editRec s t + if a = b then 0 else 1) with h' | h'
        · rw [h']
          exact EditsIn.step iht (EditStep.insert [] t b)
        · rw [h']
          by_cases hab : a = b
          · subst hab
            simpa using editsIn_cons a (ihs t)
          · simp only [hab, if_false]
            exact EditsIn.step (editsIn_cons a (ihs t)) (EditStep.substitute [] t a b)

omit [DecidableEq α] in
theorem editStep_reverse {u t : List α} (h : EditStep u t) :
    EditStep u.reverse t.reverse := by
  cases h with
  | insert l r c =>
    simpa using EditStep.insert r.reverse l.reverse c
  | delete l r c =>
    simpa using EditStep.delete r.reverse l.reverse c
  | substitute l r c e =>
    simpa using EditStep.substitute r.reverse l.reverse c e

omit [DecidableEq α] in
theorem editsIn_reverse {n : Nat} {s t : List α} (h : EditsIn n s t) :
    EditsIn n s.reverse t.reverse := by
  induction h with
  | refl s => exact EditsIn.refl _
  | step _ hstep ih => exact EditsIn.step ih (editStep_reverse hstep)

/-- The recurrence computes the least number of edits, also when it is run on the
reversed strings. -/
theorem editRec_reverse_isLeast (s t : List α) :
    EditsIn (editRec s.reverse t.reverse) s t ∧
    ∀ n, EditsIn n s t → editRec s.reverse t.reverse ≤ n := by
  constructor
  · simpa using editsIn_reverse (editsIn_editRec s.reverse t.reverse)
  · intro n h
    exact editRec_le_of_editsIn (editsIn_reverse h)

end EditDistance

/-! ## The table of `levenshteinDistance` -/

section Table

theorem foldl_range'_invariant {β : Type} (f : β → Nat → β) (P : Nat → β → Prop) :
    ∀ (len start : Nat) (init : β), P start init →
      (∀ k x, start ≤ k → k < start + len → P k x → P (k + 1) (f x k)) →
      P (start + len) ((List.range' start len).foldl f init) := by
  intro len
  induction len with
  | zero => intro start init h0 _; simpa using h0
  | succ len ih =>
    intro start init h0 hstep
    rw [List.range'_succ, List.foldl_cons]
    have h1 : P (start + 1) (f init start) := hstep start init (le_refl _) (by omega) h0
    have := ih (start + 1) (f init start) h1
      (fun k x hk hk' hP => hstep k x (by omega) (by omega) hP)
    rwa [show start + 1 + len = start + (len + 1) by omega] at this

theorem wellDim_replicate (r c : Nat) :
    WellDim (List.replicate r (List.replicate c 0)) r c := by
  refine ⟨by simp, fun row hrow => ?_⟩
  rw [List.eq_of_mem_replicate hrow]
  simp

theorem wellDim_getD {dp : Table} {r c : Nat} (h : WellDim dp r c) {i : Nat} (hi : i < r) :
    (dp.getD i []).length = c := by
  have hi' : i < dp.length := by rw [h.1]; exact hi
  rw [List.getD_eq_getElem _ _ hi']
  exact h.2 _ (List.getElem_mem hi')

theorem tableSet_wellDim {dp : Table} {r c : Nat} (h : WellDim dp r c) (i j v : Nat) :
    WellDim (tableSet dp i j v) r c := by
  unfold tableSet
  refine ⟨by rw [List.length_set]; exact h.1, fun row hrow => ?_⟩
  rcases List.mem_or_eq_of_mem_set hrow with hmem | rfl
  · exact h.2 row hmem
  · by_cases hi : i < r
    · rw [List.length_set]; exact wellDim_getD h hi
    · have hle : dp.length ≤ i := by rw [h.1]; omega
      rw [List.set_eq_of_length_le hle] at hrow
      exact h.2 _ hrow

theorem getD_set_eq {β : Type} (l : List β) (i : Nat) (x d : β) (a : Nat) (hi : i < l.length) :
    (l.set i x).getD a d = if a = i then x else l.getD a d := by
  rw [List.getD_eq_getElem?_getD, List.getD_eq_getElem?_getD, List.getElem?_set]
  by_cases hai : a = i
  · subst hai
    simp [hi]
  · simp [hai, Ne.symm hai]

theorem tableGet_tableSet {dp : Table} {r c : Nat} (h : WellDim dp r c) {i j : Nat}
    (hi : i < r) (hj : j < c) (v a b : Nat) :
    tableGet (tableSet dp i j v) a b = if a = i ∧ b = j then v else tableGet dp a b := by
  have hi' : i < dp.length := by rw [h.1]; exact hi
  have hj' : j < (dp.getD i []).length := by rw [wellDim_getD h hi]; exact hj
  unfold tableGet tableSet
  rw [getD_set_eq dp i _ [] a hi']
  by_cases hai : a = i
  · subst hai
    rw [if_pos rfl, getD_set_eq _ j v 0 b hj']
    simp
  · simp [hai]

theorem prefixDistance_zero_left (s t : JsString) (j : Nat) (hj : j ≤ t.length) :
    prefixDistance s t 0 j = j := by
  simp [prefixDistance, editRec_nil_left, hj]

theorem prefixDistance_zero_right (s t : JsString) (i : Nat) (hi : i ≤ s.length) :
    prefixDistance s t i 0 = i := by
  simp [prefixDistance, editRec_nil_right, hi]

theorem take_succ_reverse (s : JsString) (i : Nat) (hi : i < s.length) :
    (s.take (i + 1)).reverse = s[i] :: (s.take i).reverse := by
  rw [List.take_succ, List.getElem?_eq_getElem hi]
  simp

/-- The recurrence the inner loop of the code applies, satisfied by the distances of
the prefixes. -/
theorem prefixDistance_succ_succ (s t : JsString) (i j : Nat) (hi : i < s.length)
    (hj : j < t.length) :
    prefixDistance s t (i + 1) (j + 1) =
      if s[i]? = t[j]? then prefixDistance s t i j
      else min (prefixDistance s t i j + 1)
        (min (prefixDistance s t i (j + 1) + 1) (prefixDistance s t (i + 1) j + 1)) := by
  unfold prefixDistance
  rw [take_succ_reverse s i hi, take_succ_reverse t j hj, editRec_cons_cons,
    List.getElem?_eq_getElem hi, List.getElem?_eq_getElem hj]
  have h1 := editRec_delete_right (s.take i).reverse (t.take j).reverse t[j]
  have h2 := editRec_delete_left (s.take i).reverse (t.take j).reverse s[i]
  by_cases hab : s[i] = t[j]
  · simp only [hab, if_true]
    rw [hab] at h2
    omega
  · have hne : ¬ (some s[i] = some t[j]) := by simpa using hab
    simp only [hab, hne, if_false]
    omega

theorem levenshteinCell_filled (s t : JsString) (i j : Nat) (hi1 : 1 ≤ i) (hi : i ≤ s.length)
    (hj1 : 1 ≤ j) (hj : j ≤ t.length) (dp : Table) (h : FilledUpTo s t i j dp) :
    FilledUpTo s t i (j + 1) (levenshteinCell s t dp i j) := by
  obtain ⟨i, rfl⟩ : ∃ k, i = k + 1 := ⟨i - 1, by omega⟩
  obtain ⟨j, rfl⟩ : ∃ k, j = k + 1 := ⟨j - 1, by omega⟩
  obtain ⟨hdim, hval⟩ := h
  have hdiag := hval i j (by omega) (by omega) (by omega)
  have hup := hval i (j + 1) (by omega) (by omega) (by omega)
  have hleft := hval (i + 1) j (by omega) (by omega) (by omega)
  have hrec := prefixDistance_succ_succ s t i j (by omega) (by omega)
  have hcell : ∃ v, levenshteinCell s t dp (i + 1) (j + 1) = tableSet dp (i + 1) (j + 1) v ∧
      v = prefixDistance s t (i + 1) (j + 1) := by
    unfold levenshteinCell
    simp only [Nat.add_sub_cancel]
    by_cases hc : s[i]? = t[j]?
    · rw [if_pos hc] at hrec ⊢
      exact ⟨_, rfl, by rw [hrec, hdiag]⟩
    · rw [if_neg hc] at hrec ⊢
      exact ⟨_, rfl, by rw [hrec, hdiag, hup, hleft]⟩
  obtain ⟨v, hv, hv'⟩ := hcell
  rw [hv]
  refine ⟨tableSet_wellDim hdim _ _ _, fun a b ha hb hab => ?_⟩
  rw [tableGet_tableSet hdim (by omega) (by omega)]
  by_cases hnew : a = i + 1 ∧ b = j + 1
  · rw [if_pos hnew, hv', hnew.1, hnew.2]
  · rw [if_neg hnew]
    exact hval a b ha hb (by omega)

theorem levenshteinRow_filled (s t : JsString) (i : Nat) (hi1 : 1 ≤ i) (hi : i ≤ s.length)
    (dp : Table) (h : FilledUpTo s t i 1 dp) :
    FilledUpTo s t (i + 1) 1
      ((List.range' 1 t.length).foldl (fun dp j => levenshteinCell s t dp i j) dp) := by
  have := foldl_range'_invariant (fun dp j => levenshteinCell s t dp i j)
    (fun j dp => FilledUpTo s t i j dp) t.length 1 dp h
    (fun k x hk hk' hP => levenshteinCell_filled s t i k hi1 hi hk (by omega) x hP)
  obtain ⟨hdim, hval⟩ := this
  exact ⟨hdim, fun a b ha hb hab => hval a b ha hb (by omega)⟩

theorem levenshteinTable_borders (s t : JsString) :
    FilledUpTo s t 1 1
      ((List.range (t.length + 1)).foldl (fun dp j => tableSet dp 0 j j)
        ((List.range (s.length + 1)).foldl (fun dp i => tableSet dp i 0 i)
          (List.replicate (s.length + 1) (List.replicate (t.length + 1) 0)))) := by
  have h1 := foldl_range'_invariant (fun dp i => tableSet dp i 0 i)
    (fun k dp => WellDim dp (s.length + 1) (t.length + 1) ∧ ∀ a, a < k → tableGet dp a 0 = a)
    (s.length + 1) 0 _ ⟨wellDim_replicate _ _, fun a ha => absurd ha (Nat.not_lt_zero a)⟩
    (fun k x _ hk hP => by
      refine ⟨tableSet_wellDim hP.1 _ _ _, fun a ha => ?_⟩
      rw [tableGet_tableSet hP.1 (by omega) (by omega)]
      by_cases hak : a = k
      · simp [hak]
      · simp only [hak, false_and, if_false]
        exact hP.2 a (by omega))
  rw [← List.range_eq_range'] at h1
  have h2 := foldl_range'_invariant (fun dp j => tableSet dp 0 j j)
    (fun k dp => WellDim dp (s.length + 1) (t.length + 1) ∧
      (∀ a, a ≤ s.length → tableGet dp a 0 = a) ∧ ∀ b, b < k → tableGet dp 0 b = b)
    (t.length + 1) 0 _
    ⟨h1.1, fun a ha => h1.2 a (by omega), fun b hb => absurd hb (Nat.not_lt_zero b)⟩
    (fun k x _ hk hP => by
      refine ⟨tableSet_wellDim hP.1 _ _ _, fun a ha => ?_, fun b hb => ?_⟩
      · rw [tableGet_tableSet hP.1 (by omega) (by omega)]
        by_cases hak : a = 0 ∧ 0 = k
        · rw [if_pos hak]; omega
        · rw [if_neg hak]; exact hP.2.1 a ha
      · rw [tableGet_tableSet hP.1 (by omega) (by omega)]
        by_cases hbk : b = k
        · simp [hbk]
        · simp only [hbk, and_false, if_false]
          exact hP.2.2 b (by omega))
  rw [← List.range_eq_range'] at h2
  refine ⟨h2.1, fun a b ha hb hab => ?_⟩
  have hab' : a = 0 ∨ b = 0 := by omega
  rcases hab' with rfl | rfl
  · rw [prefixDistance_zero_left s t b hb]
    exact h2.2.2 b (by omega)
  · rw [prefixDistance_zero_right s t a ha]
    exact h2.2.1 a ha

theorem levenshteinTable_filled (s t : JsString) :
    FilledUpTo s t (s.length + 1) 1 (levenshteinTable s t) := by
  unfold levenshteinTable
  have := foldl_range'_invariant
    (fun dp i => (List.range' 1 t.length).foldl (fun dp j => levenshteinCell s t dp i j) dp)
    (fun i dp => FilledUpTo s t i 1 dp) s.length 1 _ (levenshteinTable_borders s t)
    (fun k x hk hk' hP => levenshteinRow_filled s t k hk (by omega) x hP)
  rwa [Nat.add_comm 1 s.length] at this

theorem levenshteinDistance_eq_editRec (s t : JsString) :
    levenshteinDistance s t = editRec s.reverse t.reverse := by
  unfold levenshteinDistance
  rw [(levenshteinTable_filled s t).2 s.length t.length (le_refl _) (le_refl _) (by omega)]
  simp [prefixDistance]

end Table

/-- C4: `levenshteinDistance` computes the true edit distance.  Some sequence of
`levenshteinDistance(s, t)` single-character insertions, deletions and substitutions
transforms `s` into `t`, and no sequence of fewer such edits does. -/
theorem levenshteinDistance_is_edit_distance (s t : JsString) :
    EditsIn (levenshteinDistance s t) s t ∧
    ∀ n, EditsIn n s t → levenshteinDistance s t ≤ n := by
  rw [levenshteinDistance_eq_editRec]
  exact editRec_reverse_isLeast s t

/-! ## The shape of a normalised name -/

section Normalize

theorem normalizeName_str (rt : Builtins) (s : JsString) :
    normalizeName rt (.str s)
      = .ok (if s = [] then [] else cleanName (rt.normalizeNFD (rt.toLowerCase s))) := by
  cases s with
  | nil => rfl
  | cons c s => rfl

theorem replaceClass_empty (p : Nat → Bool) (s : JsString) :
    replaceClass p [] s = s.filter (fun c => !p c) := by
  induction s with
  | nil => rfl
  | cons c s ih =>
    rw [replaceClass_cons, ih, List.filter_cons]
    cases p c <;> simp

theorem mem_replaceRunsAux (p : Nat → Bool) (rep : JsString) (inRun : Bool) (s : JsString)
    (c : Nat) (hc : c ∈ replaceRunsAux p rep inRun s) : c ∈ rep ∨ (c ∈ s ∧ p c = false) := by
  induction s generalizing inRun with
  | nil => simp [replaceRunsAux] at hc
  | cons a s ih =>
    unfold replaceRunsAux at hc
    by_cases hpa : p a = true
    · rw [if_pos hpa] at hc
      cases inRun with
      | true =>
        simp only [if_true] at hc
        rcases ih true hc with h | h
        · exact Or.inl h
        · exact Or.inr ⟨List.mem_cons_of_mem a h.1, h.2⟩
      | false =>
        simp only [Bool.false_eq_true, if_false, List.mem_append] at hc
        rcases hc with h | h
        · exact Or.inl h
        · rcases ih true h with h | h
          · exact Or.inl h
          · exact Or.inr ⟨List.mem_cons_of_mem a h.1, h.2⟩
    · rw [if_neg hpa, List.mem_cons] at hc
      rcases hc with rfl | h
      · exact Or.inr ⟨List.mem_cons_self _ _, by simpa using hpa⟩
      · rcases ih false h with h | h
        · exact Or.inl h
        · exact Or.inr ⟨List.mem_cons_of_mem a h.1, h.2⟩

theorem chain_replaceRunsAux (inRun : Bool) (s : JsString) :
    List.Chain' NotBothSpaces (replaceRunsAux isWhiteSpace [32] inRun s) ∧
    (inRun = true → (replaceRunsAux isWhiteSpace [32] inRun s).head? ≠ some 32) := by
  induction s generalizing inRun with
  | nil => simp [replaceRunsAux]
  | cons a s ih =>
    unfold replaceRunsAux
    by_cases hpa : isWhiteSpace a = true
    · rw [if_pos hpa]
      cases inRun with
      | true => simpa using ih true
      | false =>
        simp only [Bool.false_eq_true, if_false, List.singleton_append, false_implies, and_true]
        refine (ih true).1.cons' (fun y hy => ?_)
        intro hboth
        exact (ih true).2 rfl (by rw [Option.mem_def] at hy; rw [hy, hboth.2])
    · rw [if_neg hpa]
      have ha : a ≠ 32 := by
        rintro rfl
        exact hpa (by decide)
      refine ⟨(ih false).1.cons' (fun y _ hboth => ha hboth.1), fun _ => ?_⟩
      simpa using ha

theorem trim_eq_rdropWhile (s : JsString) :
    trim s = (s.dropWhile isWhiteSpace).rdropWhile isWhiteSpace := rfl

theorem trim_within (s : JsString) : trim s <:+: s := by
  rw [trim_eq_rdropWhile]
  exact List.IsInfix.trans ( List.rdropWhile_prefix isWhiteSpace _).isInfix
    (List.dropWhile_suffix _).isInfix

theorem trim_head (s : JsString) (c : Nat) (h : (trim s).head? = some c) :
    isWhiteSpace c = false := by
  rw [trim_eq_rdropWhile] at h
  have hne : (s.dropWhile isWhiteSpace).rdropWhile isWhiteSpace ≠ [] := by
    intro h0; rw [h0] at h; simp at h
  have hpre := List.rdropWhile_prefix isWhiteSpace (s.dropWhile isWhiteSpace)
  have hne2 : s.dropWhile isWhiteSpace ≠ [] := by
    intro h0; rw [h0] at hne; simp at hne
  have hhead := hpre.head hne
  have h1 := List.head_dropWhile_not isWhiteSpace s hne2
  rw [List.head?_eq_head hne] at h
  have hc : c = ((s.dropWhile isWhiteSpace).rdropWhile isWhiteSpace).head hne := by
    simpa using h.symm
  rw [hc, hhead]
  exact h1

theorem trim_getLast (s : JsString) (c : Nat) (h : (trim s).getLast? = some c) :
    isWhiteSpace c = false := by
  rw [trim_eq_rdropWhile] at h
  have hne : (s.dropWhile isWhiteSpace).rdropWhile isWhiteSpace ≠ [] := by
    intro h0; rw [h0] at h; simp at h
  have h1 := List.rdropWhile_last_not isWhiteSpace (s.dropWhile isWhiteSpace) hne
  rw [List.getLast?_eq_getLast _ hne] at h
  have hc : c = ((s.dropWhile isWhiteSpace).rdropWhile isWhiteSpace).getLast hne := by
    simpa using h.symm
  rw [hc]
  simpa using h1

theorem cleanName_mem (u : JsString) (c : Nat) (hc : c ∈ cleanName u) :
    (97 ≤ c ∧ c ≤ 122) ∨ (48 ≤ c ∧ c ≤ 57) ∨ c = 32 := by
  unfold cleanName at hc
  have h1 := (trim_within _).subset hc
  rcases mem_replaceRunsAux _ _ _ _ c h1 with h | ⟨h, hws⟩
  · right; right; simpa using h
  · rw [replaceClass_empty] at h
    have hname := (List.mem_filter.mp h).2
    simp only [Bool.not_not] at hname
    unfold isNameChar at hname
    simp only [hws, Bool.or_false, Bool.or_eq_true, Bool.and_eq_true, decide_eq_true_eq]
      at hname
    rcases hname with h | h
    · exact Or.inl h
    · exact Or.inr (Or.inl h)

theorem cleanName_chain (u : JsString) : List.Chain' NotBothSpaces (cleanName u) :=
  List.Chain'.infix (chain_replaceRunsAux false _).1 (trim_within _)

theorem cleanName_shape (u : JsString) : CanonicalShape (cleanName u) := by
  refine ⟨cleanName_mem u, fun hinf => ?_, fun hh => ?_, fun hl => ?_⟩
  · have := List.Chain'.infix (cleanName_chain u) hinf
    simp [NotBothSpaces] at this
  · have := trim_head _ 32 hh
    simp [isWhiteSpace] at this
  · have := trim_getLast _ 32 hl
    simp [isWhiteSpace] at this

theorem normalizeName_str_shape (rt : Builtins) (x : JsString) :
    ∃ y, normalizeName rt (.str x) = .ok y ∧ CanonicalShape y := by
  refine ⟨_, normalizeName_str rt x, ?_⟩
  by_cases hx : x = []
  · rw [if_pos hx]
    exact ⟨by simp, by simp, by simp, by simp⟩
  · rw [if_neg hx]
    exact cleanName_shape _

end Normalize

/-- C9: the normalised form is canonical in shape.  For every input string,
`normalizeName` returns a string made only of the characters `a`-`z`, `0`-`9` and the
space, with no two consecutive spaces and no space at either end. -/
theorem normalizeName_canonical_shape (rt : Builtins) (x : JsString) :
    ∃ y, normalizeName rt (.str x) = .ok y ∧
      (∀ c ∈ y, (97 ≤ c ∧ c ≤ 122) ∨ (48 ≤ c ∧ c ≤ 57) ∨ c = 32) ∧
      ¬ [32, 32] <:+: y ∧ y.head? ≠ some 32 ∧ y.getLast? ≠ some 32 := by
  obtain ⟨y, hy, hshape⟩ := normalizeName_str_shape rt x
  exact ⟨y, hy, hshape⟩

/-! ## Normalised names are fixed by `normalizeName` -/

section Idempotent

set_option maxRecDepth 100000 in
theorem canonChar_facts : ∀ c, c < 123 → isCanonChar c = true →
    lowerLatin1 c = c ∧ decomposeLatin1 c = [c] ∧ isCombiningMark c = false ∧
    isNameChar c = true ∧ (isWhiteSpace c = true → c = 32) := by
  decide

theorem canonChar_of_shape {y : JsString} (h : CanonicalShape y) (c : Nat) (hc : c ∈ y) :
    c < 123 ∧ isCanonChar c = true := by
  have := h.1 c hc
  refine ⟨by omega, ?_⟩
  unfold isCanonChar
  simp only [Bool.or_eq_true, Bool.and_eq_true, decide_eq_true_eq, beq_iff_eq]
  omega

theorem replaceRunsAux_canonical (y : JsString)
    (hc : ∀ c ∈ y, c < 123 ∧ isCanonChar c = true) (hchain : List.Chain' NotBothSpaces y) :
    replaceRunsAux isWhiteSpace [32] false y = y ∧
    (y.head? ≠ some 32 → replaceRunsAux isWhiteSpace [32] true y = y) := by
  induction y with
  | nil => simp [replaceRunsAux]
  | cons a y ih =>
    have ha := hc a (List.mem_cons_self _ _)
    have hfacts := canonChar_facts a ha.1 ha.2
    rw [List.chain'_cons'] at hchain
    have ih' := ih (fun c hc' => hc c (List.mem_cons_of_mem a hc')) hchain.2
    unfold replaceRunsAux
    by_cases hws : isWhiteSpace a = true
    · have ha32 : a = 32 := hfacts.2.2.2.2 hws
      have hy : y.head? ≠ some 32 := by
        intro hh
        exact hchain.1 32 (by rw [Option.mem_def]; exact hh) ⟨ha32, rfl⟩
      rw [if_pos hws]
      refine ⟨?_, fun hhead => ?_⟩
      · simp only [Bool.false_eq_true, if_false, List.singleton_append]
        rw [ih'.2 hy, ha32]
      · exact absurd (by simp [ha32]) hhead
    · rw [if_neg hws]
      exact ⟨by rw [ih'.1], fun _ => by rw [if_neg hws, ih'.1]⟩

theorem chain_of_no_double_space (y : JsString) (h : ¬ [32, 32] <:+: y) :
    List.Chain' NotBothSpaces y := by
  induction y with
  | nil => exact List.chain'_nil
  | cons a y ih =>
    refine List.Chain'.cons' (ih (fun hinf => h (List.infix_cons hinf))) (fun b hb hboth => h ?_)
    rw [Option.mem_def, List.head?_eq_some_iff] at hb
    obtain ⟨ys, rfl⟩ := hb
    rw [hboth.1, hboth.2]
    exact ⟨[], ys, rfl⟩

theorem trim_canonical (y : JsString) (hhead : ∀ c, y.head? = some c → isWhiteSpace c = false)
    (hlast : ∀ c, y.getLast? = some c → isWhiteSpace c = false) : trim y = y := by
  have h1 : y.dropWhile isWhiteSpace = y := by
    cases y with
    | nil => rfl
    | cons a y =>
      have := hhead a rfl
      simp [List.dropWhile_cons, this]
  rw [trim_eq_rdropWhile, h1, List.rdropWhile_eq_self_iff]
  intro hne
  have := hlast _ (List.getLast?_eq_getLast y hne)
  simp [this]

theorem cleanName_builtins_canonical (rt : Builtins) (h : Latin1Faithful rt) (y : JsString)
    (hy : CanonicalShape y) : cleanName (rt.normalizeNFD (rt.toLowerCase y)) = y := by
  have hc := canonChar_of_shape hy
  have hfacts := fun c hcy => canonChar_facts c (hc c hcy).1 (hc c hcy).2
  have hlower : rt.toLowerCase y = y := by
    rw [h.1 y (fun c hcy => by have := (hc c hcy).1; omega)]
    conv_rhs => rw [← List.map_id y]
    exact List.map_congr_left (fun c hcy => (hfacts c hcy).1)
  have hnfd : rt.normalizeNFD y = y := by
    rw [h.2 y (fun c hcy => by have := (hc c hcy).1; omega)]
    clear hlower
    induction y with
    | nil => rfl
    | cons a y ih =>
      rw [List.flatMap_cons, (hfacts a (List.mem_cons_self _ _)).2.1]
      have hy' : ∀ c ∈ y, decomposeLatin1 c = [c] :=
        fun c hcy => (hfacts c (List.mem_cons_of_mem a hcy)).2.1
      have : y.flatMap decomposeLatin1 = y := by
        clear ih hy hc hfacts
        induction y with
        | nil => rfl
        | cons b y ih2 =>
          rw [List.flatMap_cons, hy' b (List.mem_cons_self _ _),
            ih2 (fun c hcy => hy' c (List.mem_cons_of_mem b hcy))]
          rfl
      rw [this]
      rfl
  rw [hlower, hnfd]
  unfold cleanName
  have hmarks : replaceClass isCombiningMark [] y = y := by
    rw [replaceClass_empty, List.filter_eq_self]
    intro c hcy
    simp [(hfacts c hcy).2.2.1]
  have hname : replaceClass (fun c => !isNameChar c) [] y = y := by
    rw [replaceClass_empty, List.filter_eq_self]
    intro c hcy
    simp [(hfacts c hcy).2.2.2.1]
  have hws : ∀ c ∈ y, isWhiteSpace c = true → c = 32 := fun c hcy => (hfacts c hcy).2.2.2.2
  rw [hmarks, hname, replaceRuns,
    (replaceRunsAux_canonical y hc (chain_of_no_double_space y hy.2.1)).1]
  apply trim_canonical
  · intro c hhead
    have hcy : c ∈ y := List.mem_of_mem_head? hhead
    by_contra hw
    have := hws c hcy (by simpa using hw)
    exact hy.2.2.1 (by rw [hhead, this])
  · intro c hlast
    have hcy : c ∈ y := List.mem_of_mem_getLast? hlast
    by_contra hw
    have := hws c hcy (by simpa using hw)
    exact hy.2.2.2 (by rw [hlast, this])

theorem normalizeName_canonical_fixed (rt : Builtins) (h : Latin1Faithful rt) (y : JsString)
    (hy : CanonicalShape y) : normalizeName rt (.str y) = .ok y := by
  rw [normalizeName_str]
  by_cases h0 : y = []
  · rw [if_pos h0, h0]
  · rw [if_neg h0, cleanName_builtins_canonical rt h y hy]

end Idempotent

/-- C8: `normalizeName` is idempotent.  Every string `x` has a normalised form, and
normalising that form again returns it unchanged. -/
theorem normalizeName_idempotent (rt : Builtins) (h : Latin1Faithful rt) (x : JsString) :
    ∃ y, normalizeName rt (.str x) = .ok y ∧ normalizeName rt (.str y) = .ok y := by
  obtain ⟨y, hy, hshape⟩ := normalizeName_str_shape rt x
  exact ⟨y, hy, normalizeName_canonical_fixed rt h y hshape⟩

/-- Witness of `normalizeName_idempotent`. -/
theorem normalizeName_idempotent_witness :
    Latin1Faithful latin1Builtins ∧
    ∃ y, normalizeName latin1Builtins (.str (js "  María  LÓPEZ, 2º ")) = .ok y ∧
      normalizeName latin1Builtins (.str y) = .ok y :=
  ⟨latin1Builtins_faithful,
    normalizeName_idempotent latin1Builtins latin1Builtins_faithful (js "  María  LÓPEZ, 2º ")⟩

/-! ## The similarity score -/

section Similarity

theorem calculateNameSimilarity_of_ok (rt : Builtins) (a b : JsValue) (na nb : JsString)
    (ha : normalizeName rt a = .ok na) (hb : normalizeName rt b = .ok nb) :
    calculateNameSimilarity rt a b = .ok (similarityOfNormalized na nb) := by
  unfold calculateNameSimilarity similarityOfNormalized
  rw [ha, hb]
  simp only [Bool.or_eq_true, List.isEmpty_iff]
  split
  · rfl
  · split <;> rfl

theorem normalizeName_latin1 (rt : Builtins) (h : Latin1Faithful rt) (s : JsString)
    (hs : ∀ c ∈ s, c < 256) :
    normalizeName rt (.str s) = normalizeName latin1Builtins (.str s) := by
  rw [normalizeName_str, normalizeName_str, h.1 s hs, h.2]
  · rfl
  · intro c hc
    obtain ⟨d, hd, rfl⟩ := List.mem_map.mp hc
    exact lowerLatin1_lt d (hs d hd)

theorem editRec_le_max (s t : JsString) : editRec s t ≤ max s.length t.length := by
  induction s generalizing t with
  | nil => simp [editRec_nil_left]
  | cons a s ih =>
    cases t with
    | nil => simp [editRec_nil_right]
    | cons b t =>
      have := ih t
      rw [editRec_cons_cons]
      simp only [List.length_cons]
      split <;> omega

theorem levenshteinDistance_le_max (s t : JsString) :
    levenshteinDistance s t ≤ max s.length t.length := by
  rw [levenshteinDistance_eq_editRec]
  simpa using editRec_le_max s.reverse t.reverse

theorem quotient_mem_unit (na nb : JsString) (h0 : ¬ (na = [] ∨ nb = [])) :
    0 ≤ (levenshteinDistance na nb : ℚ) / ((max na.length nb.length : Nat) : ℚ) ∧
    (levenshteinDistance na nb : ℚ) / ((max na.length nb.length : Nat) : ℚ) ≤ 1 := by
  have hpos : 0 < max na.length nb.length := by
    have : 0 < na.length := List.length_pos.mpr (fun h => h0 (Or.inl h))
    omega
  have hposq : (0 : ℚ) < ((max na.length nb.length : Nat) : ℚ) := by exact_mod_cast hpos
  have hle : (levenshteinDistance na nb : ℚ) ≤ ((max na.length nb.length : Nat) : ℚ) := by
    exact_mod_cast levenshteinDistance_le_max na nb
  exact ⟨div_nonneg (by exact_mod_cast Nat.zero_le _) (le_of_lt hposq),
    (div_le_one hposq).mpr hle⟩

theorem similarityOfNormalized_mem_unit (na nb : JsString) :
    0 ≤ similarityOfNormalized na nb ∧ similarityOfNormalized na nb ≤ 1 := by
  unfold similarityOfNormalized
  by_cases h0 : na = [] ∨ nb = []
  · rw [if_pos h0]; exact ⟨le_refl _, zero_le_one⟩
  · rw [if_neg h0]
    by_cases he : na = nb
    · rw [if_pos he]; exact ⟨zero_le_one, le_refl _⟩
    · rw [if_neg he]
      obtain ⟨h2, h1⟩ := quotient_mem_unit na nb h0
      have h3 := toDouble_nonneg _ h2
      have h4 := toDouble_le_one _ h2 h1
      exact ⟨toDouble_nonneg _ (by linarith), toDouble_le_one _ (by linarith) (by linarith)⟩

/-- The score differs from the exact value of the case definition by at most `2^(-53)`. -/
theorem similarityOfNormalized_near (na nb : JsString) :
    |similarityOfNormalized na nb - exactSimilarity na nb| ≤ 1 / 2 ^ 53 := by
  unfold similarityOfNormalized exactSimilarity
  by_cases h0 : na = [] ∨ nb = []
  · rw [if_pos h0, if_pos h0]; norm_num
  · rw [if_neg h0, if_neg h0]
    by_cases he : na = nb
    · rw [if_pos he, if_pos he]; norm_num
    · rw [if_neg he, if_neg he]
      obtain ⟨h2, h1⟩ := quotient_mem_unit na nb h0
      generalize (levenshteinDistance na nb : ℚ) / ((max na.length nb.length : Nat) : ℚ) = x
        at h1 h2
      have hx0 := toDouble_nonneg _ h2
      have hx1 := toDouble_le_one _ h2 h1
      have half : ∀ q : ℚ, 0 ≤ q → q ≤ 1 → |toDouble q - q| ≤ 1 / 2 ^ 54 := by
        intro q hq0 hq1
        rcases eq_or_lt_of_le hq1 with heq | hlt
        · rw [heq, toDouble_one]; norm_num
        · have := abs_toDouble_sub_le q 0 (by norm_num)
            (by rw [abs_of_nonneg hq0]; simpa using hlt)
          calc |toDouble q - q| ≤ 2 ^ ((0 : ℤ) - 54) := this
            _ = 1 / 2 ^ 54 := by norm_num
      have e1 := half x h2 h1
      have e2 := half (1 - toDouble x) (by linarith) (by linarith)
      have e3 : toDouble (1 - toDouble x) - (1 - x)
          = (toDouble (1 - toDouble x) - (1 - toDouble x)) - (toDouble x - x) := by ring
      rw [e3]
      calc |(toDouble (1 - toDouble x) - (1 - toDouble x)) - (toDouble x - x)|
          ≤ |toDouble (1 - toDouble x) - (1 - toDouble x)| + |toDouble x - x| := abs_sub _ _
        _ ≤ 1 / 2 ^ 54 + 1 / 2 ^ 54 := add_le_add e2 e1
        _ = 1 / 2 ^ 53 := by norm_num

set_option maxRecDepth 100000 in
theorem levenshteinDistance_juan : levenshteinDistance (js "juan perez") (js "juan peres") = 1 := by
  decide

theorem similarityOfNormalized_juan :
    similarityOfNormalized (js "juan perez") (js "juan peres") = 8106479329266893 / 2 ^ 53 := by
  unfold similarityOfNormalized
  rw [if_neg (by decide), if_neg (by decide), levenshteinDistance_juan]
  have : max (js "juan perez").length (js "juan peres").length = 10 := by decide
  rw [this]
  have e : ((1 : Nat) : ℚ) / ((10 : Nat) : ℚ) = 1 / 10 := by norm_num
  rw [e, toDouble_nine_tenths_double]

theorem similarityOfNormalized_abc_abd :
    similarityOfNormalized (js "abc") (js "abd") = 3002399751580331 / 2 ^ 52 := by
  unfold similarityOfNormalized
  have h1 : levenshteinDistance (js "abc") (js "abd") = 1 := by decide
  have h2 : max (js "abc").length (js "abd").length = 3 := by decide
  rw [if_neg (by decide), if_neg (by decide), h1, h2]
  have e : ((1 : Nat) : ℚ) / ((3 : Nat) : ℚ) = 1 / 3 := by norm_num
  rw [e, toDouble_two_thirds_double]

end Similarity

/-- C5, as stated, fails: for `abc` and `abd` the normalised forms differ in one of
three characters, and the score is the double `3002399751580331 / 2^52`
(`0.6666666666666667`), which is not `1 - 1/3`. -/
theorem calculateNameSimilarity_not_exact :
    normalizeName latin1Builtins (.str (js "abc")) = .ok (js "abc") ∧
    normalizeName latin1Builtins (.str (js "abd")) = .ok (js "abd") ∧
    levenshteinDistance (js "abc") (js "abd") = 1 ∧
    max (js "abc").length (js "abd").length = 3 ∧
    calculateNameSimilarity latin1Builtins (.str (js "abc")) (.str (js "abd"))
      = .ok (3002399751580331 / 2 ^ 52) ∧
    (3002399751580331 / 2 ^ 52 : ℚ) ≠ 1 - 1 / 3 := by
  refine ⟨by decide, by decide, by decide, by decide, ?_, by norm_num⟩
  rw [calculateNameSimilarity_of_ok latin1Builtins _ _ (js "abc") (js "abd")
    (by decide) (by decide), similarityOfNormalized_abc_abd]

/-- C5, amended: `calculateNameSimilarity` follows the case definition in double
precision.  Every string has a normalised form; for inputs with normalised forms `na`
and `nb` the result is 0 if `na` or `nb` is empty, 1 if they are equal, and otherwise
the double obtained by rounding the quotient `levenshteinDistance(na, nb) /
max(|na|, |nb|)` and then rounding its difference from 1, which is within `2^(-53)` of
the exact value; for `Juan Perez` and `Juan Peres` it is the double nearest to 9/10,
above 0.85 and below 1; and for the empty string against any string it is 0, in either
order. -/
theorem calculateNameSimilarity_case_definition (rt : Builtins) (h : Latin1Faithful rt) :
    (∀ s : JsString, ∃ n, normalizeName rt (.str s) = .ok n) ∧
    (∀ (a b : JsValue) (na nb : JsString),
      normalizeName rt a = .ok na → normalizeName rt b = .ok nb →
      ∃ r, calculateNameSimilarity rt a b = .ok r ∧
        r = (if na = [] ∨ nb = [] then 0
          else if na = nb then 1
          else toDouble (1 - toDouble
            ((levenshteinDistance na nb : ℚ) / ((max na.length nb.length : Nat) : ℚ)))) ∧
        |r - (if na = [] ∨ nb = [] then 0
          else if na = nb then 1
          else 1 - (levenshteinDistance na nb : ℚ) / ((max na.length nb.length : Nat) : ℚ))|
          ≤ 1 / 2 ^ 53) ∧
    (∃ r, calculateNameSimilarity rt (.str (js "Juan Perez")) (.str (js "Juan Peres")) = .ok r ∧
      r = toDouble (9 / 10) ∧ r = 8106479329266893 / 2 ^ 53 ∧ 85 / 100 < r ∧ r < 1) ∧
    (∀ x : JsString, calculateNameSimilarity rt (.str []) (.str x) = .ok 0 ∧
      calculateNameSimilarity rt (.str x) (.str []) = .ok 0) := by
  refine ⟨fun s => ⟨_, normalizeName_str rt s⟩,
    fun a b na nb ha hb => ⟨_, calculateNameSimilarity_of_ok rt a b na nb ha hb, rfl,
      similarityOfNormalized_near na nb⟩, ?_, fun x => ?_⟩
  · have h1 : normalizeName rt (.str (js "Juan Perez")) = .ok (js "juan perez") := by
      rw [normalizeName_latin1 rt h _ (by decide)]
      decide
    have h2 : normalizeName rt (.str (js "Juan Peres")) = .ok (js "juan peres") := by
      rw [normalizeName_latin1 rt h _ (by decide)]
      decide
    refine ⟨_, calculateNameSimilarity_of_ok rt _ _ _ _ h1 h2, ?_, similarityOfNormalized_juan,
      ?_, ?_⟩
    · rw [similarityOfNormalized_juan, toDouble_nine_tenths]
    · rw [similarityOfNormalized_juan]; norm_num
    · rw [similarityOfNormalized_juan]; norm_num
  · have h0 : normalizeName rt (.str []) = .ok [] := rfl
    constructor
    · rw [calculateNameSimilarity_of_ok rt _ _ _ _ h0 (normalizeName_str rt x)]
      simp [similarityOfNormalized]
    · rw [calculateNameSimilarity_of_ok rt _ _ _ _ (normalizeName_str rt x) h0]
      simp [similarityOfNormalized]

/-- Witness of `calculateNameSimilarity_case_definition`. -/
theorem calculateNameSimilarity_case_definition_witness :
    Latin1Faithful latin1Builtins ∧
    ∃ r, calculateNameSimilarity latin1Builtins (.str (js "Juan Perez")) (.str (js "Juan Peres"))
        = .ok r ∧ r = toDouble (9 / 10) ∧ r = 8106479329266893 / 2 ^ 53 ∧ 85 / 100 < r ∧ r < 1 :=
  ⟨latin1Builtins_faithful,
    (calculateNameSimilarity_case_definition latin1Builtins latin1Builtins_faithful).2.2.1⟩

/-- C6: the similarity score lies in the closed interval from 0 to 1.  For every pair
of strings the score is returned and is between 0 and 1, and the edit distance of two
strings never exceeds the length of the longer one. -/
theorem calculateNameSimilarity_unit_interval (rt : Builtins) (a b : JsString) :
    levenshteinDistance a b ≤ max a.length b.length ∧
    ∃ r, calculateNameSimilarity rt (.str a) (.str b) = .ok r ∧ 0 ≤ r ∧ r ≤ 1 :=
  ⟨levenshteinDistance_le_max a b,
    _, calculateNameSimilarity_of_ok rt _ _ _ _ (normalizeName_str rt a) (normalizeName_str rt b),
    similarityOfNormalized_mem_unit _ _⟩

/-- C7, as stated, fails: `?` is a non-empty string whose similarity to itself is 0,
because its normalised form is empty. -/
theorem calculateNameSimilarity_self_counterexample :
    js "?" ≠ [] ∧
    calculateNameSimilarity latin1Builtins (.str (js "?")) (.str (js "?")) = .ok 0 ∧
    calculateNameSimilarity latin1Builtins (.str (js "?")) (.str (js "?")) ≠ .ok 1 := by
  have h : normalizeName latin1Builtins (.str (js "?")) = .ok [] := by decide
  have hs := calculateNameSimilarity_of_ok latin1Builtins _ _ _ _ h h
  refine ⟨by decide, ?_, ?_⟩
  · rw [hs]; simp [similarityOfNormalized]
  · rw [hs]; simp [similarityOfNormalized]

/-- C7, amended: a name whose normalised form is not empty is fully similar to
itself. -/
theorem calculateNameSimilarity_self (rt : Builtins) (x nx : JsString)
    (hx : normalizeName rt (.str x) = .ok nx) (hne : nx ≠ []) :
    calculateNameSimilarity rt (.str x) (.str x) = .ok 1 := by
  rw [calculateNameSimilarity_of_ok rt _ _ _ _ hx hx]
  simp [similarityOfNormalized, hne]

/-- Witness of `calculateNameSimilarity_self`. -/
theorem calculateNameSimilarity_self_witness :
    normalizeName latin1Builtins (.str (js "Ana Gomez")) = .ok (js "ana gomez") ∧
    js "ana gomez" ≠ [] ∧
    calculateNameSimilarity latin1Builtins (.str (js "Ana Gomez")) (.str (js "Ana Gomez"))
      = .ok 1 :=
  ⟨by decide, by decide,
    calculateNameSimilarity_self latin1Builtins (js "Ana Gomez") (js "ana gomez")
      (by decide) (by decide)⟩

/-! ## Case and accents -/

section CaseAccent

theorem cleanName_eq_of_nameFilter {u v : JsString} (h : nameFilter u = nameFilter v) :
    cleanName u = cleanName v := by
  unfold nameFilter at h
  unfold cleanName
  rw [h]

theorem replaceClass_flatMap (p : Nat → Bool) (rep : JsString) (l : JsString)
    (g : Nat → JsString) :
    replaceClass p rep (l.flatMap g) = l.flatMap (fun c => replaceClass p rep (g c)) := by
  induction l with
  | nil => rfl
  | cons a l ih => rw [List.flatMap_cons, replaceClass_append, ih, List.flatMap_cons]

theorem nameFilter_flatMap (l : JsString) (g : Nat → JsString) :
    nameFilter (l.flatMap g) = l.flatMap (fun c => nameFilter (g c)) := by
  unfold nameFilter
  rw [replaceClass_flatMap, replaceClass_flatMap]

theorem flatMap_congr_mem (l : JsString) (f g : Nat → JsString) (h : ∀ c ∈ l, f c = g c) :
    l.flatMap f = l.flatMap g := by
  induction l with
  | nil => rfl
  | cons a l ih =>
    rw [List.flatMap_cons, List.flatMap_cons, h a (List.mem_cons_self _ _),
      ih (fun c hc => h c (List.mem_cons_of_mem a hc))]

set_option maxRecDepth 100000 in
theorem latin1_accent_pointwise : ∀ c, c < 256 →
    (∀ d ∈ replaceClass isCombiningMark [] (decomposeLatin1 c), d < 256) ∧
    nameFilter (((replaceClass isCombiningMark [] (decomposeLatin1 c)).map lowerLatin1).flatMap
        decomposeLatin1)
      = nameFilter (decomposeLatin1 (lowerLatin1 c)) := by
  decide

theorem normalizeName_of_toLowerCase_eq (rt : Builtins) (h : Latin1Faithful rt) (s t : JsString)
    (hst : rt.toLowerCase t = rt.toLowerCase s) :
    normalizeName rt (.str t) = normalizeName rt (.str s) := by
  have hnil : rt.toLowerCase [] = [] := h.1 [] (by simp)
  have hnfd : rt.normalizeNFD [] = [] := h.2 [] (by simp)
  have hclean : cleanName [] = [] := by decide
  rw [normalizeName_str, normalizeName_str, hst]
  by_cases hs : s = [] <;> by_cases ht : t = []
  · rw [if_pos hs, if_pos ht]
  · rw [if_pos hs, if_neg ht, hs, hnil, hnfd, hclean]
  · rw [if_neg hs, if_pos ht, ← hst, ht, hnil, hnfd, hclean]
  · rw [if_neg hs, if_neg ht]

theorem normalizeName_of_markFree_eq (rt : Builtins) (h : Latin1Faithful rt) (s t : JsString)
    (hst : replaceClass isCombiningMark [] (rt.normalizeNFD (rt.toLowerCase t))
      = replaceClass isCombiningMark [] (rt.normalizeNFD (rt.toLowerCase s))) :
    normalizeName rt (.str t) = normalizeName rt (.str s) := by
  have hnil : rt.toLowerCase [] = [] := h.1 [] (by simp)
  have hnfd : rt.normalizeNFD [] = [] := h.2 [] (by simp)
  have hclean : cleanName [] = [] := by decide
  have hcl : cleanName (rt.normalizeNFD (rt.toLowerCase t))
      = cleanName (rt.normalizeNFD (rt.toLowerCase s)) := by
    unfold cleanName
    rw [hst]
  rw [normalizeName_str, normalizeName_str, hcl]
  by_cases hs : s = [] <;> by_cases ht : t = []
  · rw [if_pos hs, if_pos ht]
  · rw [if_pos hs, if_neg ht, hs, hnil, hnfd, hclean]
  · rw [if_neg hs, if_pos ht, ← hcl, ht, hnil, hnfd, hclean]
  · rw [if_neg hs, if_neg ht]

theorem map_lowerLatin1_of_caseVariant (s t : JsString) (h : List.Forall₂ CaseVariant s t) :
    s.map lowerLatin1 = t.map lowerLatin1 := by
  induction h with
  | nil => rfl
  | cons hcd _ ih => rw [List.map_cons, List.map_cons, ih, hcd]

theorem stripAccents_latin1 (rt : Builtins) (h : Latin1Faithful rt) (s : JsString)
    (hs : ∀ c ∈ s, c < 256) :
    stripAccents rt s = s.flatMap (fun c => replaceClass isCombiningMark [] (decomposeLatin1 c)) ∧
    ∀ d ∈ stripAccents rt s, d < 256 := by
  have heq : stripAccents rt s
      = s.flatMap (fun c => replaceClass isCombiningMark [] (decomposeLatin1 c)) := by
    unfold stripAccents
    rw [h.2 s hs, replaceClass_flatMap]
  refine ⟨heq, fun d hd => ?_⟩
  rw [heq, List.mem_flatMap] at hd
  obtain ⟨c, hc, hdc⟩ := hd
  exact (latin1_accent_pointwise c (hs c hc)).1 d hdc

theorem normalizeName_stripAccents (rt : Builtins) (h : Latin1Faithful rt) (s : JsString)
    (hs : ∀ c ∈ s, c < 256) :
    normalizeName rt (.str (stripAccents rt s)) = normalizeName rt (.str s) := by
  obtain ⟨heq, hlt⟩ := stripAccents_latin1 rt h s hs
  have hclean : cleanName [] = [] := by decide
  have hlow : ∀ u : JsString, (∀ c ∈ u, c < 256) → ∀ c ∈ u.map lowerLatin1, c < 256 := by
    intro u hu c hc
    obtain ⟨d, hd, rfl⟩ := List.mem_map.mp hc
    exact lowerLatin1_lt d (hu d hd)
  have hfilter : nameFilter (rt.normalizeNFD (rt.toLowerCase (stripAccents rt s)))
      = nameFilter (rt.normalizeNFD (rt.toLowerCase s)) := by
    rw [h.1 _ hlt, h.2 _ (hlow _ hlt), h.1 s hs, h.2 _ (hlow s hs), heq]
    rw [List.map_flatMap, List.flatMap_assoc, List.flatMap_map, nameFilter_flatMap,
      nameFilter_flatMap]
    exact flatMap_congr_mem s _ _ (fun c hc => (latin1_accent_pointwise c (hs c hc)).2)
  have hcl := cleanName_eq_of_nameFilter hfilter
  rw [normalizeName_str, normalizeName_str, hcl]
  by_cases hs0 : s = []
  · subst hs0
    have : stripAccents rt [] = [] := by rw [heq]; rfl
    rw [this]
  · rw [if_neg hs0]
    by_cases ht0 : stripAccents rt s = []
    · have hL0 : rt.toLowerCase [] = [] := h.1 [] (by simp)
      have hN0 : rt.normalizeNFD [] = [] := h.2 [] (by simp)
      rw [if_pos ht0, ← hcl, ht0, hL0, hN0, hclean]
    · rw [if_neg ht0]

end CaseAccent

/-- C10, as stated, fails: the long s, U+017F, is a small letter whose capital is `S`, so
`S` is a copy of the one-letter string `ſ` that differs from it only in case.  The
letter is its own lower-case form and has no canonical decomposition, so it is removed
with the characters outside `[a-z0-9\s]`: `ſ` normalises to the empty string, and `S`
to `s`. -/
theorem normalizeName_long_s_case :
    js "ſ" = [0x17F] ∧
    latin1Builtins.toLowerCase (js "ſ") = js "ſ" ∧
    latin1Builtins.normalizeNFD (js "ſ") = js "ſ" ∧
    normalizeName latin1Builtins (.str (js "ſ")) = .ok [] ∧
    normalizeName latin1Builtins (.str (js "S")) = .ok (js "s") ∧
    normalizeName latin1Builtins (.str (js "S"))
      ≠ normalizeName latin1Builtins (.str (js "ſ")) := by
  decide

/-- C10, amended: on strings of code units below U+0100 `normalizeName` is insensitive
to letter case and to accents.  For such a string, a copy that differs from it only in
the case of its letters, place by place, and the copy in which the accented letters are
replaced by their base letters, normalise to the same result as the string; in
particular `María López` and `maria lopez` both give `maria lopez`.  For all strings,
two strings that `toLowerCase` maps to the same string normalise alike, and so do two
strings with the same lower-cased, decomposed, mark-free form. -/
theorem normalizeName_case_accent_insensitive (rt : Builtins) (h : Latin1Faithful rt) :
    (∀ s t : JsString, rt.toLowerCase t = rt.toLowerCase s →
      normalizeName rt (.str t) = normalizeName rt (.str s)) ∧
    (∀ s t : JsString,
      replaceClass isCombiningMark [] (rt.normalizeNFD (rt.toLowerCase t))
        = replaceClass isCombiningMark [] (rt.normalizeNFD (rt.toLowerCase s)) →
      normalizeName rt (.str t) = normalizeName rt (.str s)) ∧
    (∀ s t : JsString, (∀ c ∈ s, c < 256) → (∀ c ∈ t, c < 256) → List.Forall₂ CaseVariant s t →
      normalizeName rt (.str t) = normalizeName rt (.str s)) ∧
    (∀ s : JsString, (∀ c ∈ s, c < 256) →
      normalizeName rt (.str (stripAccents rt s)) = normalizeName rt (.str s)) ∧
    normalizeName rt (.str (js "María López")) = .ok (js "maria lopez") ∧
    normalizeName rt (.str (js "maria lopez")) = .ok (js "maria lopez") := by
  refine ⟨normalizeName_of_toLowerCase_eq rt h, normalizeName_of_markFree_eq rt h,
    fun s t hs ht hst => ?_,
    normalizeName_stripAccents rt h, ?_, ?_⟩
  · apply normalizeName_of_toLowerCase_eq rt h
    rw [h.1 s hs, h.1 t ht, map_lowerLatin1_of_caseVariant s t hst]
  · rw [normalizeName_latin1 rt h _ (by decide)]
    decide
  · rw [normalizeName_latin1 rt h _ (by decide)]
    decide

/-- Witness of `normalizeName_case_accent_insensitive`. -/
theorem normalizeName_case_accent_insensitive_witness :
    Latin1Faithful latin1Builtins ∧
    normalizeName latin1Builtins (.str (js "María López")) = .ok (js "maria lopez") ∧
    normalizeName latin1Builtins (.str (js "maria lopez")) = .ok (js "maria lopez") :=
  ⟨latin1Builtins_faithful,
    (normalizeName_case_accent_insensitive latin1Builtins latin1Builtins_faithful).2.2.2.2⟩

/-! ## `normalizeName` on values that are not strings -/

/-- C11, as stated, fails: handed the number 5, `normalizeName` raises a `TypeError`
(a number has no method `toLowerCase`) and returns no string. -/
theorem normalizeName_number_raises :
    normalizeName latin1Builtins (.num 5) = .error JsError.typeError ∧
    ∀ s : JsString, normalizeName latin1Builtins (.num 5) ≠ .ok s := by
  refine ⟨rfl, fun s h => ?_⟩
  have h' : (Except.error JsError.typeError : Except JsError JsString) = .ok s := h
  cases h'

/-- C11, amended: `normalizeName` returns a string, without raising, for every string,
for `null`, for `undefined` and for the number 0, and that string is empty for `null`,
`undefined`, the empty string and 0; any other number raises a `TypeError`. -/
theorem normalizeName_total_on_strings (rt : Builtins) :
    (∀ s : JsString, ∃ y, normalizeName rt (.str s) = .ok y) ∧
    normalizeName rt .null = .ok [] ∧
    normalizeName rt .undefined = .ok [] ∧
    normalizeName rt (.str []) = .ok [] ∧
    normalizeName rt (.num 0) = .ok [] ∧
    ∀ n : Int, n ≠ 0 → normalizeName rt (.num n) = .error JsError.typeError := by
  refine ⟨fun s => ⟨_, normalizeName_str rt s⟩, rfl, rfl, rfl, rfl, fun n hn => ?_⟩
  unfold normalizeName truthy
  simp [hn]

/-! ## `findBestNameMatch` -/

section BestMatch

theorem calculateNameSimilarity_str (rt : Builtins) (a b : JsString) :
    ∃ sc, calculateNameSimilarity rt (.str a) (.str b) = .ok sc :=
  ⟨_, calculateNameSimilarity_of_ok rt _ _ _ _ (normalizeName_str rt a) (normalizeName_str rt b)⟩

theorem bestInv_init (rt : Builtins) (target : JsValue) (thr : ℚ) :
    BestInv rt target thr [] { bestMatch := none, bestScore := 0 } := by
  refine ⟨fun _ => ⟨rfl, fun c hc => ?_⟩, fun b hb => ?_⟩
  · simp at hc
  · simp at hb

theorem bestInv_keep (rt : Builtins) (target : JsValue) (thr : ℚ) (seen : List JsValue)
    (st : BestState) (name : JsValue) (score : ℚ)
    (hsim : calculateNameSimilarity rt target name = .ok score)
    (hcond : ¬ (score > st.bestScore ∧ score ≥ thr)) (h : BestInv rt target thr seen st) :
    BestInv rt target thr (seen ++ [name]) st := by
  obtain ⟨hnone, hsome⟩ := h
  refine ⟨fun hb => ?_, fun b hb => ?_⟩
  · obtain ⟨h0, hall⟩ := hnone hb
    refine ⟨h0, fun c hc sc hsc => ?_⟩
    rcases List.mem_append.mp hc with hc | hc
    · exact hall c hc sc hsc
    · obtain rfl : c = name := by simpa using hc
      rw [hsim] at hsc
      obtain rfl : score = sc := by simpa using hsc
      rw [h0] at hcond
      exact hcond
  · obtain ⟨hbs, hsimb, hthr, hpos, hmax, l1, l2, hseen, hfirst⟩ := hsome b hb
    refine ⟨hbs, hsimb, hthr, hpos, fun c hc sc hsc => ?_, l1, l2 ++ [name], ?_, hfirst⟩
    · rcases List.mem_append.mp hc with hc | hc
      · exact hmax c hc sc hsc
      · obtain rfl : c = name := by simpa using hc
        rw [hsim] at hsc
        obtain rfl : score = sc := by simpa using hsc
        rw [hbs] at hcond
        by_contra hlt
        exact hcond ⟨lt_of_not_le hlt, le_trans hthr (le_of_lt (lt_of_not_le hlt))⟩
    · rw [hseen]; simp

theorem bestInv_replace (rt : Builtins) (target : JsValue) (thr : ℚ) (seen : List JsValue)
    (st : BestState) (name : JsValue) (score : ℚ)
    (hsim : calculateNameSimilarity rt target name = .ok score)
    (hcond : score > st.bestScore ∧ score ≥ thr) (h : BestInv rt target thr seen st) :
    BestInv rt target thr (seen ++ [name])
      { bestMatch := some { name := name, score := score }, bestScore := score } := by
  obtain ⟨hnone, hsome⟩ := h
  have hbelow : ∀ c ∈ seen, ∀ sc, calculateNameSimilarity rt target c = .ok sc → sc < score := by
    intro c hc sc hsc
    cases hb : st.bestMatch with
    | none =>
      obtain ⟨h0, hall⟩ := hnone hb
      have hno := hall c hc sc hsc
      rw [h0] at hcond
      by_contra hge
      have hge' : score ≤ sc := le_of_not_lt hge
      exact hno ⟨lt_of_lt_of_le hcond.1 hge', le_trans hcond.2 hge'⟩
    | some b0 =>
      obtain ⟨hbs, _, _, _, hmax, _⟩ := hsome b0 hb
      rw [hbs] at hcond
      exact lt_of_le_of_lt (hmax c hc sc hsc) hcond.1
  have hpos : score > 0 := by
    cases hb : st.bestMatch with
    | none =>
      rw [(hnone hb).1] at hcond
      exact hcond.1
    | some b0 =>
      obtain ⟨hbs, _, _, hpos0, _⟩ := hsome b0 hb
      rw [hbs] at hcond
      exact lt_trans hpos0 hcond.1
  refine ⟨fun hb => by simp at hb, fun b hb => ?_⟩
  obtain rfl : BestMatch.mk name score = b := by simpa using hb
  refine ⟨rfl, hsim, hcond.2, hpos, fun c hc sc hsc => ?_, seen, [], rfl, fun c hc heq => ?_⟩
  · rcases List.mem_append.mp hc with hc | hc
    · exact le_of_lt (hbelow c hc sc hsc)
    · obtain rfl : c = name := by simpa using hc
      rw [hsim] at hsc
      obtain rfl : score = sc := by simpa using hsc
      exact le_refl _
  · exact lt_irrefl _ (hbelow c hc score heq)

theorem findBestNameMatchLoop_inv (rt : Builtins) (target : JsValue) (thr : ℚ)
    (rest : List JsValue) :
    ∀ (seen : List JsValue) (st st' : BestState), BestInv rt target thr seen st →
      findBestNameMatchLoop rt target thr rest st = .ok st' →
      BestInv rt target thr (seen ++ rest) st' := by
  induction rest with
  | nil =>
    intro seen st st' h hloop
    obtain rfl : st = st' := by simpa [findBestNameMatchLoop] using hloop
    simpa using h
  | cons name rest ih =>
    intro seen st st' h hloop
    unfold findBestNameMatchLoop at hloop
    cases hsim : calculateNameSimilarity rt target name with
    | error e => rw [hsim] at hloop; cases hloop
    | ok score =>
      rw [hsim] at hloop
      simp only at hloop
      have happ : seen ++ name :: rest = (seen ++ [name]) ++ rest := by simp
      rw [happ]
      by_cases hcond : score > st.bestScore ∧ score ≥ thr
      · rw [if_pos hcond] at hloop
        exact ih _ _ _ (bestInv_replace rt target thr seen st name score hsim hcond h) hloop
      · rw [if_neg hcond] at hloop
        exact ih _ _ _ (bestInv_keep rt target thr seen st name score hsim hcond h) hloop

theorem findBestNameMatch_inv (rt : Builtins) (target : JsValue) (names : List JsValue)
    (thr : Option ℚ) (r : Option BestMatch) (h : findBestNameMatch rt target names thr = .ok r) :
    ∃ st, st.bestMatch = r ∧ BestInv rt target (thr.getD (4 / 5)) names st := by
  unfold findBestNameMatch at h
  cases hloop : findBestNameMatchLoop rt target (thr.getD (4 / 5)) names
      { bestMatch := none, bestScore := 0 } with
  | error e => rw [hloop] at h; cases h
  | ok st =>
    rw [hloop] at h
    refine ⟨st, by simpa using h, ?_⟩
    simpa using findBestNameMatchLoop_inv rt target _ names [] _ st (bestInv_init rt target _) hloop

theorem findBestNameMatchLoop_str (rt : Builtins) (target : JsString) (thr : ℚ)
    (names : List JsString) :
    ∀ st, ∃ st', findBestNameMatchLoop rt (.str target) thr (names.map JsValue.str) st
      = .ok st' := by
  induction names with
  | nil => intro st; exact ⟨st, rfl⟩
  | cons name names ih =>
    intro st
    obtain ⟨sc, hsc⟩ := calculateNameSimilarity_str rt target name
    simp only [List.map_cons, findBestNameMatchLoop, hsc]
    split
    · exact ih _
    · exact ih _

theorem isFirst_of_split {α : Type} (P : α → Prop) (l1 l2 : List α) (x : α) (hx : P x)
    (h : ∀ c ∈ l1, ¬ P c) : IsFirst P (l1 ++ x :: l2) x := by
  refine ⟨l1.length, ?_, hx, fun j hj y hy => ?_⟩
  · rw [List.getElem?_append_right (le_refl _)]
    simp
  rw [List.getElem?_append_left hj] at hy
  exact h y (List.getElem?_mem hy)

end BestMatch

/-- C12: `findBestNameMatch` selects the best candidate, the first seen on ties.  On a
target and candidates that are strings it returns; and whenever it returns a match,
the score of the match is the similarity of the target and the matched name, reaches
the threshold (0.8 when omitted), is the maximum of the scores of all candidates, and
the matched name is the first candidate in list order with that score. -/
theorem findBestNameMatch_best_first (rt : Builtins) (target : JsValue)
    (names : List JsValue) (thr : Option ℚ) (b : BestMatch)
    (h : findBestNameMatch rt target names thr = .ok (some b)) :
    calculateNameSimilarity rt target b.name = .ok b.score ∧
    b.score ≥ thr.getD (4 / 5) ∧
    (∀ c ∈ names, ∀ sc, calculateNameSimilarity rt target c = .ok sc → sc ≤ b.score) ∧
    IsFirst (fun c => calculateNameSimilarity rt target c = .ok b.score) names b.name ∧
    (∀ (t : JsString) (l : List JsString), ∃ r,
      findBestNameMatch rt (.str t) (l.map JsValue.str) thr = .ok r) := by
  obtain ⟨st, hst, _, hsome⟩ := findBestNameMatch_inv rt target names thr _ h
  obtain ⟨_, hsim, hthr, _, hmax, l1, l2, hnames, hfirst⟩ := hsome b hst
  refine ⟨hsim, hthr, hmax, ?_, fun t l => ?_⟩
  · rw [hnames]
    exact isFirst_of_split _ l1 l2 b.name hsim hfirst
  · obtain ⟨st', hst'⟩ := findBestNameMatchLoop_str rt t (thr.getD (4 / 5)) l
      { bestMatch := none, bestScore := 0 }
    exact ⟨st'.bestMatch, by unfold findBestNameMatch; rw [hst']⟩

section BestMatchExamples

theorem similarity_juan_peres :
    calculateNameSimilarity latin1Builtins (.str (js "Juan Perez")) (.str (js "Juan Peres"))
      = .ok (8106479329266893 / 2 ^ 53) := by
  rw [calculateNameSimilarity_of_ok latin1Builtins _ _ (js "juan perez") (js "juan peres")
    (by decide) (by decide), similarityOfNormalized_juan]

theorem similarity_juan_perez :
    calculateNameSimilarity latin1Builtins (.str (js "Juan Perez")) (.str (js "Juan Perez"))
      = .ok 1 := by
  rw [calculateNameSimilarity_of_ok latin1Builtins _ _ (js "juan perez") (js "juan perez")
    (by decide) (by decide)]
  simp [similarityOfNormalized]
  decide

theorem similarity_abc_xyz :
    calculateNameSimilarity latin1Builtins (.str (js "abc")) (.str (js "xyz")) = .ok 0 := by
  rw [calculateNameSimilarity_of_ok latin1Builtins _ _ (js "abc") (js "xyz")
    (by decide) (by decide)]
  unfold similarityOfNormalized
  rw [if_neg (by decide), if_neg (by decide)]
  have h1 : levenshteinDistance (js "abc") (js "xyz") = 3 := by decide
  have h2 : max (js "abc").length (js "xyz").length = 3 := by decide
  rw [h1, h2]
  have e : ((3 : Nat) : ℚ) / ((3 : Nat) : ℚ) = 1 := by norm_num
  rw [e, toDouble_one, sub_self, toDouble_zero]

theorem findBestNameMatch_juan :
    findBestNameMatch latin1Builtins (.str (js "Juan Perez"))
        [.str (js "Juan Peres"), .str (js "Juan Perez")] none
      = .ok (some { name := .str (js "Juan Perez"), score := 1 }) := by
  simp only [findBestNameMatch, findBestNameMatchLoop, similarity_juan_peres,
    similarity_juan_perez, Option.getD_none]
  norm_num

theorem findBestNameMatch_none_iff (rt : Builtins) (target : JsValue) (names : List JsValue)
    (thr : ℚ) (hthr : 0 < thr) (r : Option BestMatch)
    (h : findBestNameMatch rt target names (some thr) = .ok r) :
    r = none ↔ ∀ c ∈ names, ∀ sc, calculateNameSimilarity rt target c = .ok sc → ¬ sc ≥ thr := by
  obtain ⟨st, hst, hnone, hsome⟩ := findBestNameMatch_inv rt target names (some thr) r h
  simp only [Option.getD_some] at hnone hsome
  constructor
  · intro hr c hc sc hsc hge
    exact (hnone (hst.trans hr)).2 c hc sc hsc ⟨lt_of_lt_of_le hthr hge, hge⟩
  · intro hall
    cases hr : r with
    | none => rfl
    | some b =>
      obtain ⟨_, hsim, hge, _, _, l1, l2, hnames, _⟩ := hsome b (hst.trans hr)
      exact absurd hge (hall b.name (by rw [hnames]; simp) b.score hsim)

end BestMatchExamples

/-- Witness of `findBestNameMatch_best_first`. -/
theorem findBestNameMatch_best_first_witness :
    findBestNameMatch latin1Builtins (.str (js "Juan Perez"))
        [.str (js "Juan Peres"), .str (js "Juan Perez")] none
      = .ok (some { name := .str (js "Juan Perez"), score := 1 }) ∧
    calculateNameSimilarity latin1Builtins (.str (js "Juan Perez")) (.str (js "Juan Perez"))
      = .ok 1 ∧
    (1 : ℚ) ≥ 4 / 5 :=
  ⟨findBestNameMatch_juan,
    (findBestNameMatch_best_first latin1Builtins (.str (js "Juan Perez"))
      [.str (js "Juan Peres"), .str (js "Juan Perez")] none
      { name := .str (js "Juan Perez"), score := 1 } findBestNameMatch_juan).1,
    (findBestNameMatch_best_first latin1Builtins (.str (js "Juan Perez"))
      [.str (js "Juan Peres"), .str (js "Juan Perez")] none
      { name := .str (js "Juan Perez"), score := 1 } findBestNameMatch_juan).2.1⟩

/-- C13, the failing input: with the threshold 0, which the documentation allows, and
the single candidate `xyz`, whose similarity to `abc` is 0 and so reaches the
threshold, `findBestNameMatch` returns `null`.  For a positive threshold the result is
`null` exactly when no candidate reaches the threshold. -/
theorem findBestNameMatch_threshold_zero :
    findBestNameMatch latin1Builtins (.str (js "abc")) [.str (js "xyz")] (some 0) = .ok none ∧
    calculateNameSimilarity latin1Builtins (.str (js "abc")) (.str (js "xyz")) = .ok 0 ∧
    (0 : ℚ) ≥ 0 ∧
    (∀ (rt : Builtins) (target : JsValue) (names : List JsValue) (thr : ℚ)
      (r : Option BestMatch), 0 < thr →
      findBestNameMatch rt target names (some thr) = .ok r →
      (r = none ↔
        ∀ c ∈ names, ∀ sc, calculateNameSimilarity rt target c = .ok sc → ¬ sc ≥ thr)) := by
  refine ⟨?_, similarity_abc_xyz, le_refl _, fun rt target names thr r hthr h =>
    findBestNameMatch_none_iff rt target names thr hthr r h⟩
  simp only [findBestNameMatch, findBestNameMatchLoop, similarity_abc_xyz, Option.getD_some]
  norm_num

/-! ## Order, independence and counts in the exact-policy matcher -/

section MatcherStructure

theorem MatchNames.tripleOf_contract (rt : Builtins) (es ps : List Record) (c : Record)
    (m : MatchNames.Match) (h : MatchNames.tripleOf rt es ps c = some m) : m.contract = c :=
  ((MatchNames.tripleOf_eq_some_iff rt es ps c m).mp h).1

theorem MatchNames.contracts_sublist (rt : Builtins) (es ps cs : List Record) :
    List.Sublist ((cs.filterMap (MatchNames.tripleOf rt es ps)).map (fun m => m.contract)) cs := by
  induction cs with
  | nil => exact List.Sublist.slnil
  | cons c cs ih =>
    rw [List.filterMap_cons]
    cases h : MatchNames.tripleOf rt es ps c with
    | none => exact List.Sublist.cons c ih
    | some m =>
      simp only [List.map_cons]
      rw [MatchNames.tripleOf_contract rt es ps c m h]
      exact List.Sublist.cons₂ c ih

theorem MatchNames.tripleOf_eq_none (rt : Builtins) (es ps : List Record) (c : Record)
    (h : (∀ e ∈ es, nombreKey rt e ≠ nombreKey rt c) ∨
      (∀ p ∈ ps, nombreKey rt p ≠ nombreKey rt c)) :
    MatchNames.tripleOf rt es ps c = none := by
  cases hm : MatchNames.tripleOf rt es ps c with
  | none => rfl
  | some m =>
    obtain ⟨_, ⟨i, hi, he, _⟩, ⟨j, hj, hp, _⟩⟩ :=
      (MatchNames.tripleOf_eq_some_iff rt es ps c m).mp hm
    rcases h with h | h
    · exact absurd he (h _ (List.getElem?_mem hi))
    · exact absurd hp (h _ (List.getElem?_mem hj))

theorem MatchNames.findMatches_drop_unmatched (rt : Builtins) (es ps cs1 cs2 : List Record)
    (c : Record) (h : MatchNames.tripleOf rt es ps c = none) :
    MatchNames.findMatches rt (cs1 ++ c :: cs2) es ps
      = MatchNames.findMatches rt (cs1 ++ cs2) es ps := by
  simp only [MatchNames.findMatches_eq_filterMap, List.filterMap_append, List.filterMap_cons, h]

theorem MatchNames.findMatches_length_le (rt : Builtins) (cs es ps : List Record) :
    (MatchNames.findMatches rt cs es ps).length ≤ cs.length := by
  rw [MatchNames.findMatches_eq_filterMap]
  exact List.length_filterMap_le _ _

end MatcherStructure

/-- C14: each contract is matched independently of the other contracts: matching a
concatenation of two contract lists gives the concatenation of the two results. -/
theorem MatchNames.findMatches_append (rt : Builtins) (cs1 cs2 es ps : List Record) :
    MatchNames.findMatches rt (cs1 ++ cs2) es ps
      = MatchNames.findMatches rt cs1 es ps ++ MatchNames.findMatches rt cs2 es ps := by
  simp only [MatchNames.findMatches_eq_filterMap, List.filterMap_append]

/-- C15: a contract yields at most one triple and the input order is kept: the
`contract` fields of the result form a subsequence of the input contract list, so
there are at most as many matches as contracts. -/
theorem MatchNames.findMatches_contracts_subsequence (rt : Builtins) (cs es ps : List Record) :
    List.Sublist ((MatchNames.findMatches rt cs es ps).map (fun m => m.contract)) cs ∧
    (MatchNames.findMatches rt cs es ps).length ≤ cs.length := by
  refine ⟨?_, MatchNames.findMatches_length_le rt cs es ps⟩
  rw [MatchNames.findMatches_eq_filterMap]
  exact MatchNames.contracts_sublist rt es ps cs

/-- C16: statement generation is one-to-one and keeps the order: there are as many
statements as matches, the statement at each position is the one built from the match
at that position, it ends with the `WHERE id` clause of that match's contract id, and
so the number of statements of a run is its number of matches. -/
theorem MatchNames.generateSqlStatements_pointwise (ms : List MatchNames.Match) :
    (MatchNames.generateSqlStatements ms).length = ms.length ∧
    (∀ (i : Nat) (m : MatchNames.Match), ms[i]? = some m →
      (MatchNames.generateSqlStatements ms)[i]? = some (MatchNames.sqlStatement m) ∧
      (js "\nWHERE id = " ++ toStringJs (field m.contract "id") ++ js ";")
        <:+ MatchNames.sqlStatement m) ∧
    (∀ (rt : Builtins) (cs es ps : List Record),
      (MatchNames.generateSqlStatements (MatchNames.findMatches rt cs es ps)).length
        = (MatchNames.findMatches rt cs es ps).length) := by
  refine ⟨by simp [MatchNames.generateSqlStatements], fun i m hi => ⟨?_, ?_⟩,
    fun rt cs es ps => by simp [MatchNames.generateSqlStatements]⟩
  · simp [MatchNames.generateSqlStatements, hi]
  · unfold MatchNames.sqlStatement
    refine ⟨js "UPDATE contratos \nSET nombre_excel = '" ++
      MatchNames.escapeSql (field m.excel "nombre") ++ js "',\n    plan_id = " ++
      toStringJs (field m.plan "id"), ?_⟩
    simp only [List.append_assoc]

/-- C17: the absence of a match is not an error.  The matcher and the generator are
total on lists of records and return at most one statement per contract, and a
contract whose normalised name is that of no spreadsheet record, or of no plan record,
contributes nothing: the matches and the statements are those of the list without
it. -/
theorem MatchNames.findMatches_unmatched_contract (rt : Builtins) (es ps cs1 cs2 : List Record)
    (c : Record)
    (h : (∀ e ∈ es, nombreKey rt e ≠ nombreKey rt c) ∨
      (∀ p ∈ ps, nombreKey rt p ≠ nombreKey rt c)) :
    MatchNames.findMatches rt (cs1 ++ c :: cs2) es ps
      = MatchNames.findMatches rt (cs1 ++ cs2) es ps ∧
    MatchNames.generateSqlStatements (MatchNames.findMatches rt (cs1 ++ c :: cs2) es ps)
      = MatchNames.generateSqlStatements (MatchNames.findMatches rt (cs1 ++ cs2) es ps) ∧
    MatchNames.generateSqlStatements (MatchNames.findMatches rt [c] es ps) = [] ∧
    (MatchNames.generateSqlStatements (MatchNames.findMatches rt (cs1 ++ c :: cs2) es ps)).length
      ≤ (cs1 ++ cs2).length := by
  have hnone := MatchNames.tripleOf_eq_none rt es ps c h
  have hdrop := MatchNames.findMatches_drop_unmatched rt es ps cs1 cs2 c hnone
  refine ⟨hdrop, by rw [hdrop], ?_, ?_⟩
  · have := MatchNames.findMatches_drop_unmatched rt es ps [] [] c hnone
    simp only [List.nil_append] at this
    rw [this]
    rfl
  · rw [hdrop]
    simpa [MatchNames.generateSqlStatements] using
      MatchNames.findMatches_length_le rt (cs1 ++ cs2) es ps

/-- Witness of `MatchNames.findMatches_unmatched_contract`. -/
theorem MatchNames.findMatches_unmatched_contract_witness :
    ((∀ e ∈ exampleExcel, nombreKey latin1Builtins e ≠ nombreKey latin1Builtins unmatchedContract) ∨
      (∀ p ∈ examplePlans, nombreKey latin1Builtins p ≠ nombreKey latin1Builtins unmatchedContract)) ∧
    MatchNames.findMatches latin1Builtins (exampleContracts ++ unmatchedContract :: [])
        exampleExcel examplePlans
      = MatchNames.findMatches latin1Builtins (exampleContracts ++ []) exampleExcel examplePlans :=
  ⟨Or.inl (by decide),
    (MatchNames.findMatches_unmatched_contract latin1Builtins exampleExcel examplePlans
      exampleContracts [] unmatchedContract (Or.inl (by decide))).1⟩

/-! ## Records without the field `nombre` -/

/-- C19: the code at the failing input.  A contract without `nombre` is not skipped: it
is compared under the text `undefined`, so with a spreadsheet record and a plan record
that lack the field too it yields a triple, and the statement that sets
`nombre_excel = 'undefined'` is generated for it. -/
theorem MatchNames.findMatches_nameless_contract_matched :
    field namelessContract "nombre" = .undefined ∧
    MatchNames.findMatches latin1Builtins [namelessContract] [namelessExcel] [namelessPlan]
      = [{ contract := namelessContract, excel := namelessExcel, plan := namelessPlan }] ∧
    MatchNames.generateSqlStatements
        (MatchNames.findMatches latin1Builtins [namelessContract] [namelessExcel] [namelessPlan])
      = [js "UPDATE contratos \nSET nombre_excel = 'undefined',\n    plan_id = 7\nWHERE id = 1;"] := by
  decide

/-- A contract without `nombre` is compared under the key `undefined`; it yields no
triple, hence no statement, when no spreadsheet record, or no plan record, has a
`nombre` whose normalised form is `undefined`. -/
theorem MatchNames.findMatches_nameless_contract (rt : Builtins) (h : Latin1Faithful rt)
    (es ps cs1 cs2 : List Record) (c : Record) (hc : field c "nombre" = .undefined)
    (hno : (∀ e ∈ es, nombreKey rt e ≠ js "undefined") ∨
      (∀ p ∈ ps, nombreKey rt p ≠ js "undefined")) :
    nombreKey rt c = js "undefined" ∧
    MatchNames.findMatches rt (cs1 ++ c :: cs2) es ps
      = MatchNames.findMatches rt (cs1 ++ cs2) es ps ∧
    MatchNames.generateSqlStatements (MatchNames.findMatches rt [c] es ps) = [] := by
  have hkey : nombreKey rt c = js "undefined" := by
    unfold nombreKey
    rw [hc, MatchNames.classNormalizeName_latin1 rt h _ (by decide)]
    decide
  have hnone : MatchNames.tripleOf rt es ps c = none :=
    MatchNames.tripleOf_eq_none rt es ps c (by rw [hkey]; exact hno)
  refine ⟨hkey, MatchNames.findMatches_drop_unmatched rt es ps cs1 cs2 c hnone, ?_⟩
  have := MatchNames.findMatches_drop_unmatched rt es ps [] [] c hnone
  simp only [List.nil_append] at this
  rw [this]
  rfl

/-- An instance of `MatchNames.findMatches_nameless_contract`: the nameless contract
against the records of the worked example. -/
theorem MatchNames.findMatches_nameless_contract_witness :
    Latin1Faithful latin1Builtins ∧
    field namelessContract "nombre" = .undefined ∧
    ((∀ e ∈ exampleExcel, nombreKey latin1Builtins e ≠ js "undefined") ∨
      (∀ p ∈ examplePlans, nombreKey latin1Builtins p ≠ js "undefined")) ∧
    MatchNames.generateSqlStatements
      (MatchNames.findMatches latin1Builtins [namelessContract] exampleExcel examplePlans) = [] :=
  ⟨latin1Builtins_faithful, rfl, Or.inl (by decide),
    (MatchNames.findMatches_nameless_contract latin1Builtins latin1Builtins_faithful
      exampleExcel examplePlans [] [] namelessContract rfl (Or.inl (by decide))).2.2⟩

/-! ## The code/plan script -/

section Script

theorem MatchNamesScript.cleanName_str (rt : Builtins) (s : JsString) (hs : s ≠ []) :
    MatchNamesScript.cleanName rt (.str s)
      = .ok (replaceRuns isWhiteSpace [32] (trim (rt.toLowerCase s))) := by
  cases s with
  | nil => exact absurd rfl hs
  | cons c s => rfl

theorem MatchNamesScript.cleanName_falsy (rt : Builtins) (v : JsValue) (hv : truthy v = false) :
    MatchNamesScript.cleanName rt v = .ok [] := by
  unfold MatchNamesScript.cleanName
  simp [hv]

theorem truthy_str (s : JsString) : truthy (.str s) = true ↔ s ≠ [] := by
  cases s <;> simp [truthy]

theorem MatchNamesScript.contractStatement_of_nombre (rt : Builtins)
    (excelMap : MatchNamesScript.JsMap) (excelRows : List Record)
    (planesMap : MatchNamesScript.JsMap) (contract : Record) (n : JsString)
    (hn : field contract "nombre" = .str n) (hne : n ≠ []) :
    MatchNamesScript.contractStatement rt excelMap excelRows planesMap contract =
      if truthy (MatchNamesScript.mapGet excelMap
          (replaceRuns isWhiteSpace [32] (trim (rt.toLowerCase n)))) then
        match excelRows.find? (fun row => field row "Cod" ==
            MatchNamesScript.mapGet excelMap
              (replaceRuns isWhiteSpace [32] (trim (rt.toLowerCase n)))) with
        | some excelRow =>
          if truthy (field excelRow "Plan") then
            match MatchNamesScript.cleanName rt (field excelRow "Plan") with
            | .error e => .error e
            | .ok planName =>
              if truthy (MatchNamesScript.mapGet planesMap planName) then
                .ok (some (MatchNamesScript.fullStatement
                  (MatchNamesScript.mapGet excelMap
                    (replaceRuns isWhiteSpace [32] (trim (rt.toLowerCase n))))
                  (MatchNamesScript.mapGet planesMap planName) (field contract "id")))
              else .ok (some (MatchNamesScript.codeOnlyStatement
                (MatchNamesScript.mapGet excelMap
                  (replaceRuns isWhiteSpace [32] (trim (rt.toLowerCase n))))
                (field contract "id")))
          else .ok (some (MatchNamesScript.codeOnlyStatement
            (MatchNamesScript.mapGet excelMap
              (replaceRuns isWhiteSpace [32] (trim (rt.toLowerCase n))))
            (field contract "id")))
        | none => .ok (some (MatchNamesScript.codeOnlyStatement
            (MatchNamesScript.mapGet excelMap
              (replaceRuns isWhiteSpace [32] (trim (rt.toLowerCase n))))
            (field contract "id")))
      else .ok none := by
  unfold MatchNamesScript.contractStatement
  rw [hn, if_pos ((truthy_str n).mpr hne), MatchNamesScript.cleanName_str rt n hne]

end Script

/-- C20: the code at the failing input.  A contract whose code resolves, but whose
spreadsheet row holds the number 100 in the `Plan` cell, has none of the three
outcomes: `cleanName` raises a `TypeError` on the number, no statement is written for
the contract, and the loop ends there. -/
theorem MatchNamesScript.contractStatement_numeric_plan :
    MatchNamesScript.mapGet scriptExcelMap (js "ana gomez") = .str (js "X1") ∧
    MatchNamesScript.rowWithCode [scriptRowNumericPlan] (.str (js "X1"))
      = some scriptRowNumericPlan ∧
    field scriptRowNumericPlan "Plan" = .num 100 ∧
    MatchNamesScript.contractStatement latin1Builtins scriptExcelMap [scriptRowNumericPlan]
        scriptPlanesMap scriptContract = .error JsError.typeError ∧
    MatchNamesScript.statementLoop latin1Builtins scriptExcelMap [scriptRowNumericPlan]
        scriptPlanesMap [scriptContract] { written := [], sqlCount := 0 }
      = ({ written := [], sqlCount := 0 }, some JsError.typeError) := by
  decide

/-- The three outcomes of the code/plan script.  For a contract with a non-empty
`nombre`, the statement written is decided as follows.  No statement when the cleaned name is not a key of the code map
(or its code is falsy); the statement setting `nro` and `plan_id` when the code
resolves, a row carries it, the `Plan` of the first such row is a non-empty string and
its cleaned form has a truthy plan id; the statement setting only `nro` when the code
resolves and no row carries it, or the `Plan` of the row is absent or blank, or the
cleaned plan name has no truthy plan id.  When no row has a number other than 0 in
its `Plan` cell these are the only outcomes. -/
theorem MatchNamesScript.contractStatement_outcomes (rt : Builtins)
    (excelMap : MatchNamesScript.JsMap) (excelRows : List Record)
    (planesMap : MatchNamesScript.JsMap) (contract : Record) (n : JsString)
    (hn : field contract "nombre" = .str n) (hne : n ≠ []) :
    MatchNamesScript.cleanName rt (field contract "nombre")
      = .ok (MatchNamesScript.cleaned rt n) ∧
    (excelMap.lookup (MatchNamesScript.cleaned rt n) = none →
      MatchNamesScript.contractStatement rt excelMap excelRows planesMap contract = .ok none) ∧
    (truthy (MatchNamesScript.mapGet excelMap (MatchNamesScript.cleaned rt n)) = false →
      MatchNamesScript.contractStatement rt excelMap excelRows planesMap contract = .ok none) ∧
    (∀ (r : Record) (p : JsString),
      truthy (MatchNamesScript.mapGet excelMap (MatchNamesScript.cleaned rt n)) = true →
      MatchNamesScript.rowWithCode excelRows
        (MatchNamesScript.mapGet excelMap (MatchNamesScript.cleaned rt n)) = some r →
      field r "Plan" = .str p → p ≠ [] →
      truthy (MatchNamesScript.mapGet planesMap (MatchNamesScript.cleaned rt p)) = true →
      MatchNamesScript.contractStatement rt excelMap excelRows planesMap contract
        = .ok (some (MatchNamesScript.fullStatement
            (MatchNamesScript.mapGet excelMap (MatchNamesScript.cleaned rt n))
            (MatchNamesScript.mapGet planesMap (MatchNamesScript.cleaned rt p))
            (field contract "id")))) ∧
    (truthy (MatchNamesScript.mapGet excelMap (MatchNamesScript.cleaned rt n)) = true →
      (MatchNamesScript.rowWithCode excelRows
          (MatchNamesScript.mapGet excelMap (MatchNamesScript.cleaned rt n)) = none ∨
        (∃ r, MatchNamesScript.rowWithCode excelRows
            (MatchNamesScript.mapGet excelMap (MatchNamesScript.cleaned rt n)) = some r ∧
          (truthy (field r "Plan") = false ∨
            ∃ p, field r "Plan" = .str p ∧ p ≠ [] ∧
              truthy (MatchNamesScript.mapGet planesMap (MatchNamesScript.cleaned rt p))
                = false))) →
      MatchNamesScript.contractStatement rt excelMap excelRows planesMap contract
        = .ok (some (MatchNamesScript.codeOnlyStatement
            (MatchNamesScript.mapGet excelMap (MatchNamesScript.cleaned rt n))
            (field contract "id")))) ∧
    ((∀ r ∈ excelRows, ∀ k : Int, field r "Plan" = .num k → k = 0) →
      MatchNamesScript.contractStatement rt excelMap excelRows planesMap contract = .ok none ∨
      MatchNamesScript.contractStatement rt excelMap excelRows planesMap contract
        = .ok (some (MatchNamesScript.codeOnlyStatement
            (MatchNamesScript.mapGet excelMap (MatchNamesScript.cleaned rt n))
            (field contract "id"))) ∨
      ∃ planId, truthy planId = true ∧
        MatchNamesScript.contractStatement rt excelMap excelRows planesMap contract
          = .ok (some (MatchNamesScript.fullStatement
              (MatchNamesScript.mapGet excelMap (MatchNamesScript.cleaned rt n)) planId
              (field contract "id")))) := by
  have hstep := MatchNamesScript.contractStatement_of_nombre rt excelMap excelRows planesMap
    contract n hn hne
  have hfold : replaceRuns isWhiteSpace [32] (trim (rt.toLowerCase n))
      = MatchNamesScript.cleaned rt n := rfl
  have hrow : ∀ cod, excelRows.find? (fun row => field row "Cod" == cod)
      = MatchNamesScript.rowWithCode excelRows cod := fun _ => rfl
  rw [hfold, hrow] at hstep
  refine ⟨?_, ?_, ?_, ?_, ?_, ?_⟩
  · rw [hn]; exact MatchNamesScript.cleanName_str rt n hne
  · intro hkey
    rw [hstep]
    simp [MatchNamesScript.mapGet, hkey, truthy]
  · intro hcod
    rw [hstep]
    simp [hcod]
  · intro r p hcod hr hp hpne hplan
    rw [hstep, if_pos hcod, hr]
    simp only [hp, (truthy_str p).mpr hpne, if_true, MatchNamesScript.cleanName_str rt p hpne]
    exact if_pos hplan
  · intro hcod hcase
    rw [hstep, if_pos hcod]
    rcases hcase with hr | ⟨r, hr, hfalsy | ⟨p, hp, hpne, hplan⟩⟩
    · rw [hr]
    · rw [hr]
      simp [hfalsy]
    · rw [hr]
      simp only [hp, (truthy_str p).mpr hpne, if_true, MatchNamesScript.cleanName_str rt p hpne]
      have hplan' : truthy (MatchNamesScript.mapGet planesMap
          (replaceRuns isWhiteSpace [32] (trim (rt.toLowerCase p)))) = false := hplan
      simp [hplan']
  · intro hnum
    rw [hstep]
    by_cases hcod : truthy (MatchNamesScript.mapGet excelMap (MatchNamesScript.cleaned rt n)) = true
    · rw [if_pos hcod]
      cases hr : MatchNamesScript.rowWithCode excelRows
          (MatchNamesScript.mapGet excelMap (MatchNamesScript.cleaned rt n)) with
      | none => exact Or.inr (Or.inl rfl)
      | some r =>
        have hmem : r ∈ excelRows := List.mem_of_find?_eq_some hr
        by_cases hplan : truthy (field r "Plan") = true
        · simp only [hplan, if_true]
          cases hp : field r "Plan" with
          | undefined => rw [hp] at hplan; simp [truthy] at hplan
          | null => rw [hp] at hplan; simp [truthy] at hplan
          | num k =>
            have := hnum r hmem k hp
            rw [hp, this] at hplan
            simp [truthy] at hplan
          | str p =>
            have hpne : p ≠ [] := by
              rw [hp] at hplan
              exact (truthy_str p).mp hplan
            rw [MatchNamesScript.cleanName_str rt p hpne]
            by_cases hid : truthy (MatchNamesScript.mapGet planesMap
                (replaceRuns isWhiteSpace [32] (trim (rt.toLowerCase p)))) = true
            · exact Or.inr (Or.inr ⟨_, hid, by simp [hid]⟩)
            · exact Or.inr (Or.inl (by simp [hid]))
        · exact Or.inr (Or.inl (by simp [hplan]))
    · exact Or.inl (by simp [hcod])

set_option maxRecDepth 100000 in
/-- An instance of `MatchNamesScript.contractStatement_outcomes`: the contract of the
example. -/
theorem MatchNamesScript.contractStatement_outcomes_witness :
    field scriptContract "nombre" = .str (js "Ana Gomez") ∧ js "Ana Gomez" ≠ [] ∧
    MatchNamesScript.cleanName latin1Builtins (field scriptContract "nombre")
      = .ok (MatchNamesScript.cleaned latin1Builtins (js "Ana Gomez")) ∧
    MatchNamesScript.contractStatement latin1Builtins scriptExcelMap [scriptRowNamedPlan]
        scriptPlanesMap scriptContract
      = .ok (some (js "UPDATE contracts c SET c.nro = 'X1', c.plan_id = 7 WHERE c.id = 1;")) :=
  ⟨rfl, by decide,
    (MatchNamesScript.contractStatement_outcomes latin1Builtins scriptExcelMap
      [scriptRowNamedPlan] scriptPlanesMap scriptContract (js "Ana Gomez") rfl (by decide)).1,
    by decide⟩

/-! ## The two normalisers compared -/

section TwoNormalizers

theorem rdropWhile_cons_eq {α : Type} (p : α → Bool) (h : α) (l : List α) :
    List.rdropWhile p (h :: l) =
      if (List.rdropWhile p l).isEmpty then (if p h then [] else [h])
      else h :: List.rdropWhile p l := by
  unfold List.rdropWhile
  rw [List.reverse_cons, List.dropWhile_append]
  cases hd : List.dropWhile p l.reverse with
  | nil =>
    simp only [List.isEmpty_nil, if_true, List.reverse_nil, List.dropWhile_cons,
      List.dropWhile_nil]
    split <;> simp
  | cons a t => simp

theorem rdropWhile_cons_congr {α : Type} (p : α → Bool) (h : α) (l l' : List α)
    (e : List.rdropWhile p l = List.rdropWhile p l') :
    List.rdropWhile p (h :: l) = List.rdropWhile p (h :: l') := by
  rw [rdropWhile_cons_eq, rdropWhile_cons_eq, e]

theorem rdropWhile_dropWhile_comm {α : Type} (p : α → Bool) (l : List α) :
    List.rdropWhile p (List.dropWhile p l) = List.dropWhile p (List.rdropWhile p l) := by
  induction l with
  | nil => simp [List.rdropWhile]
  | cons h l ih =>
    by_cases hp : p h = true
    · rw [List.dropWhile_cons_of_pos hp, ih, rdropWhile_cons_eq]
      cases he : List.rdropWhile p l with
      | nil => simp [hp]
      | cons a t => simp [hp]
    · rw [List.dropWhile_cons_of_neg hp, rdropWhile_cons_eq]
      cases he : List.rdropWhile p l with
      | nil => simp [hp]
      | cons a t => simp [hp]

theorem replaceRunsAux_true_skip (a y : JsString) (ha : ∀ c ∈ a, isWhiteSpace c = true) :
    replaceRunsAux isWhiteSpace [32] true (a ++ y) = replaceRunsAux isWhiteSpace [32] true y := by
  induction a with
  | nil => rfl
  | cons c a ih =>
    rw [List.cons_append, replaceRunsAux, if_pos (ha c (List.mem_cons_self _ _)), if_pos rfl]
    exact ih (fun d hd => ha d (List.mem_cons_of_mem c hd))

theorem dropWhile_replaceRunsAux_flag (y : JsString) :
    List.dropWhile isWhiteSpace (replaceRunsAux isWhiteSpace [32] false y)
      = List.dropWhile isWhiteSpace (replaceRunsAux isWhiteSpace [32] true y) := by
  cases y with
  | nil => rfl
  | cons c cs =>
    by_cases hc : isWhiteSpace c = true
    · simp only [replaceRunsAux, hc, if_true, Bool.false_eq_true, if_false,
        List.singleton_append]
      rw [List.dropWhile_cons_of_pos (by decide)]
    · simp [replaceRunsAux, hc]

theorem dropWhile_replaceRuns_left (a y : JsString) (ha : ∀ c ∈ a, isWhiteSpace c = true) :
    List.dropWhile isWhiteSpace (replaceRuns isWhiteSpace [32] (a ++ y))
      = List.dropWhile isWhiteSpace (replaceRuns isWhiteSpace [32] y) := by
  unfold replaceRuns
  rw [dropWhile_replaceRunsAux_flag, replaceRunsAux_true_skip a y ha,
    ← dropWhile_replaceRunsAux_flag]

theorem rdropWhile_replaceRunsAux_right (b : JsString) (hb : ∀ c ∈ b, isWhiteSpace c = true)
    (y : JsString) :
    ∀ inRun : Bool,
      List.rdropWhile isWhiteSpace (replaceRunsAux isWhiteSpace [32] inRun (y ++ b))
        = List.rdropWhile isWhiteSpace (replaceRunsAux isWhiteSpace [32] inRun y) := by
  induction y with
  | nil =>
    intro inRun
    have hall : ∀ c ∈ replaceRunsAux isWhiteSpace [32] inRun b, isWhiteSpace c = true := by
      intro c hc
      rcases mem_replaceRunsAux _ _ _ _ c hc with h | ⟨h, hws⟩
      · have : c = 32 := by simpa using h
        rw [this]; decide
      · rw [hb c h] at hws; cases hws
    simp only [List.nil_append, replaceRunsAux]
    rw [List.rdropWhile_nil]
    exact (List.rdropWhile_eq_nil_iff).mpr hall
  | cons c cs ih =>
    intro inRun
    rw [List.cons_append]
    by_cases hc : isWhiteSpace c = true
    · cases inRun with
      | true =>
        simp only [replaceRunsAux, hc, if_true]
        exact ih true
      | false =>
        simp only [replaceRunsAux, hc, if_true, Bool.false_eq_true, if_false,
          List.singleton_append]
        exact rdropWhile_cons_congr _ _ _ _ (ih true)
    · simp only [replaceRunsAux, hc, if_false]
      exact rdropWhile_cons_congr _ _ _ _ (ih false)

theorem trim_replaceRuns_outer (a b x : JsString) (ha : ∀ c ∈ a, isWhiteSpace c = true)
    (hb : ∀ c ∈ b, isWhiteSpace c = true) :
    trim (replaceRuns isWhiteSpace [32] (a ++ (x ++ b)))
      = trim (replaceRuns isWhiteSpace [32] x) := by
  rw [trim_eq_rdropWhile, trim_eq_rdropWhile, dropWhile_replaceRuns_left a _ ha,
    rdropWhile_dropWhile_comm, rdropWhile_dropWhile_comm]
  unfold replaceRuns
  rw [rdropWhile_replaceRunsAux_right b hb x false]

theorem filter_name_outer (a b m : JsString) (ha : ∀ c ∈ a, isWhiteSpace c = true)
    (hb : ∀ c ∈ b, isWhiteSpace c = true) :
    replaceClass (fun c => !isNameChar c) [] (a ++ (m ++ b))
      = a ++ (replaceClass (fun c => !isNameChar c) [] m ++ b) := by
  have hkeep : ∀ w : JsString, (∀ c ∈ w, isWhiteSpace c = true) →
      replaceClass (fun c => !isNameChar c) [] w = w := by
    intro w hw
    rw [replaceClass_empty, List.filter_eq_self]
    intro c hc
    simp [isNameChar, hw c hc]
  rw [replaceClass_append, replaceClass_append, hkeep a ha, hkeep b hb]

theorem trim_split (v : JsString) :
    ∃ a b, (∀ c ∈ a, isWhiteSpace c = true) ∧ (∀ c ∈ b, isWhiteSpace c = true) ∧
      v = a ++ (trim v ++ b) := by
  refine ⟨List.takeWhile isWhiteSpace v,
    List.rtakeWhile isWhiteSpace (List.dropWhile isWhiteSpace v),
    fun c hc => List.mem_takeWhile_imp hc, fun c hc => List.mem_rtakeWhile_imp hc, ?_⟩
  have h1 : trim v ++ List.rtakeWhile isWhiteSpace (List.dropWhile isWhiteSpace v)
      = List.dropWhile isWhiteSpace v := by
    rw [trim_eq_rdropWhile]
    simp only [List.rdropWhile, List.rtakeWhile]
    rw [← List.reverse_append, List.takeWhile_append_dropWhile, List.reverse_reverse]
  rw [h1, List.takeWhile_append_dropWhile]

/-- The normal form of `nameUtils.js` is a function of the trimmed string: the outer
white space that `trim` removes does not change it. -/
theorem nameForm_of_trim (v : JsString) :
    trim (replaceRuns isWhiteSpace [32] (replaceClass (fun c => !isNameChar c) [] v))
      = trim (replaceRuns isWhiteSpace [32]
          (replaceClass (fun c => !isNameChar c) [] (trim v))) := by
  obtain ⟨a, b, ha, hb, hv⟩ := trim_split v
  conv_lhs => rw [hv]
  rw [filter_name_outer a b _ ha hb, trim_replaceRuns_outer a b _ ha hb]

theorem normalizeName_of_classKey_eq (rt : Builtins) (h : Latin1Faithful rt) (s t : JsString)
    (hst : MatchNames.normalizeName rt (.str s) = MatchNames.normalizeName rt (.str t)) :
    normalizeName rt (.str s) = normalizeName rt (.str t) := by
  have hform : ∀ u : JsString, cleanName (rt.normalizeNFD (rt.toLowerCase u))
      = trim (replaceRuns isWhiteSpace [32] (replaceClass (fun c => !isNameChar c) []
          (MatchNames.normalizeName rt (.str u)))) := by
    intro u
    unfold cleanName MatchNames.normalizeName
    exact nameForm_of_trim _
  have hnil : cleanName (rt.normalizeNFD (rt.toLowerCase [])) = [] := by
    have hL0 : rt.toLowerCase [] = [] := h.1 [] (by simp)
    have hN0 : rt.normalizeNFD [] = [] := h.2 [] (by simp)
    rw [hL0, hN0]
    decide
  have heq : cleanName (rt.normalizeNFD (rt.toLowerCase s))
      = cleanName (rt.normalizeNFD (rt.toLowerCase t)) := by
    rw [hform s, hform t, hst]
  rw [normalizeName_str, normalizeName_str]
  by_cases hs : s = [] <;> by_cases ht : t = []
  · rw [if_pos hs, if_pos ht]
  · rw [if_pos hs, if_neg ht, ← heq, hs, hnil]
  · rw [if_neg hs, if_pos ht, heq, ht, hnil]
  · rw [if_neg hs, if_neg ht, heq]

theorem MatchNames.findMatches_single (rt : Builtins) (c e p : Record) :
    MatchNames.findMatches rt [c] [e] [p] ≠ [] ↔
      nombreKey rt e = nombreKey rt c ∧ nombreKey rt p = nombreKey rt c := by
  rw [MatchNames.findMatches_eq_filterMap]
  constructor
  · intro hne
    cases hm : MatchNames.tripleOf rt [e] [p] c with
    | none => simp [hm] at hne
    | some m =>
      obtain ⟨_, ⟨i, hi, he, _⟩, ⟨j, hj, hp, _⟩⟩ :=
        (MatchNames.tripleOf_eq_some_iff rt [e] [p] c m).mp hm
      have hme : m.excel = e := by simpa using List.getElem?_mem hi
      have hmp : m.plan = p := by simpa using List.getElem?_mem hj
      rw [hme] at he
      rw [hmp] at hp
      exact ⟨he, hp⟩
  · rintro ⟨h1, h2⟩
    have hm : MatchNames.tripleOf rt [e] [p] c = some { contract := c, excel := e, plan := p } :=
      (MatchNames.tripleOf_eq_some_iff rt [e] [p] c _).mpr
        ⟨rfl, ⟨0, rfl, h1, fun j hj => absurd hj (Nat.not_lt_zero j)⟩,
          ⟨0, rfl, h2, fun j hj => absurd hj (Nat.not_lt_zero j)⟩⟩
    simp [hm]

end TwoNormalizers

/-- C18, as stated, fails: `Ana  Gomez` and `Ana Gomez.` have the same key under
`normalizeName` of `nameUtils.js`, but different keys under `MatchNames.normalizeName`,
which keeps punctuation and inner white space, and `findMatches` does not match
them. -/
theorem findMatches_punctuation_not_matched :
    normalizeName latin1Builtins (.str (js "Ana  Gomez")) = .ok (js "ana gomez") ∧
    normalizeName latin1Builtins (.str (js "Ana Gomez.")) = .ok (js "ana gomez") ∧
    MatchNames.normalizeName latin1Builtins (.str (js "Ana  Gomez")) = js "ana  gomez" ∧
    MatchNames.normalizeName latin1Builtins (.str (js "Ana Gomez.")) = js "ana gomez." ∧
    MatchNames.findMatches latin1Builtins [spacedContract] [dottedExcel] [dottedPlan] = [] := by
  decide

/-- C18, amended: the exact-policy matcher compares names by `MatchNames.normalizeName`.
A contract is matched with a spreadsheet record and a plan record exactly when
`MatchNames.normalizeName` gives the same key for their `nombre` values; and two
strings with the same key under `MatchNames.normalizeName` have the same key under
`normalizeName` of `nameUtils.js`. -/
theorem findMatches_compares_class_key (rt : Builtins) (h : Latin1Faithful rt) :
    (∀ c e p : Record, MatchNames.findMatches rt [c] [e] [p] ≠ [] ↔
      MatchNames.normalizeName rt (field e "nombre")
          = MatchNames.normalizeName rt (field c "nombre") ∧
        MatchNames.normalizeName rt (field p "nombre")
          = MatchNames.normalizeName rt (field c "nombre")) ∧
    (∀ s t : JsString,
      MatchNames.normalizeName rt (.str s) = MatchNames.normalizeName rt (.str t) →
      normalizeName rt (.str s) = normalizeName rt (.str t)) :=
  ⟨fun c e p => MatchNames.findMatches_single rt c e p,
    fun s t hst => normalizeName_of_classKey_eq rt h s t hst⟩

/-- Witness of `findMatches_compares_class_key`. -/
theorem findMatches_compares_class_key_witness :
    Latin1Faithful latin1Builtins ∧
    (MatchNames.findMatches latin1Builtins exampleContracts exampleExcel examplePlans ≠ [] ↔
      MatchNames.normalizeName latin1Builtins (.str (js "ana gomez"))
          = MatchNames.normalizeName latin1Builtins (.str (js "Ana Gomez")) ∧
        MatchNames.normalizeName latin1Builtins (.str (js "ANA GOMEZ"))
          = MatchNames.normalizeName latin1Builtins (.str (js "Ana Gomez"))) :=
  ⟨latin1Builtins_faithful,
    (findMatches_compares_class_key latin1Builtins latin1Builtins_faithful).1
      [("id", .num 1), ("nombre", .str (js "Ana Gomez"))]
      [("nombre", .str (js "ana gomez")), ("Cod", .str (js "X1"))]
      [("nombre", .str (js "ANA GOMEZ")), ("id", .num 7)]⟩

/-! ## Symmetry of the similarity score -/

section Symmetry

theorem editRec_symm {α : Type} [DecidableEq α] (s t : List α) : editRec s t = editRec t s := by
  induction s generalizing t with
  | nil => rw [editRec_nil_left, editRec_nil_right]
  | cons a s ih =>
    induction t with
    | nil => rw [editRec_nil_left, editRec_nil_right]
    | cons b t iht =>
      rw [editRec_cons_cons, editRec_cons_cons, ih (b :: t), ih t, iht]
      have hc : (if a = b then 0 else 1) = (if b = a then 0 else 1 : Nat) := by
        by_cases h : a = b
        · simp [h]
        · simp [h, Ne.symm h]
      rw [hc]
      omega

theorem levenshteinDistance_symm (s t : JsString) :
    levenshteinDistance s t = levenshteinDistance t s := by
  rw [levenshteinDistance_eq_editRec, levenshteinDistance_eq_editRec, editRec_symm]

theorem similarityOfNormalized_symm (na nb : JsString) :
    similarityOfNormalized na nb = similarityOfNormalized nb na := by
  unfold similarityOfNormalized
  rw [levenshteinDistance_symm na nb, max_comm na.length nb.length]
  by_cases h1 : na = [] ∨ nb = []
  · rw [if_pos h1, if_pos (Or.symm h1)]
  · rw [if_neg h1, if_neg (fun h => h1 (Or.symm h))]
    by_cases h2 : na = nb
    · rw [if_pos h2, if_pos h2.symm]
    · rw [if_neg h2, if_neg (fun h => h2 h.symm)]

end Symmetry

/-- C28: the similarity score does not depend on the order of its two arguments: for
all strings `a` and `b`, `calculateNameSimilarity(a, b)` and
`calculateNameSimilarity(b, a)` are the same number, and `levenshteinDistance(s, t)`
equals `levenshteinDistance(t, s)` for all strings `s` and `t`. -/
theorem calculateNameSimilarity_symmetric (rt : Builtins) :
    (∀ s t : JsString, levenshteinDistance s t = levenshteinDistance t s) ∧
    ∀ a b : JsString,
      (∃ sc, calculateNameSimilarity rt (.str a) (.str b) = .ok sc) ∧
      calculateNameSimilarity rt (.str a) (.str b)
        = calculateNameSimilarity rt (.str b) (.str a) := by
  refine ⟨levenshteinDistance_symm, fun a b => ⟨calculateNameSimilarity_str rt a b, ?_⟩⟩
  rw [calculateNameSimilarity_of_ok rt _ _ _ _ (normalizeName_str rt a) (normalizeName_str rt b),
    calculateNameSimilarity_of_ok rt _ _ _ _ (normalizeName_str rt b) (normalizeName_str rt a),
    similarityOfNormalized_symm]

/-! ## The maps of the code/plan script -/

section ScriptMaps

theorem lookup_cons_key (k' a : JsString) (b : JsValue) (rest : List (JsString × JsValue)) :
    List.lookup k' ((a, b) :: rest) = if k' = a then some b else List.lookup k' rest := by
  by_cases h : k' = a
  · simp [List.lookup, h]
  · have hb : (k' == a) = false := by simpa using h
    simp [List.lookup, hb, h]

open MatchNamesScript in
theorem MatchNamesScript.mapGet_mapSet (m : JsMap) (k k' : JsString) (v : JsValue) :
    mapGet (mapSet m k v) k' = if k' = k then v else mapGet m k' := by
  induction m with
  | nil =>
    unfold mapGet
    rw [mapSet, lookup_cons_key]
    by_cases h : k' = k <;> simp [h]
  | cons e rest ih =>
    obtain ⟨a, b⟩ := e
    unfold mapGet at ih ⊢
    by_cases hak : a = k
    · rw [mapSet, if_pos hak, lookup_cons_key, lookup_cons_key, hak]
      by_cases h : k' = k <;> simp [h]
    · rw [mapSet, if_neg hak, lookup_cons_key, lookup_cons_key]
      by_cases h : k' = a
      · have : ¬ k' = k := fun h2 => hak (h.symm.trans h2)
        simp [h, hak]
      · rw [if_neg h, if_neg h]
        exact ih

theorem lastWith_cons {α : Type} (p : α → Bool) (a : α) (l : List α) :
    lastWith p (a :: l) = (lastWith p l).or (if p a then some a else none) := by
  unfold lastWith
  rw [List.reverse_cons, List.find?_append]
  congr 1
  by_cases h : p a <;> simp [h]

open MatchNamesScript in
theorem MatchNamesScript.readExcelMapLoop_spec (rt : Builtins) (rows : List Record) :
    ∀ map : JsMap, ∃ m, readExcelMapLoop rt "Nombre" "Apellido" "Cod" rows map = .ok m ∧
      ∀ key, mapGet m key =
        match lastWith (fun obj => excelKey rt obj == some key) rows with
        | some obj => field obj "Cod"
        | none => mapGet map key := by
  induction rows with
  | nil => intro map; exact ⟨map, rfl, fun key => rfl⟩
  | cons obj rest ih =>
    intro map
    by_cases ht : (truthy (field obj "Nombre") && truthy (field obj "Apellido")) = true
    · have hne : toStringJs (field obj "Nombre") ++ js " " ++ toStringJs (field obj "Apellido")
          ≠ [] := by
        intro h
        have := congrArg List.length h
        simp [js, utf16Char] at this
      obtain ⟨m, hm, hget⟩ := ih (mapSet map
        (cleaned rt (toStringJs (field obj "Nombre") ++ js " " ++ toStringJs (field obj "Apellido")))
        (field obj "Cod"))
      refine ⟨m, ?_, fun key => ?_⟩
      · rw [readExcelMapLoop, if_pos ht, cleanName_str rt _ hne]
        exact hm
      · rw [hget key, lastWith_cons, mapGet_mapSet]
        cases hl : lastWith (fun obj => excelKey rt obj == some key) rest with
        | some o => rfl
        | none =>
          simp only [Option.or, excelKey, if_pos ht]
          generalize cleaned rt
            (toStringJs (field obj "Nombre") ++ js " " ++ toStringJs (field obj "Apellido")) = K
          by_cases hk : key = K
          · simp [hk]
          · have : ¬ K = key := fun h => hk h.symm
            simp [hk, this]
    · obtain ⟨m, hm, hget⟩ := ih map
      refine ⟨m, ?_, fun key => ?_⟩
      · rw [readExcelMapLoop, if_neg ht]
        exact hm
      · rw [hget key, lastWith_cons]
        cases hl : lastWith (fun obj => excelKey rt obj == some key) rest with
        | some o => rfl
        | none => simp [Option.or, excelKey, ht]

open MatchNamesScript in
theorem MatchNamesScript.readExcelPlanMapLoop_spec (rt : Builtins) (rows : List Record)
    (hrows : ∀ obj ∈ rows, field obj "name" = .undefined ∨ ∃ s, field obj "name" = .str s) :
    ∀ map : JsMap, ∃ m, readExcelPlanMapLoop rt "name" "id" rows map = .ok m ∧
      ∀ key, mapGet m key =
        match lastWith (fun obj => planKey rt obj == some key) rows with
        | some obj => field obj "id"
        | none => mapGet map key := by
  induction rows with
  | nil => intro map; exact ⟨map, rfl, fun key => rfl⟩
  | cons obj rest ih =>
    intro map
    have hrest := ih (fun o ho => hrows o (List.mem_cons_of_mem _ ho))
    rcases hrows obj (List.mem_cons_self _ _) with hu | ⟨s, hs⟩
    · obtain ⟨m, hm, hget⟩ := hrest map
      refine ⟨m, ?_, fun key => ?_⟩
      · rw [readExcelPlanMapLoop, hu]
        exact hm
      · rw [hget key, lastWith_cons]
        cases hl : lastWith (fun obj => planKey rt obj == some key) rest with
        | some o => rfl
        | none => simp [Option.or, planKey, hu]
    · by_cases hne : s = []
      · obtain ⟨m, hm, hget⟩ := hrest map
        refine ⟨m, ?_, fun key => ?_⟩
        · rw [readExcelPlanMapLoop, hs, hne]
          exact hm
        · rw [hget key, lastWith_cons]
          cases hl : lastWith (fun obj => planKey rt obj == some key) rest with
          | some o => rfl
          | none => simp [Option.or, planKey, hs, hne]
      · obtain ⟨m, hm, hget⟩ := hrest (mapSet map (cleaned rt s) (field obj "id"))
        refine ⟨m, ?_, fun key => ?_⟩
        · rw [readExcelPlanMapLoop, hs, if_pos ((truthy_str s).mpr hne), cleanName_str rt s hne]
          exact hm
        · rw [hget key, lastWith_cons, mapGet_mapSet]
          cases hl : lastWith (fun obj => planKey rt obj == some key) rest with
          | some o => rfl
          | none =>
            simp only [Option.or, planKey, hs, if_neg hne]
            generalize cleaned rt s = K
            by_cases hk : key = K
            · simp [hk]
            · have : ¬ K = key := fun h => hk h.symm
              simp [hk, this]

end ScriptMaps

/-- C21 (the code as written): a code that contains a single quote, `A'1`, is put
between the quotes of `nro = '...'` as it is, so the statement reads `c.nro = 'A'1'`;
the escaping of the exact-policy matcher would have given `A''1`. -/
theorem MatchNamesScript.contractStatement_quote_in_code :
    MatchNamesScript.contractStatement latin1Builtins quotedCodeMap [] [] scriptContract
      = .ok (some (js "UPDATE contracts c SET c.nro = 'A'1' WHERE c.id = 1;")) ∧
    MatchNames.escapeSql (.str (js "A'1")) = js "A''1" := by
  set_option maxRecDepth 100000 in decide

/-- C22 (counterexample): of two spreadsheet rows whose names clean to `ana gomez`, the
first with code `X1` and the second with code `X2`, the map built by `readExcelMap`
holds `X2`, and the statement for the contract of that name sets `nro = 'X2'`; of two
plan lines that clean to `fibra 100`, the map of `readExcelPlanMap` holds the id of the
second. -/
theorem MatchNamesScript.readExcelMap_second_row_wins :
    MatchNamesScript.readExcelMap latin1Builtins "Nombre" "Apellido" "Cod" collidingExcelRows
      = .ok [(js "ana gomez", .str (js "X2"))] ∧
    MatchNamesScript.contractStatement latin1Builtins [(js "ana gomez", .str (js "X2"))]
        collidingExcelRows [] scriptContract
      = .ok (some (js "UPDATE contracts c SET c.nro = 'X2' WHERE c.id = 1;")) ∧
    MatchNamesScript.readExcelPlanMap latin1Builtins "name" "id" collidingPlanRows
      = .ok [(js "fibra 100", .str (js "8"))] := by
  set_option maxRecDepth 100000 in decide

/-- C22 (amended): the last row wins on a name collision in the code/plan policy.  The
map of `readExcelMap` gives, for every key, the `Cod` cell of the last spreadsheet row
(in row order) whose two name cells are truthy and whose cleaned full name is the key,
and `undefined` when there is no such row; the map of `readExcelPlanMap` gives, for
plan lines whose name cell is text or missing, the `id` cell of the last line whose
non-empty name cleans to the key. -/
theorem MatchNamesScript.readExcelMap_last_row_wins (rt : Builtins) :
    (∀ rows : List Record, ∃ m,
      MatchNamesScript.readExcelMap rt "Nombre" "Apellido" "Cod" rows = .ok m ∧
      ∀ key, MatchNamesScript.mapGet m key =
        match lastWith (fun obj => MatchNamesScript.excelKey rt obj == some key) rows with
        | some obj => field obj "Cod"
        | none => .undefined) ∧
    (∀ rows : List Record,
      (∀ obj ∈ rows, field obj "name" = .undefined ∨ ∃ s, field obj "name" = .str s) →
      ∃ m, MatchNamesScript.readExcelPlanMap rt "name" "id" rows = .ok m ∧
      ∀ key, MatchNamesScript.mapGet m key =
        match lastWith (fun obj => MatchNamesScript.planKey rt obj == some key) rows with
        | some obj => field obj "id"
        | none => .undefined) :=
  ⟨fun rows => MatchNamesScript.readExcelMapLoop_spec rt rows [],
   fun rows hrows => MatchNamesScript.readExcelPlanMapLoop_spec rt rows hrows []⟩

/-! ## Filters in the SQL converter -/

/-- C24 (the code as written): `processExcel` of `src/sql/excelToSql.js` never consults
the filters.  With the filter `Estado equals activo`, the row `[1, inactivo]` does not
pass `rowPassesFilter`, and still its `INSERT` statement is the first of the two that
are produced; for every configuration, the statements are those produced with any other
value of `filters`. -/
theorem processExcel_ignores_filters (cv : Sql.ExcelToSql.Conversions) :
    Sql.ExcelToSql.rowPassesFilter latin1Builtins cv filteredSqlConfig
        [.str (js "id"), .str (js "Estado")] [.num 1, .str (js "inactivo")] = .ok false ∧
    Sql.ExcelToSql.processExcel latin1Builtins cv filteredSqlConfig filteredSqlSheet
      = some [js "INSERT INTO clientes (id, estado) VALUES ('1', 'inactivo');",
              js "INSERT INTO clientes (id, estado) VALUES ('2', 'activo');"] ∧
    ∀ (rt : Builtins) (config : Sql.ExcelToSql.Config)
      (filters : Option (List Sql.ExcelToSql.Filter)) (data : List Row),
      Sql.ExcelToSql.processExcel rt cv { config with filters := filters } data
        = Sql.ExcelToSql.processExcel rt cv config data := by
  refine ⟨?_, ?_, fun rt config filters data => rfl⟩
  · rfl
  · rfl

/-! ## The validators -/

section Validators

theorem validationResult_of_if (c : Bool) :
    (if c then (.error .validationError : Except JsError Unit) else .ok ()) = .ok () ∨
    (if c then (.error .validationError : Except JsError Unit) else .ok ())
      = .error .validationError := by
  cases c <;> simp

theorem validateString_result (value : JsAny) (options : Options) :
    ValidationUtils.validateString value options = .ok () ∨
    ValidationUtils.validateString value options = .error .validationError := by
  unfold ValidationUtils.validateString
  repeat' split
  all_goals simp

theorem validateArray_result (value : JsAny) (options : Options) :
    ValidationUtils.validateArray value options = .ok () ∨
    ValidationUtils.validateArray value options = .error .validationError := by
  unfold ValidationUtils.validateArray
  repeat' split
  all_goals simp

theorem validateBoolean_result (value : JsAny) (options : Options) :
    ValidationUtils.validateBoolean value options = .ok () ∨
    ValidationUtils.validateBoolean value options = .error .validationError := by
  unfold ValidationUtils.validateBoolean
  repeat' split
  all_goals simp

theorem validateDate_result (cv : ValueConversions) (value : JsAny) (options : Options) :
    ValidationUtils.validateDate cv value options = .ok () ∨
    ValidationUtils.validateDate cv value options = .error .validationError := by
  unfold ValidationUtils.validateDate
  repeat' split
  all_goals simp

theorem validateValue_mk (cv : ValueConversions) (type : JsAny) (required : Bool)
    (minLength maxLength : Option Int) (pattern : Option (JsString → Bool))
    (itemType : Option JsString) (min max : Option JsAny)
    (properties : Properties) (value : JsAny) :
    ValidationUtils.validateValue cv
        (.mk type required minLength maxLength pattern itemType min max properties) value
      = if isText type (js "string") then
          ValidationUtils.validateString value
            (.mk type required minLength maxLength pattern itemType min max properties)
        else if isText type (js "number") then .error .referenceError
        else if isText type (js "array") then
          ValidationUtils.validateArray value
            (.mk type required minLength maxLength pattern itemType min max properties)
        else if isText type (js "object") then
          if isNullish value then
            if required then .error .validationError else .ok ()
          else
            match value with
            | .object fields => ValidationUtils.validateProperties cv properties fields
            | _ => .error .validationError
        else if isText type (js "boolean") then
          ValidationUtils.validateBoolean value
            (.mk type required minLength maxLength pattern itemType min max properties)
        else if isText type (js "date") then
          ValidationUtils.validateDate cv value
            (.mk type required minLength maxLength pattern itemType min max properties)
        else .error .validationError := by
  unfold ValidationUtils.validateValue
  rfl

mutual

theorem validateValue_numberFree (cv : ValueConversions) :
    ∀ (options : Options) (value : JsAny), numberFree options = true →
      ValidationUtils.validateValue cv options value = .ok () ∨
      ValidationUtils.validateValue cv options value = .error .validationError
  | .mk type required minLength maxLength pattern itemType min max properties, value, h => by
    rw [numberFree, Bool.and_eq_true] at h
    obtain ⟨hn, hp⟩ := h
    have hn' : isText type (js "number") = false := by simpa using hn
    rw [validateValue_mk]
    by_cases h1 : isText type (js "string") = true
    · rw [if_pos h1]; exact validateString_result _ _
    rw [if_neg h1, if_neg (by rw [hn']; simp)]
    by_cases h3 : isText type (js "array") = true
    · rw [if_pos h3]; exact validateArray_result _ _
    rw [if_neg h3]
    by_cases h4 : isText type (js "object") = true
    · rw [if_pos h4]
      by_cases h5 : isNullish value = true
      · rw [if_pos h5]; cases required <;> simp
      · rw [if_neg h5]
        cases value with
        | object fields => exact validateProperties_numberFree cv properties fields hp
        | _ => simp
    rw [if_neg h4]
    by_cases h6 : isText type (js "boolean") = true
    · rw [if_pos h6]; exact validateBoolean_result _ _
    rw [if_neg h6]
    by_cases h7 : isText type (js "date") = true
    · rw [if_pos h7]; exact validateDate_result cv _ _
    rw [if_neg h7]
    simp

theorem validateProperties_numberFree (cv : ValueConversions) :
    ∀ (entries : Properties) (fields : List (String × JsAny)),
      numberFreeEntries entries = true →
      ValidationUtils.validateProperties cv entries fields = .ok () ∨
      ValidationUtils.validateProperties cv entries fields = .error .validationError
  | .nil, _, _ => by simp [ValidationUtils.validateProperties]
  | .cons propName propOptions rest, fields, h => by
    rw [numberFreeEntries, Bool.and_eq_true] at h
    rw [ValidationUtils.validateProperties]
    rcases validateValue_numberFree cv propOptions (ValidationUtils.property fields propName) h.1
      with h1 | h1
    · rw [h1]; exact validateProperties_numberFree cv rest fields h.2
    · rw [h1]; simp

end

end Validators

/-- C25 (the code as written): `validateValue` with the type `'number'` raises a
`ReferenceError`, whatever the value: for the value 5 and the bounds 0 and 10, which
`validateNumber` of `errorUtils.js` accepts, and likewise through `validateObject` for
an object whose declared property `n` has the type `'number'`.  When the type
`'number'` occurs nowhere in the options, `validateValue` returns or raises a
`ValidationError`. -/
theorem validateValue_number_referenceError (cv : ValueConversions) :
    ValidationUtils.validateValue cv numberOptions (.num 5) = .error .referenceError ∧
    ((∀ n : Int, cv.toNumber (.num n) = some (n : ℚ)) →
      ErrorUtils.validateNumber cv (.num 5) numberOptions = .ok ()) ∧
    ValidationUtils.validateValue cv objectWithNumberOptions (.object [("n", .num 5)])
      = .error .referenceError ∧
    (∀ (options : Options) (value : JsAny), isText options.type (js "number") = true →
      ValidationUtils.validateValue cv options value = .error .referenceError) ∧
    (∀ (options : Options) (value : JsAny), numberFree options = true →
      ValidationUtils.validateValue cv options value = .ok () ∨
      ValidationUtils.validateValue cv options value = .error .validationError) := by
  refine ⟨rfl, ?_, rfl, ?_, validateValue_numberFree cv⟩
  · intro hcv
    simp [ErrorUtils.validateNumber, ErrorUtils.validateRequired, numberOptions, Options.min,
      Options.max, numberBelow, numberAbove, hcv]
    norm_num
  · intro options value h
    obtain ⟨type, required, minLength, maxLength, pattern, itemType, min, max, properties⟩ :=
      options
    simp only [Options.type] at h
    rw [validateValue_mk, h]
    have hs : isText type (js "string") = false := by
      cases type with
      | str s =>
        simp only [isText, decide_eq_true_eq] at h
        subst h
        decide
      | _ => rfl
    rw [hs]
    simp

/-! ## `splitName` -/

section SplitName

theorem splitRunsAux_ne_nil (p : Nat → Bool) (f : Bool) (s : JsString) :
    splitRunsAux p f s ≠ [] := by
  induction s generalizing f with
  | nil => simp [splitRunsAux]
  | cons c cs ih =>
    rw [splitRunsAux]
    by_cases hc : p c = true
    · rw [if_pos hc]
      cases f
      · simp
      · simpa using ih true
    · rw [if_neg hc]
      simpa using ih false

theorem splitRunsAux_splitOnP (p : Nat → Bool) (s : JsString) :
    (∃ a l1 l2, splitRunsAux p false s = a :: l1 ∧ s.splitOnP p = a :: l2 ∧
      l1.filter (fun w => !w.isEmpty) = l2.filter (fun w => !w.isEmpty)) ∧
    (splitRunsAux p true s).filter (fun w => !w.isEmpty)
      = (s.splitOnP p).filter (fun w => !w.isEmpty) := by
  induction s with
  | nil => exact ⟨⟨[], [], [], rfl, rfl, rfl⟩, rfl⟩
  | cons c cs ih =>
    obtain ⟨⟨a, l1, l2, h1, h2, h3⟩, h4⟩ := ih
    by_cases hc : p c = true
    · refine ⟨⟨[], splitRunsAux p true cs, cs.splitOnP p, ?_, ?_, h4⟩, ?_⟩
      · simp [splitRunsAux, hc]
      · simp [List.splitOnP_cons, hc]
      · rw [List.splitOnP_cons, if_pos hc, splitRunsAux, if_pos hc, if_pos rfl, h4]
        simp
    · refine ⟨⟨c :: a, l1, l2, ?_, ?_, h3⟩, ?_⟩
      · rw [splitRunsAux, if_neg hc, h1]; rfl
      · rw [List.splitOnP_cons, if_neg hc, h2]; rfl
      · rw [List.splitOnP_cons, if_neg hc, splitRunsAux, if_neg hc, h1, h2]
        simp [h3]

theorem splitRuns_filter (p : Nat → Bool) (s : JsString) :
    (splitRuns p s).filter (fun w => !w.isEmpty) = (s.splitOnP p).filter (fun w => !w.isEmpty) := by
  obtain ⟨⟨a, l1, l2, h1, h2, h3⟩, -⟩ := splitRunsAux_splitOnP p s
  rw [splitRuns, h1, h2, List.filter_cons, List.filter_cons, h3]

theorem splitRunsAux_pieces (p : Nat → Bool) (x : JsString) :
    x ≠ [] → (∀ c, x.getLast? = some c → p c = false) →
      (∀ w ∈ splitRunsAux p true x, w ≠ []) ∧
      (∀ w ∈ (splitRunsAux p false x).tail, w ≠ []) ∧
      ((∀ c, x.head? = some c → p c = false) → ∀ w ∈ splitRunsAux p false x, w ≠ []) := by
  induction x with
  | nil => intro h; exact absurd rfl h
  | cons c cs ih =>
    intro _ hlast
    cases cs with
    | nil =>
      have hc : p c = false := hlast c rfl
      simp [splitRunsAux, hc]
    | cons d ds =>
      have hlast' : ∀ e, (d :: ds).getLast? = some e → p e = false := by
        intro e he
        apply hlast e
        rw [List.getLast?_cons_cons]
        exact he
      obtain ⟨i1, i2, -⟩ := ih (by simp) hlast'
      by_cases hc : p c = true
      · refine ⟨?_, ?_, ?_⟩
        · rw [splitRunsAux, if_pos hc, if_pos rfl]; exact i1
        · rw [splitRunsAux, if_pos hc]; simpa using i1
        · intro hh
          have := hh c rfl
          rw [hc] at this
          cases this
      · have hne := splitRunsAux_ne_nil p false (d :: ds)
        obtain ⟨a, l, hal⟩ : ∃ a l, splitRunsAux p false (d :: ds) = a :: l := by
          cases h : splitRunsAux p false (d :: ds) with
          | nil => exact absurd h hne
          | cons a l => exact ⟨a, l, rfl⟩
        rw [hal] at i2
        have key : ∀ f, ∀ w ∈ splitRunsAux p f (c :: d :: ds), w ≠ [] := by
          intro f w hw
          rw [splitRunsAux, if_neg hc, hal] at hw
          simp only [List.modifyHead_cons, List.mem_cons] at hw
          rcases hw with hw | hw
          · rw [hw]; simp
          · exact i2 w (by simpa using hw)
        exact ⟨key true, fun w hw => key false w (List.mem_of_mem_tail hw), fun _ => key false⟩

theorem wordsOf_cons_space (c : Nat) (s : JsString) (hc : isWhiteSpace c = true) :
    wordsOf (c :: s) = wordsOf s := by
  simp [wordsOf, List.splitOnP_cons, hc]

theorem wordsOf_append_left (a s : JsString) (ha : ∀ c ∈ a, isWhiteSpace c = true) :
    wordsOf (a ++ s) = wordsOf s := by
  induction a with
  | nil => rfl
  | cons c cs ih =>
    rw [List.cons_append, wordsOf_cons_space c _ (ha c (List.mem_cons_self _ _))]
    exact ih fun x hx => ha x (List.mem_cons_of_mem _ hx)

theorem splitOnP_snoc_space (s : JsString) (c : Nat) (hc : isWhiteSpace c = true) :
    (s ++ [c]).splitOnP isWhiteSpace = s.splitOnP isWhiteSpace ++ [[]] := by
  induction s with
  | nil => simp [List.splitOnP_cons, hc]
  | cons x xs ih =>
    rw [List.cons_append, List.splitOnP_cons, List.splitOnP_cons, ih]
    by_cases hx : isWhiteSpace x = true
    · simp [hx]
    · rw [if_neg hx, if_neg hx]
      cases h : xs.splitOnP isWhiteSpace with
      | nil => exact absurd h (List.splitOnP_ne_nil _ _)
      | cons a l => rfl

theorem wordsOf_append_right (s b : JsString) (hb : ∀ c ∈ b, isWhiteSpace c = true) :
    wordsOf (s ++ b) = wordsOf s := by
  induction b generalizing s with
  | nil => simp
  | cons c cs ih =>
    have h1 : s ++ c :: cs = (s ++ [c]) ++ cs := by simp
    rw [h1, ih (s ++ [c]) fun x hx => hb x (List.mem_cons_of_mem _ hx)]
    unfold wordsOf
    rw [splitOnP_snoc_space s c (hb c (List.mem_cons_self _ _))]
    simp

theorem wordsOf_trim (s : JsString) : wordsOf (trim s) = wordsOf s := by
  obtain ⟨a, b, ha, hb, h⟩ := trim_split s
  conv_rhs => rw [h]
  rw [wordsOf_append_left a _ ha, wordsOf_append_right _ b hb]

theorem splitRuns_trim (s : JsString) :
    splitRuns isWhiteSpace (trim s) = if (wordsOf s).isEmpty then [[]] else wordsOf s := by
  by_cases ht : trim s = []
  · have hw : wordsOf s = [] := by rw [← wordsOf_trim, ht]; rfl
    rw [ht, hw]
    rfl
  · have hpieces := (splitRunsAux_pieces isWhiteSpace (trim s) ht
      (fun c hc => trim_getLast s c hc)).2.2 (fun c hc => trim_head s c hc)
    have hfilter : (splitRuns isWhiteSpace (trim s)).filter (fun w => !w.isEmpty)
        = splitRuns isWhiteSpace (trim s) := by
      apply List.filter_eq_self.2
      intro w hw
      have := hpieces w hw
      cases w with
      | nil => exact absurd rfl this
      | cons _ _ => rfl
    have hwords : splitRuns isWhiteSpace (trim s) = wordsOf s := by
      rw [← hfilter, splitRuns_filter, ← wordsOf_trim]
      rfl
    have hne : wordsOf s ≠ [] := by
      rw [← hwords]
      exact splitRunsAux_ne_nil _ _ _
    rw [hwords]
    cases h : wordsOf s with
    | nil => exact absurd h hne
    | cons _ _ => rfl

theorem wordsOf_ne_nil (s : JsString) : ∀ w ∈ wordsOf s, w ≠ [] := by
  intro w hw
  have := (List.mem_filter.1 hw).2
  cases w with
  | nil => simp at this
  | cons _ _ => simp

theorem intercalate_cons_cons (sep a : JsString) (b : JsString) (l : List JsString) :
    sep.intercalate (a :: b :: l) = a ++ sep ++ sep.intercalate (b :: l) := by
  simp [List.intercalate, List.intersperse]

theorem intercalate_front (sep : JsString) (front : List JsString) (w1 w2 : JsString)
    (hf : front ≠ []) :
    sep.intercalate (front ++ [w1, w2]) = sep.intercalate [sep.intercalate front, w1, w2] := by
  induction front with
  | nil => exact absurd rfl hf
  | cons a rest ih =>
    cases rest with
    | nil => simp [List.intercalate, List.intersperse]
    | cons b l =>
      have := ih (by simp)
      rw [List.cons_append, List.cons_append, intercalate_cons_cons, ← List.cons_append, this]
      rw [intercalate_cons_cons sep a b l]
      simp [List.intercalate, List.intersperse]

theorem intercalate_ne_nil (sep : JsString) (l : List JsString) (hl : l ≠ [])
    (h : ∀ w ∈ l, w ≠ []) : sep.intercalate l ≠ [] := by
  cases l with
  | nil => exact absurd rfl hl
  | cons a rest =>
    have ha := h a (List.mem_cons_self _ _)
    cases rest with
    | nil => simpa [List.intercalate, List.intersperse] using ha
    | cons b l =>
      rw [intercalate_cons_cons]
      simp [ha]

theorem splitName_eq (s : JsString) (hs : s ≠ []) :
    splitName (.str s) = namePartsOf (if (wordsOf s).isEmpty then [[]] else wordsOf s) := by
  have ht : truthy (.str s) = true := (truthy_str s).2 hs
  unfold splitName namePartsOf
  simp only [ht, Bool.not_true, Bool.false_eq_true, if_false, splitRuns_trim]

theorem wordsOf_nil : wordsOf [] = [] := rfl

theorem splitName_no_words (s : JsString) (h : wordsOf s = []) :
    splitName (.str s) = { nombres := [], apellido1 := [], apellido2 := [] } := by
  by_cases hs : s = []
  · subst hs; rfl
  · rw [splitName_eq s hs, h]; rfl

theorem splitName_words (s : JsString) (ws : List JsString) (h : wordsOf s = ws)
    (hne : ws ≠ []) : splitName (.str s) = namePartsOf ws := by
  have hs : s ≠ [] := by
    intro h0
    rw [h0, wordsOf_nil] at h
    exact hne h.symm
  rw [splitName_eq s hs, h]
  cases ws with
  | nil => exact absurd rfl hne
  | cons _ _ => rfl

theorem namePartsOf_front (front : List JsString) (w1 w2 : JsString) (hf : front ≠ []) :
    namePartsOf (front ++ [w1, w2])
      = { nombres := (js " ").intercalate front, apellido1 := w1, apellido2 := w2 } := by
  have hlen : (front ++ [w1, w2]).length = front.length + 2 := by simp
  have hpos : 0 < front.length := List.length_pos.2 hf
  unfold namePartsOf
  rw [hlen, if_neg (by omega), if_neg (by omega)]
  have e1 : front.length + 2 - 2 = front.length := by omega
  have e2 : front.length + 2 - 1 = front.length + 1 := by omega
  rw [e1, e2, List.take_left]
  have g1 : (front ++ [w1, w2])[front.length]? = some w1 := by
    rw [List.getElem?_append_right (le_refl _)]; simp
  have g2 : (front ++ [w1, w2])[front.length + 1]? = some w2 := by
    rw [List.getElem?_append_right (Nat.le_succ _)]; simp
  simp [List.getD_eq_getElem?_getD, g1, g2]

theorem exists_front (l : List JsString) (hl : 2 ≤ l.length) :
    ∃ front u1 u2, l = front ++ [u1, u2] := by
  rcases List.eq_nil_or_concat l with h | ⟨p, u2, h⟩
  · rw [h] at hl; simp at hl
  · rcases List.eq_nil_or_concat p with h' | ⟨q, u1, h'⟩
    · rw [h, h'] at hl; simp at hl
    · exact ⟨q, u1, u2, by rw [h, h']; simp⟩

end SplitName

/-- C29: `splitName` distributes the words of a full name in order.  For every string,
the non-empty values of `nombres`, `apellido1` and `apellido2`, joined with single spaces,
are the white-space-separated words of the string joined with single spaces; no word
gives three empty fields, one word is `nombres`, of two words the second is `apellido1`,
and of three or more the last two are `apellido1` and `apellido2` and the earlier ones,
joined with single spaces, are `nombres`.  A value that is not a string gives three
empty fields. -/
theorem splitName_distributes_words (s : JsString) :
    (js " ").intercalate
        ([(splitName (.str s)).nombres, (splitName (.str s)).apellido1,
          (splitName (.str s)).apellido2].filter fun w => !w.isEmpty)
      = (js " ").intercalate (wordsOf s) ∧
    (wordsOf s = [] →
      splitName (.str s) = { nombres := [], apellido1 := [], apellido2 := [] }) ∧
    (∀ w, wordsOf s = [w] →
      splitName (.str s) = { nombres := w, apellido1 := [], apellido2 := [] }) ∧
    (∀ w1 w2, wordsOf s = [w1, w2] →
      splitName (.str s) = { nombres := w1, apellido1 := w2, apellido2 := [] }) ∧
    (∀ front w1 w2, front ≠ [] → wordsOf s = front ++ [w1, w2] →
      splitName (.str s)
        = { nombres := (js " ").intercalate front, apellido1 := w1, apellido2 := w2 }) ∧
    splitName .undefined = { nombres := [], apellido1 := [], apellido2 := [] } ∧
    splitName .null = { nombres := [], apellido1 := [], apellido2 := [] } ∧
    ∀ n : Int, splitName (.num n) = { nombres := [], apellido1 := [], apellido2 := [] } := by
  have hone : ∀ w, wordsOf s = [w] →
      splitName (.str s) = { nombres := w, apellido1 := [], apellido2 := [] } :=
    fun w h => by rw [splitName_words s _ h (by simp)]; rfl
  have htwo : ∀ w1 w2, wordsOf s = [w1, w2] →
      splitName (.str s) = { nombres := w1, apellido1 := w2, apellido2 := [] } :=
    fun w1 w2 h => by rw [splitName_words s _ h (by simp)]; rfl
  have hfront : ∀ front w1 w2, front ≠ [] → wordsOf s = front ++ [w1, w2] →
      splitName (.str s)
        = { nombres := (js " ").intercalate front, apellido1 := w1, apellido2 := w2 } :=
    fun front w1 w2 hf h => by
      rw [splitName_words s _ h (by simp), namePartsOf_front front w1 w2 hf]
  refine ⟨?_, splitName_no_words s, hone, htwo, hfront, rfl, rfl, fun n => ?_⟩
  · have hne := wordsOf_ne_nil s
    have isEmpty_false : ∀ w : JsString, w ≠ [] → (!w.isEmpty) = true := by
      intro w hw
      cases w with
      | nil => exact absurd rfl hw
      | cons _ _ => rfl
    rcases Nat.lt_or_ge (wordsOf s).length 2 with hlt | hge
    · cases h : wordsOf s with
      | nil => rw [splitName_no_words s h]; rfl
      | cons w1 l1 =>
        cases l1 with
        | nil =>
          have hw1 : w1 ≠ [] := hne w1 (by rw [h]; simp)
          rw [hone w1 h]
          simp [List.filter, isEmpty_false w1 hw1]
        | cons w2 l2 => rw [h] at hlt; simp at hlt; omega
    · obtain ⟨front, u1, u2, hdec⟩ := exists_front (wordsOf s) hge
      have hu1 : u1 ≠ [] := hne u1 (by rw [hdec]; simp)
      have hu2 : u2 ≠ [] := hne u2 (by rw [hdec]; simp)
      by_cases hf : front = []
      · subst hf
        rw [htwo u1 u2 (by simpa using hdec), hdec]
        simp [List.filter, isEmpty_false u1 hu1, isEmpty_false u2 hu2]
      · have hn : (js " ").intercalate front ≠ [] :=
          intercalate_ne_nil _ front hf fun w hw => hne w (by rw [hdec]; simp [hw])
        rw [hfront front u1 u2 hf hdec, hdec, intercalate_front _ front u1 u2 hf]
        simp [List.filter, isEmpty_false _ hn, isEmpty_false u1 hu1, isEmpty_false u2 hu2]
  · cases n with
    | ofNat k => cases k <;> rfl
    | negSucc k => rfl

/-- Examples for `splitName`: a name of four words, and a name with white space around and between
its words. -/
theorem splitName_examples :
    splitName (.str (js "Juan Carlos Perez Gomez"))
      = { nombres := js "Juan Carlos", apellido1 := js "Perez", apellido2 := js "Gomez" } ∧
    splitName (.str (js "  Ana   Gomez "))
      = { nombres := js "Ana", apellido1 := js "Gomez", apellido2 := [] } ∧
    splitName (.str (js "   ")) = { nombres := [], apellido1 := [], apellido2 := [] } ∧
    wordsOf (js "  Ana   Gomez ") = [js "Ana", js "Gomez"] := by
  decide

/-! ## Column letters and column indices -/

section Columns

theorem exactColumnIndex_snoc (p : JsString) (c : Nat) :
    exactColumnIndex (p ++ [c]) = (exactColumnIndex p + 1) * 26 + (c : Int) - 64 - 1 := by
  simp [exactColumnIndex, List.foldl_append]

theorem exactColumnIndex_ge (s : JsString) (h : IsColumnLetters s) :
    -1 ≤ exactColumnIndex s := by
  induction s using List.reverseRecOn with
  | nil => simp [exactColumnIndex]
  | append_singleton p c ih =>
    have hp : IsColumnLetters p := fun x hx => h x (List.mem_append_left _ hx)
    have hc := h c (by simp)
    have := ih hp
    rw [exactColumnIndex_snoc]
    omega

theorem exactColumnLettersLoop_spec (fuel : Nat) :
    ∀ (index : Int) (acc : JsString), -1 ≤ index → index + 2 ≤ fuel →
      ∃ r, exactColumnLettersLoop fuel index acc = some (r ++ acc) ∧
        exactColumnIndex r = index ∧ IsColumnLetters r ∧ (0 ≤ index → r ≠ []) := by
  induction fuel with
  | zero => intro index acc h1 h2; omega
  | succ fuel ih =>
    intro index acc h1 h2
    by_cases h0 : index ≥ 0
    · have hq : -1 ≤ index / 26 - 1 := by omega
      have hf : index / 26 - 1 + 2 ≤ (fuel : Int) := by push_cast at h2; omega
      obtain ⟨r, hr, hv, hl, -⟩ := ih (index / 26 - 1) ((65 + index % 26).toNat :: acc) hq hf
      refine ⟨r ++ [(65 + index % 26).toNat], ?_, ?_, ?_, ?_⟩
      · rw [exactColumnLettersLoop, if_pos h0, hr]; simp
      · rw [exactColumnIndex_snoc, hv, Int.toNat_of_nonneg (by omega)]; omega
      · intro c hc
        rcases List.mem_append.1 hc with hc | hc
        · exact hl c hc
        · simp only [List.mem_singleton] at hc
          subst hc
          omega
      · intro _; simp
    · refine ⟨[], ?_, ?_, ?_, ?_⟩
      · rw [exactColumnLettersLoop, if_neg h0]; rfl
      · simp [exactColumnIndex]; omega
      · intro c hc; simp at hc
      · intro h; omega

theorem exactColumnLettersLoop_letters (s : JsString) (h : IsColumnLetters s) :
    ∀ (fuel : Nat) (acc : JsString), exactColumnIndex s + 2 ≤ fuel →
      exactColumnLettersLoop fuel (exactColumnIndex s) acc = some (s ++ acc) := by
  induction s using List.reverseRecOn with
  | nil =>
    intro fuel acc hf
    cases fuel with
    | zero => simp [exactColumnIndex] at hf
    | succ fuel => simp [exactColumnLettersLoop, exactColumnIndex]
  | append_singleton p c ih =>
    intro fuel acc hf
    have hp : IsColumnLetters p := fun x hx => h x (List.mem_append_left _ hx)
    have hc := h c (by simp)
    have hge := exactColumnIndex_ge p hp
    rw [exactColumnIndex_snoc] at hf ⊢
    cases fuel with
    | zero => omega
    | succ fuel =>
      have h0 : (exactColumnIndex p + 1) * 26 + (c : Int) - 64 - 1 ≥ 0 := by omega
      have hq : ((exactColumnIndex p + 1) * 26 + (c : Int) - 64 - 1) / 26 - 1
          = exactColumnIndex p := by omega
      have hm : (65 + ((exactColumnIndex p + 1) * 26 + (c : Int) - 64 - 1) % 26).toNat = c := by
        omega
      rw [exactColumnLettersLoop, if_pos h0, hq, hm, ih hp fuel (c :: acc) (by push_cast at hf; omega)]
      simp

theorem exactColumnIndex_nonneg (s : JsString) (h : IsColumnLetters s) (hs : s ≠ []) :
    0 ≤ exactColumnIndex s := by
  obtain ⟨p, c, rfl⟩ : ∃ p c, s = p ++ [c] := by
    rcases List.eq_nil_or_concat s with h0 | ⟨p, c, h1⟩
    · exact absurd h0 hs
    · exact ⟨p, c, by simpa using h1⟩
  have hp : IsColumnLetters p := fun x hx => h x (List.mem_append_left _ hx)
  have hc := h c (by simp)
  have := exactColumnIndex_ge p hp
  rw [exactColumnIndex_snoc]
  omega

/-- A string of `n` column letters denotes an index below `27^n`. -/
theorem exactColumnIndex_lt_pow (s : JsString) (h : IsColumnLetters s) :
    exactColumnIndex s + 2 ≤ 27 ^ s.length := by
  induction s using List.reverseRecOn with
  | nil => simp [exactColumnIndex]
  | append_singleton p c ih =>
    have hp : IsColumnLetters p := fun x hx => h x (List.mem_append_left _ hx)
    have hc := h c (by simp)
    have := ih hp
    have hge := exactColumnIndex_ge p hp
    rw [exactColumnIndex_snoc, List.length_append, List.length_singleton, pow_succ]
    omega

/-! ### Agreement of the double-precision functions with the exact ones -/

/-- The quotient by 26 of an integer up to `2^53`, rounded to a double, has the integer
quotient as its floor. -/
theorem floor_toDouble_div (a : ℤ) (h0 : 0 ≤ a) (h1 : a ≤ 2 ^ 53) :
    ⌊toDouble ((a : ℚ) / 26)⌋ = a / 26 := by
  have hdiv : (a : ℚ) / 26 = ((a / 26 : ℤ) : ℚ) + ((a % 26 : ℤ) : ℚ) / 26 := by
    have := Int.emod_add_ediv a 26
    have h' : (a : ℚ) = ((a % 26 : ℤ) : ℚ) + 26 * ((a / 26 : ℤ) : ℚ) := by exact_mod_cast this.symm
    calc (a : ℚ) / 26 = (((a % 26 : ℤ) : ℚ) + 26 * ((a / 26 : ℤ) : ℚ)) / 26 := by rw [← h']
      _ = ((a / 26 : ℤ) : ℚ) + ((a % 26 : ℤ) : ℚ) / 26 := by ring
  have hr0 : (0 : ℤ) ≤ a % 26 := Int.emod_nonneg a (by norm_num)
  have hr1 : a % 26 < 26 := Int.emod_lt_of_pos a (by norm_num)
  have hk0 : 0 ≤ a / 26 := Int.ediv_nonneg h0 (by norm_num)
  by_cases hr : a % 26 = 0
  · rw [hdiv, hr]
    simp only [Int.cast_zero, zero_div, add_zero]
    rw [toDouble_intCast (a / 26) (by rw [abs_of_nonneg hk0]; omega), Int.floor_intCast]
  · have hq0 : (0 : ℚ) ≤ (a : ℚ) / 26 := by positivity
    have hlt : |(a : ℚ) / 26| < 2 ^ (49 : ℤ) := by
      rw [abs_of_nonneg hq0]
      have : (a : ℚ) ≤ 2 ^ 53 := by exact_mod_cast h1
      norm_num
      linarith
    have herr := abs_toDouble_sub_le ((a : ℚ) / 26) 49 (by norm_num) hlt
    have herr' := abs_le.1 herr
    have e5 : (2 : ℚ) ^ ((49 : ℤ) - 54) = 1 / 32 := by norm_num
    rw [e5] at herr'
    have hrq1 : (1 : ℚ) ≤ ((a % 26 : ℤ) : ℚ) := by
      have : (1 : ℤ) ≤ a % 26 := by omega
      exact_mod_cast this
    have hrq2 : ((a % 26 : ℤ) : ℚ) ≤ 25 := by
      have : a % 26 ≤ 25 := by omega
      exact_mod_cast this
    rw [Int.floor_eq_iff]
    constructor
    · have : ((a / 26 : ℤ) : ℚ) + 1 / 26 ≤ (a : ℚ) / 26 := by
        rw [hdiv]; linarith [div_le_div_of_nonneg_right hrq1 (by norm_num : (0 : ℚ) ≤ 26)]
      linarith [herr'.1]
    · have : (a : ℚ) / 26 ≤ ((a / 26 : ℤ) : ℚ) + 25 / 26 := by
        rw [hdiv]; linarith [div_le_div_of_nonneg_right hrq2 (by norm_num : (0 : ℚ) ≤ 26)]
      linarith [herr'.2]

theorem jsRemainder_intCast (a : ℤ) : jsRemainder (a : ℚ) 26 = ((a % 26 : ℤ) : ℚ) := by
  unfold jsRemainder
  have hf : ⌊(a : ℚ) / 26⌋ = a / 26 := by
    have := Rat.floor_intCast_div_natCast a 26
    simpa using this
  rw [hf]
  have := Int.emod_add_ediv a 26
  have h' : (a : ℚ) = ((a % 26 : ℤ) : ℚ) + 26 * ((a / 26 : ℤ) : ℚ) := by exact_mod_cast this.symm
  linarith

theorem columnIndexToLetterLoop_exact (fuel : Nat) :
    ∀ (index : ℤ) (acc : JsString), -1 ≤ index → index ≤ 2 ^ 53 →
      columnIndexToLetterLoop fuel (index : ℚ) acc = exactColumnLettersLoop fuel index acc := by
  induction fuel with
  | zero => intro index acc _ _; rfl
  | succ fuel ih =>
    intro index acc h1 h2
    rw [columnIndexToLetterLoop, exactColumnLettersLoop]
    by_cases h0 : index ≥ 0
    · have h0q : (index : ℚ) ≥ 0 := by exact_mod_cast h0
      rw [if_pos h0q, if_pos h0]
      have hr0 : (0 : ℤ) ≤ index % 26 := Int.emod_nonneg index (by norm_num)
      have hr1 : index % 26 < 26 := Int.emod_lt_of_pos index (by norm_num)
      have hk0 : 0 ≤ index / 26 := Int.ediv_nonneg h0 (by norm_num)
      have hk1 : index / 26 ≤ index := Int.ediv_le_self _ h0
      have hchar : fromCharCode (toDouble (65 + jsRemainder (index : ℚ) 26))
          = (65 + index % 26).toNat := by
        rw [jsRemainder_intCast]
        have e : (65 : ℚ) + ((index % 26 : ℤ) : ℚ) = ((65 + index % 26 : ℤ) : ℚ) := by push_cast; ring
        rw [e, toDouble_intCast _ (by rw [abs_of_nonneg (by omega)]; omega)]
        unfold fromCharCode
        rw [Int.floor_intCast]
        congr 1
        omega
      have hnext : toDouble ((⌊toDouble ((index : ℚ) / 26)⌋ : ℚ) - 1)
          = ((index / 26 - 1 : ℤ) : ℚ) := by
        rw [floor_toDouble_div index h0 h2]
        have e : ((index / 26 : ℤ) : ℚ) - 1 = ((index / 26 - 1 : ℤ) : ℚ) := by push_cast; ring
        rw [e, toDouble_intCast _ (by rw [abs_le]; constructor <;> omega)]
      rw [hchar, hnext]
      exact ih _ _ (by omega) (by omega)
    · have h0q : ¬ (index : ℚ) ≥ 0 := by
        intro h; exact h0 (by exact_mod_cast h)
      rw [if_neg h0q, if_neg h0]

theorem columnIndexToLetter_exact (index : ℤ) (h0 : 0 ≤ index) (h1 : index ≤ 2 ^ 53) :
    columnIndexToLetter (index : ℚ) = exactColumnLetters index := by
  unfold columnIndexToLetter exactColumnLetters
  rw [Int.floor_intCast]
  exact columnIndexToLetterLoop_exact _ index [] (by omega) h1

/-- The loop of `columnLetterToIndex` is exact while the values stay within `2^53`. -/
theorem columnLetterToIndex_fold_exact (s : JsString) (h : IsColumnLetters s)
    (hb : exactColumnIndex s + 65 ≤ 2 ^ 53) :
    s.foldl (fun (result : ℚ) (c : Nat) => toDouble (toDouble (toDouble (result * 26) + (c : ℚ)) - 64)) 0
      = ((exactColumnIndex s + 1 : ℤ) : ℚ) := by
  induction s using List.reverseRecOn with
  | nil => simp [exactColumnIndex]
  | append_singleton p c ih =>
    have hp : IsColumnLetters p := fun x hx => h x (List.mem_append_left _ hx)
    have hc := h c (by simp)
    have hge := exactColumnIndex_ge p hp
    rw [exactColumnIndex_snoc] at hb ⊢
    rw [List.foldl_append, ih hp (by omega)]
    simp only [List.foldl_cons, List.foldl_nil]
    have e1 : ((exactColumnIndex p + 1 : ℤ) : ℚ) * 26 = (((exactColumnIndex p + 1) * 26 : ℤ) : ℚ) := by
      push_cast; ring
    rw [e1, toDouble_intCast _ (by rw [abs_of_nonneg (by omega)]; omega)]
    have e2 : (((exactColumnIndex p + 1) * 26 : ℤ) : ℚ) + (c : ℚ)
        = (((exactColumnIndex p + 1) * 26 + (c : ℤ) : ℤ) : ℚ) := by push_cast; ring
    rw [e2, toDouble_intCast _ (by rw [abs_of_nonneg (by omega)]; omega)]
    have e3 : (((exactColumnIndex p + 1) * 26 + (c : ℤ) : ℤ) : ℚ) - 64
        = (((exactColumnIndex p + 1) * 26 + (c : ℤ) - 64 - 1 + 1 : ℤ) : ℚ) := by push_cast; ring
    rw [e3, toDouble_intCast _ (by rw [abs_of_nonneg (by omega)]; omega)]

theorem columnLetterToIndex_exact (s : JsString) (h : IsColumnLetters s)
    (hb : exactColumnIndex s + 65 ≤ 2 ^ 53) :
    columnLetterToIndex s = ((exactColumnIndex s : ℤ) : ℚ) := by
  unfold columnLetterToIndex
  rw [columnLetterToIndex_fold_exact s h hb]
  have hge := exactColumnIndex_ge s h
  have e : ((exactColumnIndex s + 1 : ℤ) : ℚ) - 1 = ((exactColumnIndex s : ℤ) : ℚ) := by
    push_cast; ring
  rw [e, toDouble_intCast _ (by rw [abs_le]; constructor <;> omega)]

theorem exactColumnIndex_short (s : JsString) (h : IsColumnLetters s) (hlen : s.length ≤ 11) :
    exactColumnIndex s + 65 ≤ 2 ^ 53 := by
  have h1 := exactColumnIndex_lt_pow s h
  have h2 : (27 : ℤ) ^ s.length ≤ 27 ^ 11 := pow_le_pow_right₀ (by norm_num) hlen
  have h3 : (27 : ℤ) ^ 11 + 63 ≤ 2 ^ 53 := by norm_num
  omega

theorem columnLetterToIndex_snoc_exact (p : JsString) (c : Nat) (h : IsColumnLetters p)
    (hb : exactColumnIndex p + 65 ≤ 2 ^ 53) :
    columnLetterToIndex (p ++ [c]) =
      toDouble (toDouble (toDouble (toDouble
        (((exactColumnIndex p + 1 : ℤ) : ℚ) * 26) + (c : ℚ)) - 64) - 1) := by
  unfold columnLetterToIndex
  rw [List.foldl_append, columnLetterToIndex_fold_exact p h hb]
  rfl

theorem columnIndexToLetterLoop_succ (fuel : Nat) (index : ℚ) (acc : JsString)
    (h : 0 ≤ index) :
    columnIndexToLetterLoop (fuel + 1) index acc =
      columnIndexToLetterLoop fuel (toDouble ((⌊toDouble (index / 26)⌋ : ℚ) - 1))
        (fromCharCode (toDouble (65 + jsRemainder index 26)) :: acc) := by
  rw [columnIndexToLetterLoop, if_pos h]

theorem isColumnLetters_iff (s : JsString) :
    IsColumnLetters s ↔ s.all (fun c => decide (65 ≤ c ∧ c ≤ 90)) = true := by
  simp [IsColumnLetters, List.all_eq_true]

/-- The index `2^53` is written `BKTXHSOGHKKG`, which reads back as `2^53 - 1`. -/
theorem columnIndexToLetter_two_pow_53 :
    columnIndexToLetter 9007199254740992 = some (js "BKTXHSOGHKKG") := by
  have hl : IsColumnLetters (js "BKTXHSOGHKKG") := by rw [isColumnLetters_iff]; decide
  have hidx : exactColumnIndex (js "BKTXHSOGHKKG") = 9007199254740992 := by decide
  have h1 := columnIndexToLetter_exact 9007199254740992 (by norm_num) (by norm_num)
  have h2 := exactColumnLettersLoop_letters (js "BKTXHSOGHKKG") hl
    ((9007199254740992 : ℤ).toNat + 2) [] (by rw [hidx]; norm_num)
  rw [hidx] at h2
  have h3 : exactColumnLetters 9007199254740992 = some (js "BKTXHSOGHKKG") := by
    unfold exactColumnLetters
    rw [h2, List.append_nil]
  rw [h3] at h1
  exact_mod_cast h1

theorem columnLetterToIndex_BKTXHSOGHKKG :
    columnLetterToIndex (js "BKTXHSOGHKKG") = 9007199254740991 := by
  have hl : IsColumnLetters (js "BKTXHSOGHKK") := by rw [isColumnLetters_iff]; decide
  have hp : exactColumnIndex (js "BKTXHSOGHKK") = 346430740566960 := by decide
  have hs : js "BKTXHSOGHKKG" = js "BKTXHSOGHKK" ++ [71] := by decide
  rw [hs, columnLetterToIndex_snoc_exact _ _ hl (by rw [hp]; norm_num), hp]
  have s1 : toDouble (9007199254740986 : ℚ) = 9007199254740986 := by
    have := toDouble_intCast 9007199254740986 (by norm_num)
    exact_mod_cast this
  have s2 : toDouble (9007199254741057 : ℚ) = 9007199254741056 := by
    rw [toDouble_eval_tie 9007199254741057 53 4503599627370528 (by norm_num)
      (by norm_num [abs_of_pos]) (by norm_num [abs_of_pos]) (by norm_num)]
    norm_num
  have s3 : toDouble (9007199254740992 : ℚ) = 9007199254740992 := by
    have := toDouble_intCast 9007199254740992 (by norm_num)
    exact_mod_cast this
  have s4 : toDouble (9007199254740991 : ℚ) = 9007199254740991 := by
    have := toDouble_intCast 9007199254740991 (by norm_num)
    exact_mod_cast this
  norm_num [s1, s2, s3, s4]

theorem columnLetterToIndex_twelve_Z :
    columnLetterToIndex (js "ZZZZZZZZZZZZ") = 99246114928149472 := by
  have hl : IsColumnLetters (js "ZZZZZZZZZZZ") := by rw [isColumnLetters_iff]; decide
  have hp : exactColumnIndex (js "ZZZZZZZZZZZ") = 3817158266467285 := by decide
  have hs : js "ZZZZZZZZZZZZ" = js "ZZZZZZZZZZZ" ++ [90] := by decide
  rw [hs, columnLetterToIndex_snoc_exact _ _ hl (by rw [hp]; norm_num), hp]
  have s1 : toDouble (99246114928149436 : ℚ) = 99246114928149440 := by
    rw [toDouble_eval 99246114928149436 56 6202882183009340 (by norm_num)
      (by norm_num [abs_of_pos]) (by norm_num [abs_of_pos]) (by norm_num [abs_lt])]
    norm_num
  have s2 : toDouble (99246114928149530 : ℚ) = 99246114928149536 := by
    rw [toDouble_eval 99246114928149530 56 6202882183009346 (by norm_num)
      (by norm_num [abs_of_pos]) (by norm_num [abs_of_pos]) (by norm_num [abs_lt])]
    norm_num
  have s3 : toDouble (99246114928149472 : ℚ) = 99246114928149472 := by
    rw [toDouble_eval 99246114928149472 56 6202882183009342 (by norm_num)
      (by norm_num [abs_of_pos]) (by norm_num [abs_of_pos]) (by norm_num [abs_lt])]
    norm_num
  have s4 : toDouble (99246114928149471 : ℚ) = 99246114928149472 := by
    rw [toDouble_eval 99246114928149471 56 6202882183009342 (by norm_num)
      (by norm_num [abs_of_pos]) (by norm_num [abs_of_pos]) (by norm_num [abs_lt])]
    norm_num
  norm_num [s1, s2, s3, s4]

theorem columnIndexToLetter_twelve_Z :
    columnIndexToLetter 99246114928149472 = some (js "AAAAAAAAAAAAK") := by
  have hl : IsColumnLetters (js "AAAAAAAAAAAA") := by rw [isColumnLetters_iff]; decide
  have hidx : exactColumnIndex (js "AAAAAAAAAAAA") = 3817158266467286 := by decide
  have hf : columnIndexToLetter 99246114928149472
      = columnIndexToLetterLoop (99246114928149473 + 1) 99246114928149472 [] := by
    unfold columnIndexToLetter
    congr 1
  rw [hf, columnIndexToLetterLoop_succ _ _ _ (by norm_num)]
  have q1 : toDouble ((99246114928149472 : ℚ) / 26) = 7634316532934575 / 2 := by
    rw [toDouble_eval (99246114928149472 / 26) 51 7634316532934575 (by norm_num)
      (by norm_num [abs_of_pos]) (by norm_num [abs_of_pos]) (by norm_num [abs_lt])]
    norm_num
  have fl : ⌊(7634316532934575 / 2 : ℚ)⌋ = 3817158266467287 := by
    rw [Int.floor_eq_iff]; norm_num
  have r1 : jsRemainder 99246114928149472 26 = 10 := by
    unfold jsRemainder
    have : ⌊(99246114928149472 : ℚ) / 26⌋ = 3817158266467287 := by
      rw [Int.floor_eq_iff]; norm_num
    rw [this]; norm_num
  have c1 : toDouble (65 + 10 : ℚ) = 75 := by
    have := toDouble_intCast 75 (by norm_num)
    norm_num at this ⊢
    exact this
  have c2 : fromCharCode 75 = 75 := by
    unfold fromCharCode
    rw [show (75 : ℚ) = ((75 : ℤ) : ℚ) by norm_num, Int.floor_intCast]
    rfl
  have n1 : toDouble (((3817158266467287 : ℤ) : ℚ) - 1) = ((3817158266467286 : ℤ) : ℚ) := by
    have := toDouble_intCast 3817158266467286 (by norm_num)
    norm_num at this ⊢
    exact this
  rw [q1, fl, r1, c1, c2, n1,
    columnIndexToLetterLoop_exact _ 3817158266467286 _ (by norm_num) (by norm_num)]
  have h2 := exactColumnLettersLoop_letters (js "AAAAAAAAAAAA") hl 99246114928149473 [75]
    (by rw [hidx]; norm_num)
  rw [hidx] at h2
  rw [h2]
  decide

/-- C27, counterexample: in the double-precision arithmetic of the code the two
functions are not inverse of each other on all inputs.  The index `2^53` is written
`BKTXHSOGHKKG`, which is read back as `2^53 - 1`; and the twelve letters `ZZZZZZZZZZZZ`
are read as 99246114928149472, which is written `AAAAAAAAAAAAK`. -/
theorem column_round_trip_fails :
    columnIndexToLetter 9007199254740992 = some (js "BKTXHSOGHKKG") ∧
    columnLetterToIndex (js "BKTXHSOGHKKG") = 9007199254740991 ∧
    (9007199254740991 : ℚ) ≠ 9007199254740992 ∧
    js "BKTXHSOGHKKG" ≠ [] ∧ IsColumnLetters (js "BKTXHSOGHKKG") ∧
    js "ZZZZZZZZZZZZ" ≠ [] ∧ IsColumnLetters (js "ZZZZZZZZZZZZ") ∧
    columnLetterToIndex (js "ZZZZZZZZZZZZ") = 99246114928149472 ∧
    columnIndexToLetter 99246114928149472 = some (js "AAAAAAAAAAAAK") ∧
    js "AAAAAAAAAAAAK" ≠ js "ZZZZZZZZZZZZ" :=
  ⟨columnIndexToLetter_two_pow_53, columnLetterToIndex_BKTXHSOGHKKG, by norm_num,
    by decide, by rw [isColumnLetters_iff]; decide,
    by decide, by rw [isColumnLetters_iff]; decide,
    columnLetterToIndex_twelve_Z, columnIndexToLetter_twelve_Z, by decide⟩

/-- C27, amended claim: column letters and zero-based indices are inverse encodings
within the range where the double-precision arithmetic of the code is exact.  For every
integer `i` with `0 ≤ i ≤ 2^53 - 65` the loop of `columnIndexToLetter` terminates with a
non-empty string of letters `A`..`Z` that `columnLetterToIndex` reads back as `i`; for
every non-empty string `s` of letters `A`..`Z` whose index is at most `2^53 - 65`,
and so for every such string of at most 11 letters, `columnLetterToIndex(s)` is a
non-negative integer (the exact index) that `columnIndexToLetter` writes as `s`; and
`A` = 0, `B` = 1, `Z` = 25, `AA` = 26. -/
theorem column_letter_index_inverse :
    (∀ i : ℤ, 0 ≤ i → i + 65 ≤ 2 ^ 53 →
      ∃ s, columnIndexToLetter (i : ℚ) = some s ∧ s ≠ [] ∧ IsColumnLetters s ∧
        columnLetterToIndex s = (i : ℚ)) ∧
    (∀ s : JsString, s ≠ [] → IsColumnLetters s → exactColumnIndex s + 65 ≤ 2 ^ 53 →
      0 ≤ exactColumnIndex s ∧ columnLetterToIndex s = (exactColumnIndex s : ℚ) ∧
        columnIndexToLetter (columnLetterToIndex s) = some s) ∧
    (∀ s : JsString, s ≠ [] → IsColumnLetters s → s.length ≤ 11 →
      0 ≤ columnLetterToIndex s ∧ columnIndexToLetter (columnLetterToIndex s) = some s) ∧
    columnIndexToLetter 0 = some (js "A") ∧ columnIndexToLetter 1 = some (js "B") ∧
    columnIndexToLetter 25 = some (js "Z") ∧ columnIndexToLetter 26 = some (js "AA") ∧
    columnLetterToIndex (js "A") = 0 ∧ columnLetterToIndex (js "B") = 1 ∧
    columnLetterToIndex (js "Z") = 25 ∧ columnLetterToIndex (js "AA") = 26 := by
  have part2 : ∀ s : JsString, s ≠ [] → IsColumnLetters s → exactColumnIndex s + 65 ≤ 2 ^ 53 →
      0 ≤ exactColumnIndex s ∧ columnLetterToIndex s = (exactColumnIndex s : ℚ) ∧
        columnIndexToLetter (columnLetterToIndex s) = some s := by
    intro s hs hl hb
    have h0 := exactColumnIndex_nonneg s hl hs
    have he := columnLetterToIndex_exact s hl hb
    refine ⟨h0, he, ?_⟩
    rw [he, columnIndexToLetter_exact _ h0 (by omega)]
    have := exactColumnLettersLoop_letters s hl ((exactColumnIndex s).toNat + 2) []
      (by push_cast; omega)
    simpa [exactColumnLetters] using this
  have ev : ∀ (n : ℤ) (s : JsString), 0 ≤ n → n ≤ 2 ^ 53 → exactColumnLetters n = some s →
      columnIndexToLetter (n : ℚ) = some s := by
    intro n s h0 h1 h
    rw [columnIndexToLetter_exact n h0 h1, h]
  have rd : ∀ (n : ℤ) (s : JsString), IsColumnLetters s → exactColumnIndex s = n →
      n + 65 ≤ 2 ^ 53 → columnLetterToIndex s = (n : ℚ) := by
    intro n s hl h hb
    rw [columnLetterToIndex_exact s hl (by rw [h]; exact hb), h]
  refine ⟨?_, part2, ?_, ?_, ?_, ?_, ?_, ?_, ?_, ?_, ?_⟩
  · intro i hi hb
    obtain ⟨r, hr, hv, hl, hne⟩ :=
      exactColumnLettersLoop_spec (i.toNat + 2) i [] (by omega) (by push_cast; omega)
    refine ⟨r, ?_, hne hi, hl, ?_⟩
    · rw [columnIndexToLetter_exact i hi (by omega)]
      simpa [exactColumnLetters] using hr
    · rw [columnLetterToIndex_exact r hl (by rw [hv]; exact hb), hv]
  · intro s hs hl hlen
    obtain ⟨h0, he, hr⟩ := part2 s hs hl (exactColumnIndex_short s hl hlen)
    refine ⟨?_, hr⟩
    rw [he]
    exact_mod_cast h0
  · exact_mod_cast ev 0 (js "A") (by norm_num) (by norm_num) (by decide)
  · exact_mod_cast ev 1 (js "B") (by norm_num) (by norm_num) (by decide)
  · exact_mod_cast ev 25 (js "Z") (by norm_num) (by norm_num) (by decide)
  · exact_mod_cast ev 26 (js "AA") (by norm_num) (by norm_num) (by decide)
  · exact_mod_cast rd 0 (js "A") (by rw [isColumnLetters_iff]; decide) (by decide) (by norm_num)
  · exact_mod_cast rd 1 (js "B") (by rw [isColumnLetters_iff]; decide) (by decide) (by norm_num)
  · exact_mod_cast rd 25 (js "Z") (by rw [isColumnLetters_iff]; decide) (by decide) (by norm_num)
  · exact_mod_cast rd 26 (js "AA") (by rw [isColumnLetters_iff]; decide) (by decide) (by norm_num)

end Columns

/-! ## `concatenateColumns` -/

section Concatenate

theorem exactColumnIndex_two_letters (s : JsString) (h : IsColumnLetters s)
    (hlen : 2 ≤ s.length) : 26 ≤ exactColumnIndex s := by
  rcases List.eq_nil_or_concat s with hs | ⟨p, c, hs⟩
  · rw [hs] at hlen; simp at hlen
  · have hs' : s = p ++ [c] := by simpa using hs
    subst hs'
    have hp : IsColumnLetters p := fun x hx => h x (List.mem_append_left _ hx)
    have hc := h c (by simp)
    have hpne : p ≠ [] := by
      intro hp0
      rw [hp0] at hlen
      simp at hlen
    have hp0 := exactColumnIndex_nonneg p hp hpne
    rw [exactColumnIndex_snoc]
    omega

theorem upperLetters_isColumnLetters (s : JsString) (h : isLettersOnly s = true) :
    IsColumnLetters (upperLetters s) := by
  intro c hc
  simp only [isLettersOnly, Bool.and_eq_true, List.all_eq_true, Bool.or_eq_true,
    decide_eq_true_eq] at h
  simp only [upperLetters, List.mem_map] at hc
  obtain ⟨x, hx, rfl⟩ := hc
  have := h.2 x hx
  split <;> omega

theorem upperLetters_ne_nil (s : JsString) (h : isLettersOnly s = true) :
    upperLetters s ≠ [] := by
  cases s with
  | nil => simp [isLettersOnly] at h
  | cons a t => simp [upperLetters]

theorem elementAt_intCast (values : List JsValue) (n : ℤ) (h : 0 ≤ n) :
    elementAt values (n : ℚ) = values.getD n.toNat .undefined := by
  unfold elementAt
  rw [Int.floor_intCast, if_pos ⟨by exact_mod_cast h, rfl⟩]

theorem length_insertByIndex (e : String × JsValue) (l : Record) :
    (insertByIndex e l).length = l.length + 1 := by
  induction l with
  | nil => rfl
  | cons x rest ih =>
    unfold insertByIndex
    split
    · rfl
    · simp [ih]

theorem length_sortByIndex (l : Record) : (sortByIndex l).length = l.length := by
  induction l with
  | nil => rfl
  | cons x rest ih => simp [sortByIndex, length_insertByIndex, ih]

theorem length_objectValues (row : Record) : (objectValues row).length = row.length := by
  unfold objectValues ownEntries
  rw [List.length_map, List.length_append, length_sortByIndex]
  induction row with
  | nil => rfl
  | cons e rest ih =>
    simp only [List.filter_cons]
    cases h : arrayIndex e.1 <;> simp [h] at ih ⊢ <;> omega

/-- A column argument of at most 11 letters is read at the position that its upper-case
form denotes as column letters. -/
theorem columnValue_letters (row : Record) (column : String)
    (h : isLettersOnly (js column) = true) (hlen : (js column).length ≤ 11) :
    columnValue row column =
      some (if truthy ((objectValues row).getD
                (exactColumnIndex (upperLetters (js column))).toNat .undefined)
            then (objectValues row).getD
                (exactColumnIndex (upperLetters (js column))).toNat .undefined
            else .str []) := by
  have hl := upperLetters_isColumnLetters _ h
  have h0 := exactColumnIndex_nonneg _ hl (upperLetters_ne_nil _ h)
  have hb := exactColumnIndex_short _ hl (by simpa [upperLetters] using hlen)
  simp only [columnValue, h, if_true, columnLetterToIndex_exact _ hl hb,
    elementAt_intCast _ _ h0]

/-- A column argument of 2 to 11 letters reads `''` from a row of at most 26 fields. -/
theorem columnValue_long_letters (row : Record) (column : String)
    (h : isLettersOnly (js column) = true) (h2 : 2 ≤ (js column).length)
    (h11 : (js column).length ≤ 11) (hrow : row.length ≤ 26) :
    columnValue row column = some (.str []) := by
  have h26 := exactColumnIndex_two_letters _ (upperLetters_isColumnLetters _ h)
    (by simpa [upperLetters] using h2)
  have hget : (objectValues row).getD
      (exactColumnIndex (upperLetters (js column))).toNat JsValue.undefined
      = JsValue.undefined := by
    apply List.getD_eq_default
    rw [length_objectValues]
    omega
  rw [columnValue_letters row column h h11, hget]
  rfl

theorem concatenateColumns_singleton (rt : NumberBuiltins) (row : Record)
    (column1 column2 newColumnName : String) (val1 val2 : JsValue)
    (h1 : columnValue row column1 = some val1) (h2 : columnValue row column2 = some val2) :
    concatenateColumns rt [row] column1 column2 newColumnName
      = some [recordSet (ownEntries row) newColumnName
          (.str (toStringJs val1 ++ js " (" ++
            toStringJs (formatNumberWithThousands rt val2) ++ js ")"))] := by
  simp [concatenateColumns, List.mapM, List.mapM.loop, concatenateRow, h1, h2]

end Concatenate

/-- C26: the code at the failing input.  For the row with `Nombre = "Ana"` and
`Plan = "15000"` and the column arguments `"Nombre"` and `"Plan"`, which are keys of the
row with the values `"Ana"` and `"15000"`, `concatenateColumns` does not read the two
cells by name: the new column is `" ()"`.  The same happens to every column argument of
2 to 11 letters on a row of at most 26 fields, whether or not it is a key of the row;
a key with a character that is not a letter is read by name, and the column letters
`A` and `b` are read by position. -/
theorem concatenateColumns_letter_names_by_position (rt : NumberBuiltins) :
    concatenateColumns rt [planRow] "Nombre" "Plan" "Resumen"
      = some [[("Nombre", .str (js "Ana")), ("Plan", .str (js "15000")),
          ("Resumen", .str (js " ()"))]] ∧
    rowProperty planRow "Nombre" = some (.str (js "Ana")) ∧
    rowProperty planRow "Plan" = some (.str (js "15000")) ∧
    columnValue planRow "Nombre" = some (.str []) ∧
    columnValue planRow "Plan" = some (.str []) ∧
    (∀ (row : Record) (column : String), isLettersOnly (js column) = true →
      2 ≤ (js column).length → (js column).length ≤ 11 → row.length ≤ 26 →
      columnValue row column = some (.str [])) ∧
    (∀ (row : Record) (column : String) (v : JsValue), isLettersOnly (js column) = false →
      row.lookup column = some v →
      columnValue row column = some (if truthy v then v else .str [])) ∧
    concatenateColumns rt [planRow] "A" "b" "Resumen"
      = some [[("Nombre", .str (js "Ana")), ("Plan", .str (js "15000")),
          ("Resumen", .str (js "Ana (" ++ rt.toLocaleString (rt.parseInt (js "15000"))
            ++ js ")"))]] ∧
    concatenateColumns rt [underscoreRow] "nombre_1" "plan_1" "Resumen"
      = some [[("nombre_1", .str (js "Ana")), ("plan_1", .str (js "15000")),
          ("Resumen", .str (js "Ana (" ++ rt.toLocaleString (rt.parseInt (js "15000"))
            ++ js ")"))]] := by
  have hN : columnValue planRow "Nombre" = some (.str []) :=
    columnValue_long_letters _ _ (by decide) (by decide) (by decide) (by decide)
  have hP : columnValue planRow "Plan" = some (.str []) :=
    columnValue_long_letters _ _ (by decide) (by decide) (by decide) (by decide)
  have hA : columnValue planRow "A" = some (.str (js "Ana")) := by
    rw [columnValue_letters _ _ (by decide) (by decide)]; decide
  have hb : columnValue planRow "b" = some (.str (js "15000")) := by
    rw [columnValue_letters _ _ (by decide) (by decide)]; decide
  have hn1 : columnValue underscoreRow "nombre_1" = some (.str (js "Ana")) := by decide
  have hp1 : columnValue underscoreRow "plan_1" = some (.str (js "15000")) := by decide
  refine ⟨?_, by decide, by decide, hN, hP, ?_, ?_, ?_, ?_⟩
  · rw [concatenateColumns_singleton rt _ _ _ _ _ _ hN hP]; rfl
  · intro row column h h2 h11 hrow
    exact columnValue_long_letters row column h h2 h11 hrow
  · intro row column v h hv
    simp [columnValue, h, rowProperty, hv]
  · rw [concatenateColumns_singleton rt _ _ _ _ _ _ hA hb]; rfl
  · rw [concatenateColumns_singleton rt _ _ _ _ _ _ hn1 hp1]; rfl

/-! ## Dividing a sheet into parts -/

section Divider

theorem slice_snoc {α : Type} (R : List α) (s j : Nat) (hs : s ≤ j) (x : α)
    (hj : R[j]? = some x) : slice R s (j + 1) = slice R s j ++ [x] := by
  unfold slice
  have hlt : j < R.length := by
    rcases Nat.lt_or_ge j R.length with h | h
    · exact h
    · rw [List.getElem?_eq_none h] at hj; cases hj
  rw [List.take_succ, hj]
  simp only [Option.toList]
  rw [List.drop_append_of_le_length]
  rw [List.length_take]
  omega

theorem slice_all {α : Type} (R : List α) (s e : Nat) (he : R.length ≤ e) :
    slice R s e = slice R s R.length := by
  unfold slice
  rw [List.take_of_length_le he, List.take_of_length_le (le_refl _)]

theorem slice_length {α : Type} (R : List α) (s e : Nat) :
    (slice R s e).length = min e R.length - s := by
  simp [slice]

theorem take_append_slice {α : Type} (R : List α) (a b : Nat) :
    R.take a ++ slice R a (a + b) = R.take (a + b) := by
  unfold slice
  have h : R.take a = (R.take (a + b)).take a := by
    rw [List.take_take]; congr 1; omega
  rw [h, List.take_append_drop]

theorem cleanRow_eq_filterExcluded (config : Divider.ExcelDivider.Config) (ex : List Int)
    (hex : config.excludeColumns = some ex) (row : SheetRow) :
    Divider.ExcelDivider.cleanRow config row
      = .ok (Divider.ExcelDivider.filterExcluded (ex.insertionSort (fun a b => b ≤ a)) row) := by
  unfold Divider.ExcelDivider.cleanRow
  rw [hex]

open Divider.ExcelDivider in
theorem processRow_inv (config : Config) (k : Nat) (ex : List Int) (hk : 0 < k)
    (hrp : config.rowsPerFile = some k) (hex : config.excludeColumns = some ex)
    (headers : SheetRow) (R : List SheetRow) (j : Nat) (row : SheetRow)
    (hj : R[j]? = some (filterExcluded (ex.insertionSort (fun a b => b ≤ a)) row))
    (st : State) (hinv : PartsInv k headers R j st) :
    ∃ st', processRow config st row headers = .ok st' ∧
      PartsInv k headers R (j + 1) { st' with rowCount := st'.rowCount + 1 } := by
  obtain ⟨c0, h1, h2, h3, hcp, hri, hwb, hfiles⟩ := hinv
  unfold processRow
  rw [cleanRow_eq_filterExcluded config ex hex row, hrp]
  simp only
  by_cases hfull : st.rowsInCurrentPart ≥ k
  · have hjk : j = c0 * k + k := by omega
    have hj0 : j ≠ 0 := by omega
    rw [if_neg hj0] at hwb
    refine ⟨_, rfl, c0 + 1, ?_⟩
    have hmul : (c0 + 1) * k = c0 * k + k := Nat.succ_mul c0 k
    simp only [decide_eq_true hfull, if_true, saveCurrentWorkbook, hwb, Option.isNone_none,
      Option.map_some', hfiles, hcp, hmul]
    refine ⟨by omega, by omega, Or.inr (by omega), trivial, by omega, ?_, ?_⟩
    · rw [if_neg (by omega)]
      have := slice_snoc R j j (le_refl _) _ hj
      rw [← hjk, this]
      simp [slice]
    · rw [List.range_succ, List.map_append]
      simp only [List.map_cons, List.map_nil, hjk]
  · have hlt : j < c0 * k + k := by omega
    refine ⟨_, rfl, c0, ?_⟩
    have hdec : decide (st.rowsInCurrentPart ≥ k) = false := decide_eq_false hfull
    by_cases hj0 : j = 0
    · rw [if_pos hj0] at hwb
      have hc0 : c0 * k = 0 := by omega
      simp only [hdec, Bool.false_eq_true, if_false, hwb, Option.isNone_none, if_true,
        Option.map_some', hfiles, hcp]
      refine ⟨by omega, by omega, Or.inr (by omega), trivial, by omega, ?_, trivial⟩
      rw [if_neg (by omega)]
      have := slice_snoc R 0 j (by omega) _ hj
      rw [hc0, this, hj0]
      simp [slice]
    · rw [if_neg hj0] at hwb
      simp only [hdec, Bool.false_eq_true, if_false, hwb, Option.isNone_some, Option.map_some',
        hfiles, hcp]
      refine ⟨by omega, by omega, Or.inr (by omega), trivial, by omega, ?_, trivial⟩
      rw [if_neg (by omega), slice_snoc R (c0 * k) j h1 _ hj]
      simp

open Divider.ExcelDivider in
theorem rowLoop_inv (config : Config) (k : Nat) (ex : List Int) (hk : 0 < k)
    (hrp : config.rowsPerFile = some k) (hex : config.excludeColumns = some ex)
    (headers : SheetRow) (rows : List SheetRow) :
    ∀ (rest : List SheetRow) (j : Nat) (st : State), rows.drop j = rest → j ≤ rows.length →
      PartsInv k headers (rows.map (filterExcluded (ex.insertionSort (fun a b => b ≤ a)))) j st →
      ∃ st', rowLoop config headers rest st = (st', none) ∧
        PartsInv k headers (rows.map (filterExcluded (ex.insertionSort (fun a b => b ≤ a)))) rows.length st' := by
  intro rest
  induction rest with
  | nil =>
    intro j st hd hj hinv
    have hlen := congrArg List.length hd
    simp only [List.length_drop, List.length_nil] at hlen
    have hjn : j = rows.length := by omega
    subst hjn
    exact ⟨st, rfl, hinv⟩
  | cons row rest ih =>
    intro j st hd hj hinv
    have hlen := congrArg List.length hd
    simp only [List.length_drop, List.length_cons] at hlen
    have hrow : rows[j]? = some row := by
      have := List.head?_drop rows j
      rw [hd] at this
      exact this.symm
    have hrest : rows.drop (j + 1) = rest := by
      have : rows.drop (j + 1) = (rows.drop j).drop 1 := by rw [List.drop_drop]
      rw [this, hd]
      rfl
    obtain ⟨st', hst', hinv'⟩ := processRow_inv config k ex hk hrp hex headers
      (rows.map (filterExcluded (ex.insertionSort (fun a b => b ≤ a)))) j row (by simp [hrow]) st hinv
    obtain ⟨st'', h1, h2⟩ := ih (j + 1) _ hrest (by omega) hinv'
    exact ⟨st'', by rw [rowLoop, hst']; exact h1, h2⟩

theorem totalParts_bounds (n k : Nat) (hk : 0 < k) :
    n ≤ (n + k - 1) / k * k ∧ (n + k - 1) / k * k < n + k := by
  have h1 := Nat.div_add_mod (n + k - 1) k
  have h2 := Nat.mod_lt (n + k - 1) hk
  rw [Nat.mul_comm] at h1
  constructor <;> omega

theorem totalParts_eq (n k c0 : Nat) (hk : 0 < k) (h1 : c0 * k < n) (h2 : n ≤ c0 * k + k) :
    (n + k - 1) / k = c0 + 1 := by
  apply Nat.div_eq_of_lt_le
  · rw [Nat.succ_mul]; omega
  · rw [Nat.succ_mul, Nat.succ_mul]; omega

open Divider.ExcelDivider in
theorem processExcel_eq_saveFiles (config : Config) (k : Nat) (ex : List Int) (hk : 0 < k)
    (hrp : config.rowsPerFile = some k) (hex : config.excludeColumns = some ex)
    (headers : SheetRow) (rows : List SheetRow) (hrows : rows ≠ []) :
    processExcel config (headers :: rows)
      = (true, ExcelFileDivider.ExcelDivider.saveFiles k (headers :: rows.map (filterExcluded (ex.insertionSort (fun a b => b ≤ a))))) := by
  have hn : 0 < rows.length := List.length_pos.2 hrows
  have hinit : PartsInv k headers (rows.map (filterExcluded (ex.insertionSort (fun a b => b ≤ a)))) 0 initial :=
    ⟨0, by simp, by simp, Or.inl rfl, rfl, by simp [initial], rfl, rfl⟩
  obtain ⟨st, hloop, c0, h1, h2, h3, hcp, hri, hwb, hfiles⟩ :=
    rowLoop_inv config k ex hk hrp hex headers rows rows 0 initial rfl (Nat.zero_le _) hinit
  have hlt : c0 * k < rows.length := by omega
  rw [if_neg (by omega)] at hwb
  unfold processExcel
  rw [if_neg (by simp; omega)]
  simp only [List.headD_cons, List.drop_one, List.tail_cons, hloop]
  unfold ExcelFileDivider.ExcelDivider.saveFiles
  simp only [List.headD_cons, List.drop_one, List.tail_cons, List.length_map,
    totalParts_eq rows.length k c0 hk hlt h2, saveCurrentWorkbook, hwb, hfiles, hcp]
  rw [List.range_succ, List.map_append]
  simp only [List.map_cons, List.map_nil]
  rw [slice_all _ (c0 * k) (c0 * k + k) (by simpa using h2)]
  simp

theorem flatten_slices {α : Type} (rows : List α) (k m : Nat) :
    ((List.range m).map fun i => slice rows (i * k) (i * k + k)).flatten = rows.take (m * k) := by
  induction m with
  | zero => simp
  | succ m ih =>
    rw [List.range_succ, List.map_append, List.flatten_append, ih, Nat.succ_mul]
    simp only [List.map_cons, List.map_nil, List.flatten_cons, List.flatten_nil, List.append_nil]
    exact take_append_slice rows (m * k) k

theorem ceil_div_eq (n k : Nat) (hk : 0 < k) (hn : 0 < n) :
    ⌈(n : ℚ) / (k : ℚ)⌉₊ = (n + k - 1) / k := by
  obtain ⟨h1, h2⟩ := totalParts_bounds n k hk
  have hkq : (0 : ℚ) < (k : ℚ) := by exact_mod_cast hk
  have hm : (n + k - 1) / k ≠ 0 := by
    intro h
    rw [h] at h1
    omega
  rw [Nat.ceil_eq_iff hm]
  constructor
  · rw [lt_div_iff₀ hkq]
    have : ((n + k - 1) / k - 1) * k < n := by
      rw [Nat.sub_mul]; omega
    exact_mod_cast this
  · rw [div_le_iff₀ hkq]
    exact_mod_cast h1

theorem saveFiles_isChunking (k : Nat) (hk : 0 < k) (headers : SheetRow)
    (rows : List SheetRow) (hrows : rows ≠ []) :
    IsChunking k rows (ExcelDivider.saveFiles k (headers :: rows)) := by
  have hn : 0 < rows.length := List.length_pos.2 hrows
  obtain ⟨hb1, hb2⟩ := totalParts_bounds rows.length k hk
  unfold IsChunking ExcelDivider.saveFiles
  simp only [List.headD_cons, List.drop_one, List.tail_cons]
  refine ⟨?_, ?_, ?_, ?_⟩
  · rw [ceil_div_eq rows.length k hk hn, List.map_map, List.range'_eq_map_range]
    apply List.map_congr_left
    intro i _
    simp [Nat.add_comm]
  · intro p hp
    obtain ⟨i, hi, rfl⟩ := List.mem_map.1 hp
    have hi' : i + 1 ≤ (rows.length + k - 1) / k := List.mem_range.1 hi
    have hle := Nat.mul_le_mul_right k hi'
    rw [Nat.succ_mul] at hle
    refine ⟨?_, ?_⟩
    · simp only [PartFile.dataRows, List.drop_one, List.tail_cons, slice_length]
      omega
    · simp only [PartFile.dataRows, List.drop_one, List.tail_cons, slice_length]
      omega
  · intro i p hi hp
    rw [List.length_map, List.length_range] at hi
    rw [List.getElem?_map, List.getElem?_range (by omega)] at hp
    simp only [Option.map_some', Option.some.injEq] at hp
    subst hp
    have hle := Nat.mul_le_mul_right k (show i + 2 ≤ (rows.length + k - 1) / k from hi)
    have h2 : (i + 2) * k = i * k + k + k := by ring
    rw [h2] at hle
    simp only [PartFile.dataRows, List.drop_one, List.tail_cons, slice_length]
    omega
  · rw [List.map_map]
    have : (PartFile.dataRows ∘ fun i =>
        ({ part := i + 1, sheet := headers :: slice rows (i * k) (i * k + k) } : PartFile))
        = fun i => slice rows (i * k) (i * k + k) := by
      funext i
      simp [PartFile.dataRows]
    rw [this, flatten_slices, List.take_of_length_le hb1]

theorem enum_filter_eq_range {α : Type} (q : Nat → Bool) (row : List α) :
    (row.enum.filter fun cell => q cell.1).map (fun cell => cell.2)
      = (List.range row.length).filterMap fun i => if q i then row[i]? else none := by
  induction row using List.reverseRecOn with
  | nil => simp
  | append_singleton xs c ih =>
    rw [List.enum_append, List.filter_append, List.map_append, ih, List.length_append,
      List.length_singleton, List.range_succ, List.filterMap_append]
    congr 1
    · apply List.filterMap_congr
      intro i hi
      have hi' : i < xs.length := List.mem_range.1 hi
      rw [List.getElem?_append_left hi']
    · by_cases hq : q xs.length <;> simp [List.enumFrom, hq]

theorem filterExcluded_dense (s : List Int) (cells : List JsValue) :
    Divider.ExcelDivider.filterExcluded s (cells.map some)
      = ((cells.enum.filter fun cell => !s.contains (cell.1 : Int)).map
          fun cell => cell.2).map some := by
  unfold Divider.ExcelDivider.filterExcluded
  rw [List.enum_map, List.filterMap_map, List.map_map, ← List.filterMap_eq_map,
    List.filterMap_filter]
  apply List.filterMap_congr
  intro cell _
  obtain ⟨i, v⟩ := cell
  by_cases h : s.contains (i : Int) <;> simp [h]

/-- On a row without blank cells and a configuration that lists `excludeColumns`,
`cleanRow` returns the cells whose index is not listed. -/
theorem cleanRow_dense (config : Divider.ExcelDivider.Config) (ex : List Int)
    (hex : config.excludeColumns = some ex) (cells : List JsValue) :
    Divider.ExcelDivider.cleanRow config (cells.map some)
      = .ok ((keptCells ex cells).map some) := by
  rw [cleanRow_eq_filterExcluded config ex hex, filterExcluded_dense]
  unfold keptCells
  rw [enum_filter_eq_range (fun i => !(ex.insertionSort (fun a b => b ≤ a)).contains (i : Int))]
  congr 2
  apply List.filterMap_congr
  intro i _
  have hmem : (ex.insertionSort (fun a b => b ≤ a)).contains (i : Int)
      = decide ((i : Int) ∈ ex) := by
    simp [(List.perm_insertionSort (fun a b : Int => b ≤ a) ex).mem_iff]
  rw [hmem]
  by_cases h : (i : Int) ∈ ex <;> simp [h]

theorem keptCells_nil_exclude (cells : List JsValue) : keptCells [] cells = cells := by
  unfold keptCells
  simp only [List.not_mem_nil, if_false]
  apply List.ext_getElem?
  intro n
  induction cells using List.reverseRecOn generalizing n with
  | nil => simp
  | append_singleton xs c ih =>
    rw [List.length_append, List.length_singleton, List.range_succ, List.filterMap_append]
    have h1 : (List.range xs.length).filterMap (fun i => (xs ++ [c])[i]?) = xs := by
      have : (List.range xs.length).filterMap (fun i => (xs ++ [c])[i]?)
          = (List.range xs.length).filterMap (fun i => xs[i]?) := by
        apply List.filterMap_congr
        intro i hi
        rw [List.getElem?_append_left (List.mem_range.1 hi)]
      rw [this]
      apply List.ext_getElem?
      intro m
      exact ih m
    rw [h1]
    simp

theorem validateConfig_ok_iff (config : Divider.ExcelDivider.Config) :
    Divider.ExcelDivider.validateConfig config = .ok () ↔
      config.inputFile.isSome = true ∧ config.sheetName.isSome = true ∧
        config.rowsPerFile.isSome = true := by
  unfold Divider.ExcelDivider.validateConfig
  cases h1 : config.inputFile <;> cases h2 : config.sheetName <;>
    cases h3 : config.rowsPerFile <;> simp

end Divider

/-- C30: the code at the failing input.  The streaming divider accepts a configuration
that has `inputFile`, `sheetName` and `rowsPerFile` and no `excludeColumns`; on it
`cleanRow` raises a `TypeError` for the row `[1, "a"]`, as for every row, and
`processExcel` writes no file and returns `false`.  When the configuration does list
`excludeColumns`, `cleanRow` does not raise; on a row without blank cells it returns the
cells whose index is not listed, in their order, and the whole row for an empty list;
a blank cell is left out of the result: with nothing excluded the row `1, blank, 3`
becomes `[1, 3]`. -/
theorem cleanRow_without_excludeColumns :
    Divider.ExcelDivider.validateConfig configWithoutExclude = .ok () ∧
    Divider.ExcelDivider.cleanRow configWithoutExclude [some (.num 1), some (.str (js "a"))]
      = .error JsError.typeError ∧
    Divider.ExcelDivider.processExcel configWithoutExclude exampleSheet = (false, []) ∧
    (∀ config : Divider.ExcelDivider.Config,
      Divider.ExcelDivider.validateConfig config = .ok () ↔
        config.inputFile.isSome = true ∧ config.sheetName.isSome = true ∧
          config.rowsPerFile.isSome = true) ∧
    (∀ (config : Divider.ExcelDivider.Config) (row : SheetRow),
      config.excludeColumns = none →
      Divider.ExcelDivider.cleanRow config row = .error JsError.typeError) ∧
    (∀ (config : Divider.ExcelDivider.Config) (ex : List Int) (row : SheetRow),
      config.excludeColumns = some ex →
      ∃ cells, Divider.ExcelDivider.cleanRow config row = .ok cells) ∧
    (∀ (config : Divider.ExcelDivider.Config) (ex : List Int) (cells : List JsValue),
      config.excludeColumns = some ex →
      Divider.ExcelDivider.cleanRow config (cells.map some)
        = .ok ((keptCells ex cells).map some)) ∧
    (∀ cells : List JsValue, keptCells [] cells = cells) ∧
    Divider.ExcelDivider.cleanRow configExcludeNothing [some (.num 1), none, some (.num 3)]
      = .ok [some (.num 1), some (.num 3)] :=
  ⟨by decide, by decide, by decide, validateConfig_ok_iff,
   fun config row h => by unfold Divider.ExcelDivider.cleanRow; rw [h],
   fun config ex row hex => ⟨_, cleanRow_eq_filterExcluded config ex hex row⟩,
   fun config ex cells hex => cleanRow_dense config ex hex cells,
   keptCells_nil_exclude, by decide⟩

/-- C23: the code at the failing input.  With `excludeColumns = []` and two rows per
file, the streaming divider writes the data row `1, blank, 3` of the sheet as `[1, 3]`:
the data rows of its part are not the rows of the sheet, and the part is not the one
that `saveFiles` makes of the same sheet, which holds the row as it is.  With
`excludeColumns = [0]` it writes the row `[1, "a"]` as `["a"]` under the header row
`["id", "n"]`.  The division itself is as claimed: for every positive `rowsPerFile` and
every non-empty list of rows, the parts of `saveFiles` are the consecutive chunks of the
rows, parts `1` to `⌈n / rowsPerFile⌉`, none empty, none longer than `rowsPerFile`, all
but the last of exactly `rowsPerFile` rows, and together the rows in their order; and
the streaming divider, with a configuration that lists `excludeColumns`, succeeds and
writes the parts that `saveFiles` makes of the rows that `cleanRow` returns. -/
theorem processExcel_blank_cell_shifts :
    Divider.ExcelDivider.processExcel configExcludeNothing blankCellSheet
      = (true,
        [{ part := 1,
           sheet := [[some (.str (js "a")), some (.str (js "b")), some (.str (js "c"))],
                     [some (.num 1), some (.num 3)]] }]) ∧
    ExcelDivider.saveFiles 2 blankCellSheet
      = [{ part := 1,
           sheet := [[some (.str (js "a")), some (.str (js "b")), some (.str (js "c"))],
                     [some (.num 1), none, some (.num 3)]] }] ∧
    ((Divider.ExcelDivider.processExcel configExcludeNothing blankCellSheet).2.map
        PartFile.dataRows).flatten ≠ blankCellSheet.drop 1 ∧
    (Divider.ExcelDivider.processExcel configExcludeNothing blankCellSheet).2
      ≠ ExcelDivider.saveFiles 2 blankCellSheet ∧
    Divider.ExcelDivider.processExcel configExcludeFirst exampleSheet
      = (true,
        [{ part := 1,
           sheet := [[some (.str (js "id")), some (.str (js "n"))],
                     [some (.str (js "a"))]] }]) ∧
    (∀ (rowsPerFile : Nat) (headers : SheetRow) (rows : List SheetRow),
      0 < rowsPerFile → rows ≠ [] →
      IsChunking rowsPerFile rows (ExcelDivider.saveFiles rowsPerFile (headers :: rows))) ∧
    (∀ (config : Divider.ExcelDivider.Config) (rowsPerFile : Nat) (ex : List Int)
        (headers : SheetRow) (rows : List SheetRow),
      0 < rowsPerFile → rows ≠ [] →
      config.rowsPerFile = some rowsPerFile → config.excludeColumns = some ex →
      Divider.ExcelDivider.processExcel config (headers :: rows)
        = (true, ExcelDivider.saveFiles rowsPerFile
            (headers :: rows.map
              (Divider.ExcelDivider.filterExcluded (ex.insertionSort (fun a b => b ≤ a))))) ∧
      (∀ (i : Nat) (row : SheetRow), rows[i]? = some row →
        Divider.ExcelDivider.cleanRow config row
          = .ok ((rows.map (Divider.ExcelDivider.filterExcluded
              (ex.insertionSort (fun a b => b ≤ a)))).getD i [])) ∧
      IsChunking rowsPerFile
        (rows.map (Divider.ExcelDivider.filterExcluded (ex.insertionSort (fun a b => b ≤ a))))
        (Divider.ExcelDivider.processExcel config (headers :: rows)).2) := by
  refine ⟨by decide, by decide, by decide, by decide, by decide, ?_, ?_⟩
  · intro k headers rows hk hrows
    exact saveFiles_isChunking k hk headers rows hrows
  · intro config k ex headers rows hk hrows hrp hex
    have h := processExcel_eq_saveFiles config k ex hk hrp hex headers rows hrows
    refine ⟨h, ?_, ?_⟩
    · intro i row hi
      rw [cleanRow_eq_filterExcluded config ex hex]
      simp [List.getD, hi]
    · rw [h]
      exact saveFiles_isChunking k hk headers _ (by simpa using hrows)

end ExcelFileDivider
